import Mathlib

/-!
Verification of a red-black tree implementation (`rbtree.go`).

The Go code is a pointer-machine program: nodes (`Rbnode`) hold `left`,
`right`, `parent` tree links, `prev`/`next` in-order list links, an `Item`
(an interface value supplying a `Less` comparison) and a `color` bit.  A
per-tree sentinel node (`nill`) stands for every absent child and for the
parent of the root.

We embed the heap as an arena: a list of node records addressed by index.
A pointer is `Option Nat`: `none` is the Go `nil` pointer (distinct from a
pointer to the sentinel), `some i` points at arena slot `i`.  Reading
through a dangling or `nil` pointer (a Go panic) yields a junk `default`
node; writing through one is a no-op.  Both are unreachable in the states
the theorems quantify over.

Every loop of the source is translated fuel-indexed and returns `none` when
the fuel runs out (the Go loop would still be running); top-level entry
points supply `arena.length + 1` fuel, which suffices in well-formed trees
because every loop of the source follows a simple path.  Items are a type
parameter `α` and the caller-supplied order contract is a boolean relation
`less`, mirroring the `Item` interface.  A Go `Item` interface value can
wrap either a caller item or (by interface embedding) a node pointer, so
returned items are modeled by `ItemBox`.

Temporary key nodes that the Go wrappers allocate merely to carry an item
into `search`/`insert`/`remove` (and that become unreachable garbage at
once) are modeled by the item they carry, so that arena equality expresses
observable-container equality.
-/

set_option maxRecDepth 10000

namespace RB

/-- A pointer: `none` is the Go `nil` pointer, `some i` points at arena
slot `i`. -/
abbrev Ptr := Option Nat

/-- RED, as in the source (`RED = false`). -/
def RED : Bool := false

/-- BLACK, as in the source (`BLACK = true`). -/
def BLACK : Bool := true

/-- One `Rbnode` record: tree links, list links, the stored item (the
sentinel stores none), and the color bit. -/
structure Node (α : Type) where
  left   : Ptr
  right  : Ptr
  parent : Ptr
  prev   : Ptr
  next   : Ptr
  item   : Option α
  color  : Bool
deriving DecidableEq, Repr

instance {α : Type} : Inhabited (Node α) :=
  ⟨⟨none, none, none, none, none, none, BLACK⟩⟩

/-- The `Rbtree` header: the arena of allocated nodes, the sentinel's
index `nill`, and the `root`, `count`, `first`, `last` fields of the Go
struct. -/
structure Rbtree (α : Type) where
  arena : List (Node α)
  nill  : Nat
  root  : Ptr
  count : Int
  first : Ptr
  last  : Ptr
deriving DecidableEq, Repr

variable {α : Type}

/-- Dereference a pointer (Go `*p`); junk on `nil`/dangling pointers. -/
def Rbtree.getN (t : Rbtree α) (p : Ptr) : Node α :=
  match p with
  | none => default
  | some i => t.arena.getD i default

/-- Overwrite the node a pointer refers to; no-op on `nil`/dangling. -/
def Rbtree.writeN (t : Rbtree α) (p : Ptr) (n : Node α) : Rbtree α :=
  match p with
  | none => t
  | some i => { t with arena := t.arena.set i n }

/-- Go `p.left = v`. -/
def Rbtree.setLeft (t : Rbtree α) (p v : Ptr) : Rbtree α :=
  t.writeN p { t.getN p with left := v }

/-- Go `p.right = v`. -/
def Rbtree.setRight (t : Rbtree α) (p v : Ptr) : Rbtree α :=
  t.writeN p { t.getN p with right := v }

/-- Go `p.parent = v`. -/
def Rbtree.setParent (t : Rbtree α) (p v : Ptr) : Rbtree α :=
  t.writeN p { t.getN p with parent := v }

/-- Go `p.prev = v`. -/
def Rbtree.setPrev (t : Rbtree α) (p v : Ptr) : Rbtree α :=
  t.writeN p { t.getN p with prev := v }

/-- Go `p.next = v`. -/
def Rbtree.setNext (t : Rbtree α) (p v : Ptr) : Rbtree α :=
  t.writeN p { t.getN p with next := v }

/-- Go `p.color = c`. -/
def Rbtree.setColor (t : Rbtree α) (p : Ptr) (c : Bool) : Rbtree α :=
  t.writeN p { t.getN p with color := c }

/-- Go `a.Less(b)` on `Item` interface values; calling through a nil
interface (a Go panic) yields junk `false`, unreachable in the states the
theorems quantify over. -/
def iless (less : α → α → Bool) : Option α → Option α → Bool
  | some a, some b => less a b
  | _, _ => false

/-- The sentinel as allocated by `NewRbtree`/`Init`: all pointer fields
are Go `nil`, no item, colored black. -/
def sentinelNode : Node α := ⟨none, none, none, none, none, none, BLACK⟩

/-- Go `NewRbtree()`: a fresh sentinel at slot 0; `root = first = last =
sentinel`, `count = 0`. -/
def NewRbtree : Rbtree α :=
  ⟨[sentinelNode], 0, some 0, 0, some 0, some 0⟩

/-- Go `Count()`. -/
def Rbtree.Count (t : Rbtree α) : Int := t.count

/-- Go `First()`. -/
def Rbtree.First (t : Rbtree α) : Ptr := t.first

/-- Go `Last()`. -/
def Rbtree.Last (t : Rbtree α) : Ptr := t.last

/-- Go `node.Next()` (reads the cached list link of the node `p`). -/
def Rbtree.Next (t : Rbtree α) (p : Ptr) : Ptr := (t.getN p).next

/-- Go `node.Prev()`. -/
def Rbtree.Prev (t : Rbtree α) (p : Ptr) : Ptr := (t.getN p).prev

/-- Go `leftRotate`, statement by statement (each field is re-read from
the current heap exactly where the source reads it). -/
def leftRotate (t : Rbtree α) (x : Ptr) : Rbtree α :=
  if (t.getN x).right = some t.nill then t else
  let y := (t.getN x).right
  let t := t.setRight x ((t.getN y).left)
  let t := if (t.getN y).left ≠ some t.nill then t.setParent ((t.getN y).left) x else t
  let t := t.setParent y ((t.getN x).parent)
  let t :=
    if (t.getN x).parent = some t.nill then { t with root := y }
    else if x = (t.getN ((t.getN x).parent)).left then t.setLeft ((t.getN x).parent) y
    else t.setRight ((t.getN x).parent) y
  let t := t.setLeft y x
  t.setParent x y

/-- Go `rightRotate`, the mirror image. -/
def rightRotate (t : Rbtree α) (x : Ptr) : Rbtree α :=
  if (t.getN x).left = some t.nill then t else
  let y := (t.getN x).left
  let t := t.setLeft x ((t.getN y).right)
  let t := if (t.getN y).right ≠ some t.nill then t.setParent ((t.getN y).right) x else t
  let t := t.setParent y ((t.getN x).parent)
  let t :=
    if (t.getN x).parent = some t.nill then { t with root := y }
    else if x = (t.getN ((t.getN x).parent)).left then t.setLeft ((t.getN x).parent) y
    else t.setRight ((t.getN x).parent) y
  let t := t.setRight y x
  t.setParent x y

/-- The `for x.left != nill` walk of Go `min` (also inlined in the
two-children case of `remove_raw`). -/
def minLoop (t : Rbtree α) : Nat → Ptr → Option Ptr
  | 0, _ => none
  | fuel + 1, x =>
    if (t.getN x).left ≠ some t.nill then minLoop t fuel ((t.getN x).left) else some x

/-- Go `min`. -/
def minN (t : Rbtree α) (x : Ptr) : Option Ptr :=
  if x = some t.nill then some (some t.nill) else minLoop t (t.arena.length + 1) x

/-- The `for x.right != nill` walk of Go `max`. -/
def maxLoop (t : Rbtree α) : Nat → Ptr → Option Ptr
  | 0, _ => none
  | fuel + 1, x =>
    if (t.getN x).right ≠ some t.nill then maxLoop t fuel ((t.getN x).right) else some x

/-- Go `max`. -/
def maxN (t : Rbtree α) (x : Ptr) : Option Ptr :=
  if x = some t.nill then some (some t.nill) else maxLoop t (t.arena.length + 1) x

/-- The descent loop of Go `search`; the key node is represented by the
item it carries. -/
def searchLoop (t : Rbtree α) (less : α → α → Bool) (key : α) : Nat → Ptr → Option Ptr
  | 0, _ => none
  | fuel + 1, p =>
    if p = some t.nill then some p
    else if iless less (t.getN p).item (some key) then searchLoop t less key fuel ((t.getN p).right)
    else if iless less (some key) ((t.getN p).item) then searchLoop t less key fuel ((t.getN p).left)
    else some p

/-- Go `search`. -/
def search (t : Rbtree α) (less : α → α → Bool) (key : α) : Option Ptr :=
  searchLoop t less key (t.arena.length + 1) t.root

/-- The ancestor walk of Go `successor` (`for y != nill && x == y.right`). -/
def succLoop (t : Rbtree α) : Nat → Ptr → Ptr → Option Ptr
  | 0, _, _ => none
  | fuel + 1, x, y =>
    if y ≠ some t.nill ∧ x = (t.getN y).right then succLoop t fuel y ((t.getN y).parent)
    else some y

/-- Go `successor`. -/
def successor (t : Rbtree α) (x : Ptr) : Option Ptr :=
  if x = some t.nill then some (some t.nill)
  else if (t.getN x).right ≠ some t.nill then minN t ((t.getN x).right)
  else succLoop t (t.arena.length + 1) x ((t.getN x).parent)

/-- One iteration scheme for the `for z.parent.color == RED` loop of Go
`insertFixup`. -/
def insertFixupLoop : Nat → Rbtree α → Ptr → Option (Rbtree α)
  | 0, _, _ => none
  | fuel + 1, t, z =>
    if (t.getN ((t.getN z).parent)).color = RED then
      if (t.getN z).parent = (t.getN ((t.getN ((t.getN z).parent)).parent)).left then
        let y := (t.getN ((t.getN ((t.getN z).parent)).parent)).right
        if (t.getN y).color = RED then
          let t := t.setColor ((t.getN z).parent) BLACK
          let t := t.setColor y BLACK
          let t := t.setColor ((t.getN ((t.getN z).parent)).parent) RED
          let z := (t.getN ((t.getN z).parent)).parent
          insertFixupLoop fuel t z
        else
          let p : Rbtree α × Ptr :=
            if z = (t.getN ((t.getN z).parent)).right then
              let z := (t.getN z).parent
              (leftRotate t z, z)
            else (t, z)
          let t := p.1
          let z := p.2
          let t := t.setColor ((t.getN z).parent) BLACK
          let t := t.setColor ((t.getN ((t.getN z).parent)).parent) RED
          let t := rightRotate t ((t.getN ((t.getN z).parent)).parent)
          insertFixupLoop fuel t z
      else
        let y := (t.getN ((t.getN ((t.getN z).parent)).parent)).left
        if (t.getN y).color = RED then
          let t := t.setColor ((t.getN z).parent) BLACK
          let t := t.setColor y BLACK
          let t := t.setColor ((t.getN ((t.getN z).parent)).parent) RED
          let z := (t.getN ((t.getN z).parent)).parent
          insertFixupLoop fuel t z
        else
          let p : Rbtree α × Ptr :=
            if z = (t.getN ((t.getN z).parent)).left then
              let z := (t.getN z).parent
              (rightRotate t z, z)
            else (t, z)
          let t := p.1
          let z := p.2
          let t := t.setColor ((t.getN z).parent) BLACK
          let t := t.setColor ((t.getN ((t.getN z).parent)).parent) RED
          let t := leftRotate t ((t.getN ((t.getN z).parent)).parent)
          insertFixupLoop fuel t z
    else some t

/-- Go `insertFixup` (the loop, then `t.root.color = BLACK`). -/
def insertFixup (t : Rbtree α) (z : Ptr) : Option (Rbtree α) := do
  let t ← insertFixupLoop (t.arena.length + 1) t z
  return t.setColor t.root BLACK

/-- Go `insert`: the BST descent, the link-in of the fresh red node, the
fixup, and the list splice.  The fresh `Rbnode` that Go allocates in
`Insert` is appended to the arena only when it is actually linked in; on
the duplicate path the Go allocation is unreachable garbage and the
container is untouched. -/
def insertLoop (t : Rbtree α) (less : α → α → Bool) (item : α) :
    Nat → Ptr → Ptr → Option (Ptr × Ptr × Bool)
  | 0, _, _ => none
  | fuel + 1, x, y =>
    if x ≠ some t.nill then
      if iless less (some item) ((t.getN x).item) then
        insertLoop t less item fuel ((t.getN x).left) x
      else if iless less ((t.getN x).item) (some item) then
        insertLoop t less item fuel ((t.getN x).right) x
      else some (x, y, true)
    else some (x, y, false)

/-- Go `insert` (the private method; its argument node is represented by
the item it carries until it is linked in). -/
def insert (t : Rbtree α) (less : α → α → Bool) (item : α) :
    Option (Rbtree α × Ptr × Bool) := do
  let (x, y, found) ← insertLoop t less item (t.arena.length + 1) t.root (some t.nill)
  if found then return (t, x, false)
  else
    let z : Ptr := some t.arena.length
    let t : Rbtree α := { t with
      arena := t.arena ++
        [⟨some t.nill, some t.nill, some t.nill, some t.nill, some t.nill, some item, RED⟩] }
    let t := t.setParent z y
    let t :=
      if y = some t.nill then { t with root := z }
      else if iless less (some item) ((t.getN y).item) then t.setLeft y z
      else t.setRight y z
    let t : Rbtree α := { t with count := t.count + 1 }
    let t ← insertFixup t z
    let s ← successor t z
    let t := t.setNext z s
    let t :=
      if (t.getN z).next ≠ some t.nill then
        let t := t.setPrev z ((t.getN ((t.getN z).next)).prev)
        t.setPrev ((t.getN z).next) z
      else
        let t := t.setPrev z ((t.getN z).parent)
        { t with last := z }
    let t :=
      if (t.getN z).prev ≠ some t.nill then t.setNext ((t.getN z).prev) z
      else { t with first := z }
    return (t, z, true)

/-- Go `transplant`. -/
def transplant (t : Rbtree α) (u v : Ptr) : Rbtree α :=
  let t :=
    if (t.getN u).parent = some t.nill then { t with root := v }
    else if u = (t.getN ((t.getN u).parent)).left then t.setLeft ((t.getN u).parent) v
    else t.setRight ((t.getN u).parent) v
  t.setParent v ((t.getN u).parent)

/-- The structural part of Go `remove_raw` (everything before the
`if yOriginalColor == BLACK` test): returns the new heap, the fixup start
node `x`, and `yOriginalColor`. -/
def remove_struct (t : Rbtree α) (z : Ptr) : Option (Rbtree α × Ptr × Bool) :=
  if (t.getN z).left = some t.nill then
    some (transplant t z ((t.getN z).right), (t.getN z).right, (t.getN z).color)
  else if (t.getN z).right = some t.nill then
    some (transplant t z ((t.getN z).left), (t.getN z).left, (t.getN z).color)
  else do
    let y ← minLoop t (t.arena.length + 1) ((t.getN z).right)
    let yc := (t.getN y).color
    let x := (t.getN y).right
    let t :=
      if (t.getN y).parent = z then t.setParent x y
      else
        let t := transplant t y ((t.getN y).right)
        let t := t.setRight y ((t.getN z).right)
        t.setParent ((t.getN y).right) y
    let t := transplant t z y
    let t := t.setLeft y ((t.getN z).left)
    let t := t.setParent ((t.getN y).left) y
    let t := t.setColor y ((t.getN z).color)
    return (t, x, yc)

/-- One iteration scheme for the `for x != t.root && x.color == BLACK`
loop of Go `deleteFixup`. -/
def deleteFixupLoop : Nat → Rbtree α → Ptr → Option (Rbtree α × Ptr)
  | 0, _, _ => none
  | fuel + 1, t, x =>
    if x ≠ t.root ∧ (t.getN x).color = BLACK then
      if x = (t.getN ((t.getN x).parent)).left then
        let w := (t.getN ((t.getN x).parent)).right
        let p : Rbtree α × Ptr :=
          if (t.getN w).color = RED then
            let t := t.setColor w BLACK
            let t := t.setColor ((t.getN x).parent) RED
            let t := leftRotate t ((t.getN x).parent)
            (t, (t.getN ((t.getN x).parent)).right)
          else (t, w)
        let t := p.1
        let w := p.2
        if (t.getN ((t.getN w).left)).color = BLACK ∧
            (t.getN ((t.getN w).right)).color = BLACK then
          let t := t.setColor w RED
          let x := (t.getN x).parent
          deleteFixupLoop fuel t x
        else
          let q : Rbtree α × Ptr :=
            if (t.getN ((t.getN w).right)).color = BLACK then
              let t := t.setColor ((t.getN w).left) BLACK
              let t := t.setColor w RED
              let t := rightRotate t w
              (t, (t.getN ((t.getN x).parent)).right)
            else (t, w)
          let t := q.1
          let w := q.2
          let t := t.setColor w ((t.getN ((t.getN x).parent)).color)
          let t := t.setColor ((t.getN x).parent) BLACK
          let t := t.setColor ((t.getN w).right) BLACK
          let t := leftRotate t ((t.getN x).parent)
          let x := t.root
          deleteFixupLoop fuel t x
      else
        let w := (t.getN ((t.getN x).parent)).left
        let p : Rbtree α × Ptr :=
          if (t.getN w).color = RED then
            let t := t.setColor w BLACK
            let t := t.setColor ((t.getN x).parent) RED
            let t := rightRotate t ((t.getN x).parent)
            (t, (t.getN ((t.getN x).parent)).left)
          else (t, w)
        let t := p.1
        let w := p.2
        if (t.getN ((t.getN w).left)).color = BLACK ∧
            (t.getN ((t.getN w).right)).color = BLACK then
          let t := t.setColor w RED
          let x := (t.getN x).parent
          deleteFixupLoop fuel t x
        else
          let q : Rbtree α × Ptr :=
            if (t.getN ((t.getN w).left)).color = BLACK then
              let t := t.setColor ((t.getN w).right) BLACK
              let t := t.setColor w RED
              let t := leftRotate t w
              (t, (t.getN ((t.getN x).parent)).left)
            else (t, w)
          let t := q.1
          let w := q.2
          let t := t.setColor w ((t.getN ((t.getN x).parent)).color)
          let t := t.setColor ((t.getN x).parent) BLACK
          let t := t.setColor ((t.getN w).left) BLACK
          let t := rightRotate t ((t.getN x).parent)
          let x := t.root
          deleteFixupLoop fuel t x
    else some (t, x)

/-- Go `deleteFixup` (the loop, then `x.color = BLACK`). -/
def deleteFixup (t : Rbtree α) (x : Ptr) : Option (Rbtree α) := do
  let (t, x) ← deleteFixupLoop (t.arena.length + 1) t x
  return t.setColor x BLACK

/-- Go `remove_raw` (the private method): structural unlink, conditional
fixup, count decrement, and the list splice-out; always returns the node
`z` with `true`. -/
def remove_raw (t : Rbtree α) (z : Ptr) : Option (Rbtree α × Ptr) := do
  let (t, x, yc) ← remove_struct t z
  let t ← if yc = BLACK then deleteFixup t x else some t
  let t : Rbtree α := { t with count := t.count - 1 }
  let t :=
    if (t.getN z).next ≠ some t.nill then t.setPrev ((t.getN z).next) ((t.getN z).prev)
    else { t with last := (t.getN z).prev }
  let t :=
    if (t.getN z).prev ≠ some t.nill then t.setNext ((t.getN z).prev) ((t.getN z).next)
    else { t with first := (t.getN z).next }
  return (t, z)

/-- Go `remove` (the private method; its key node is represented by the
item it carries). -/
def remove (t : Rbtree α) (less : α → α → Bool) (key : α) :
    Option (Rbtree α × Ptr × Bool) := do
  let z ← search t less key
  if z = some t.nill then return (t, none, false)
  else do
    let (t, z) ← remove_raw t z
    return (t, z, true)

/-- A Go `Item` interface value as returned by the public API: either a
caller item, or (by interface embedding of `Item` in `Rbnode`) a node. -/
inductive ItemBox (α : Type) where
  | item (a : α)
  | node (i : Nat)
deriving DecidableEq, Repr

/-- Go `Insert` (public): rejects a nil item, otherwise inserts a fresh
red node carrying it. -/
def Insert (t : Rbtree α) (less : α → α → Bool) (item : Option α) :
    Option (Rbtree α × Ptr × Bool) :=
  match item with
  | none => some (t, none, false)
  | some it => insert t less it

/-- Go `Remove` (public): rejects a nil item; on success returns the
removed node's stored `Item`. -/
def Remove (t : Rbtree α) (less : α → α → Bool) (item : Option α) :
    Option (Rbtree α × Option (ItemBox α) × Bool) :=
  match item with
  | none => some (t, none, false)
  | some it => do
    let (t, z, ok) ← remove t less it
    if ok then
      return (t, (t.getN z).item.map ItemBox.item, true)
    else return (t, none, false)

/-- Go `Remove_raw` (public): rejects a nil handle; otherwise returns the
result of the private `remove_raw` — which is the removed node `z` itself,
coerced to `Item` through the embedded interface, not `z.Item`. -/
def Remove_raw (t : Rbtree α) (z : Ptr) : Option (Rbtree α × Option (ItemBox α) × Bool) :=
  match z with
  | none => some (t, none, false)
  | some i => do
    let (t, z) ← remove_raw t (some i)
    return (t, z.map ItemBox.node, true)

/-- Go `Get` (public): rejects a nil item; otherwise a pure search whose
body performs no heap write, returning the found node or Go `nil`. -/
def Get (t : Rbtree α) (less : α → α → Bool) (item : Option α) : Option Ptr :=
  match item with
  | none => some none
  | some it => do
    let ret ← search t less it
    if ret = some t.nill then return none else return ret


/-! ## Abstraction layer: the index tree a heap state represents -/

/-- The shape of the binary tree hanging off a pointer, recorded as arena
indices. -/
inductive ATree where
  | nil : ATree
  | node (l : ATree) (i : Nat) (r : ATree) : ATree
deriving DecidableEq, Repr

/-- In-order list of arena indices of an abstract tree. -/
def ATree.inorder : ATree → List Nat
  | .nil => []
  | .node l i r => l.inorder ++ i :: r.inorder

/-- Fuel-bounded extraction of the abstract tree below a pointer: `none`
on `nil`/dangling pointers, cycles deeper than the fuel, or out-of-range
indices. -/
def ext (t : Rbtree α) : Nat → Ptr → Option ATree
  | 0, _ => none
  | fuel + 1, p =>
    if p = some t.nill then some ATree.nil
    else
      match p with
      | none => none
      | some i =>
        if i < t.arena.length then
          match ext t fuel ((t.getN (some i)).left), ext t fuel ((t.getN (some i)).right) with
          | some L, some R => some (ATree.node L i R)
          | _, _ => none
        else none

/-- The tree below a pointer, as a relation (fuel-free counterpart of
`ext`). -/
inductive IsTree (t : Rbtree α) : Ptr → ATree → Prop where
  | nil : IsTree t (some t.nill) ATree.nil
  | node {i : Nat} {L R : ATree} :
      i ≠ t.nill → i < t.arena.length →
      IsTree t ((t.getN (some i)).left) L →
      IsTree t ((t.getN (some i)).right) R →
      IsTree t (some i) (ATree.node L i R)

/-- Checks the `parent` back-pointers of every node of the abstract tree
(`up` is the expected parent of the root of `T`). -/
def parentsOKb (t : Rbtree α) : Ptr → ATree → Bool
  | _, ATree.nil => true
  | up, ATree.node L i R =>
    decide ((t.getN (some i)).parent = up) && parentsOKb t (some i) L && parentsOKb t (some i) R

/-- Strict BST ordering of an abstract tree under the order contract. -/
def bstb (t : Rbtree α) (less : α → α → Bool) : ATree → Bool
  | ATree.nil => true
  | ATree.node L i R =>
    bstb t less L && bstb t less R &&
    L.inorder.all (fun j => iless less ((t.getN (some j)).item) ((t.getN (some i)).item)) &&
    R.inorder.all (fun j => iless less ((t.getN (some i)).item) ((t.getN (some j)).item))

/-- The color at the root of an abstract subtree (`nil` stands for the
sentinel, which is black in any state the invariant admits). -/
def rootColor (t : Rbtree α) : ATree → Bool
  | ATree.nil => BLACK
  | ATree.node _ i _ => (t.getN (some i)).color

/-- The red rule: both children of a red node are black. -/
def redOKb (t : Rbtree α) : ATree → Bool
  | ATree.nil => true
  | ATree.node L i R =>
    redOKb t L && redOKb t R &&
    (!((t.getN (some i)).color = RED) || (rootColor t L = BLACK && rootColor t R = BLACK))

/-- Black height of an abstract tree, `none` when the two subtrees of
some node disagree. -/
def bh (t : Rbtree α) : ATree → Option Nat
  | ATree.nil => some 1
  | ATree.node L i R => do
    let bl ← bh t L
    let br ← bh t R
    if bl = br then some (bl + (if (t.getN (some i)).color = BLACK then 1 else 0)) else none

/-- Checks that the doubly linked list threads the given index sequence:
`pr` is the expected `prev` of the first element, and the `next` of the
last element must be the sentinel. -/
def listLinkedb (t : Rbtree α) (pr : Ptr) : List Nat → Bool
  | [] => true
  | a :: rest =>
    decide ((t.getN (some a)).prev = pr) &&
    decide ((t.getN (some a)).next = (match rest with | [] => some t.nill | b :: _ => some b)) &&
    listLinkedb t (some a) rest

/-- A result by which the public API reports "no node here": the Go `nil`
pointer or the tree's sentinel (the only two values the source uses for
absence). -/
def absent (t : Rbtree α) (p : Ptr) : Prop := p = none ∨ p = some t.nill

/-- The well-formedness invariant of a container state: a tree extracted
below `root` whose sentinel is sound, indices are distinct, parent
pointers are coherent, order is strict BST, colors satisfy the red-black
conditions, and the threaded list mirrors the in-order sequence. -/
structure Inv (t : Rbtree α) (less : α → α → Bool) (T : ATree) : Prop where
  tree : ext t (t.arena.length + 1) t.root = some T
  nodup : T.inorder.Nodup
  nill_lt : t.nill < t.arena.length
  sentinel : (t.getN (some t.nill)).color = BLACK ∧ (t.getN (some t.nill)).item = none ∧
    (t.getN (some t.nill)).prev = none ∧ (t.getN (some t.nill)).next = none ∧
    (t.getN (some t.nill)).left = none ∧ (t.getN (some t.nill)).right = none
  parents : parentsOKb t (some t.nill) T = true
  items : ∀ i ∈ T.inorder, ((t.getN (some i)).item).isSome
  bst : bstb t less T = true
  rootBlack : rootColor t T = BLACK
  red : redOKb t T = true
  blackHeight : (bh t T).isSome
  listLinked : listLinkedb t (some t.nill) T.inorder = true
  firstOK : t.first = (match T.inorder with | [] => some t.nill | a :: _ => some a)
  lastOK : t.last = (match T.inorder.getLast? with | none => some t.nill | some a => some a)
  countOK : t.count = T.inorder.length


/-- The integer order used by the repository's own tests (`Int.Less`). -/
def intLess : Int → Int → Bool := fun a b => decide (a < b)

/-- Run a public insert and keep the resulting state (for concrete
examples). -/
def insVal (t : Rbtree Int) (x : Int) : Rbtree Int :=
  ((Insert t intLess (some x)).map (fun r => r.1)).getD t

/-- Concrete example state: items 1 then 2 inserted into a fresh tree
(literal snapshot; `egT2_built` checks it). -/
def egT2 : Rbtree Int :=
  ⟨[⟨none, none, none, none, none, none, BLACK⟩,
    ⟨some 0, some 2, some 0, some 0, some 2, some 1, BLACK⟩,
    ⟨some 0, some 0, some 1, some 1, some 0, some 2, RED⟩],
   0, some 1, 2, some 1, some 2⟩

/-- The abstract tree of `egT2`. -/
def egA2 : ATree := ATree.node ATree.nil 1 (ATree.node ATree.nil 2 ATree.nil)


/-- Run a public remove and keep the resulting state (for concrete
examples). -/
def remVal (t : Rbtree Int) (x : Int) : Rbtree Int :=
  ((Remove t intLess (some x)).map (fun r => r.1)).getD t

/-- Concrete example: one item 5 in a fresh tree (literal snapshot;
`egT1_built` checks it). -/
def egT1 : Rbtree Int :=
  ⟨[⟨none, none, none, none, none, none, BLACK⟩,
    ⟨some 0, some 0, some 0, some 0, some 0, some 5, BLACK⟩],
   0, some 1, 1, some 1, some 1⟩

/-- The state after removing the single node of `egT1` by handle
(literal snapshot; `egT1rm_step` checks it). -/
def egT1rm : Rbtree Int :=
  ⟨[⟨none, none, some 0, none, none, none, BLACK⟩,
    ⟨some 0, some 0, some 0, some 0, some 0, some 5, BLACK⟩],
   0, some 0, 0, some 0, some 0⟩

/-- Intermediate state: item 1 alone (literal snapshot). -/
def egS1 : Rbtree Int :=
  ⟨[⟨none, none, none, none, none, none, BLACK⟩,
    ⟨some 0, some 0, some 0, some 0, some 0, some 1, BLACK⟩],
   0, some 1, 1, some 1, some 1⟩

/-- State after inserting 3 into `egT2` (literal snapshot;
`egT3_step` checks it). -/
def egT3 : Rbtree Int :=
  ⟨[⟨none, none, none, none, none, none, BLACK⟩,
    ⟨some 0, some 0, some 2, some 0, some 2, some 1, RED⟩,
    ⟨some 1, some 3, some 0, some 1, some 3, some 2, BLACK⟩,
    ⟨some 0, some 0, some 2, some 2, some 0, some 3, RED⟩],
   0, some 2, 3, some 1, some 3⟩

/-- State after then removing 3 from `egT3` (literal snapshot;
`egT3rm_step` checks it). -/
def egT3rm : Rbtree Int :=
  ⟨[⟨none, none, some 2, none, none, none, BLACK⟩,
    ⟨some 0, some 0, some 2, some 0, some 2, some 1, RED⟩,
    ⟨some 1, some 0, some 0, some 1, some 0, some 2, BLACK⟩,
    ⟨some 0, some 0, some 2, some 2, some 0, some 3, RED⟩],
   0, some 2, 2, some 1, some 2⟩


/-- Structural-removal result of taking node 2 (two children) out of
`egT3` (literal snapshot; checked inside `claim_C3_witness`). -/
def egT3s : Rbtree Int :=
  ⟨[⟨none, none, some 3, none, none, none, BLACK⟩,
    ⟨some 0, some 0, some 3, some 0, some 2, some 1, RED⟩,
    ⟨some 1, some 3, some 0, some 1, some 3, some 2, BLACK⟩,
    ⟨some 1, some 0, some 0, some 2, some 0, some 3, BLACK⟩],
   0, some 3, 3, some 1, some 3⟩


/-- A pointer confined to an index set: Go `nil`, or an index in `S`.
Writes through such a pointer stay inside `S`. -/
def PtrIn (S : List Nat) (p : Ptr) : Prop :=
  match p with
  | none => True
  | some i => i ∈ S

instance (S : List Nat) (p : Ptr) : Decidable (PtrIn S p) :=
  match p with
  | none => isTrue trivial
  | some i => decidable_of_iff (i ∈ S) Iff.rfl

/-- An index set closed under the tree links, containing the sentinel:
the footprint of `deleteFixup` when started inside it. -/
def ClosedOver (t : Rbtree α) (S : List Nat) : Prop :=
  t.nill ∈ S ∧ ∀ i ∈ S, PtrIn S ((t.getN (some i)).left) ∧
    PtrIn S ((t.getN (some i)).right) ∧ PtrIn S ((t.getN (some i)).parent)

instance (t : Rbtree α) (S : List Nat) : Decidable (ClosedOver t S) := by
  unfold ClosedOver; infer_instance


/-- Result of removing node 2 of `egT3` by handle (literal snapshot;
checked inside `claim_C10_witness`). -/
def egT3r : Rbtree Int :=
  ⟨[⟨none, none, some 3, none, none, none, BLACK⟩,
    ⟨some 0, some 0, some 3, some 0, some 3, some 1, RED⟩,
    ⟨some 1, some 3, some 0, some 1, some 3, some 2, BLACK⟩,
    ⟨some 1, some 0, some 0, some 1, some 0, some 3, BLACK⟩],
   0, some 3, 2, some 1, some 3⟩


/-- The pointer at which an abstract tree hangs (`nil` hangs at the
sentinel). -/
def rootPtr (nill : Nat) : ATree → Ptr
  | ATree.nil => some nill
  | ATree.node _ i _ => some i

/-- Left rotation at the node with index `xi`, on abstract trees (no-op
on a guarded `nil` right child, as in the source). -/
def rotLAt (xi : Nat) : ATree → ATree
  | ATree.nil => ATree.nil
  | ATree.node L i R =>
    if i = xi then
      match R with
      | ATree.node B j C => ATree.node (ATree.node L i B) j C
      | ATree.nil => ATree.node L i R
    else ATree.node (rotLAt xi L) i (rotLAt xi R)

/-- Right rotation at the node with index `xi`, on abstract trees. -/
def rotRAt (xi : Nat) : ATree → ATree
  | ATree.nil => ATree.nil
  | ATree.node L i R =>
    if i = xi then
      match L with
      | ATree.node B j C => ATree.node B j (ATree.node C i R)
      | ATree.nil => ATree.node L i R
    else ATree.node (rotRAt xi L) i (rotRAt xi R)

/-! ## Heap access lemmas -/

/-- A pointer that refers to an allocated arena slot. -/
def Rbtree.Valid (t : Rbtree α) (p : Ptr) : Prop :=
  ∃ i, p = some i ∧ i < t.arena.length

instance (t : Rbtree α) (p : Ptr) : Decidable (t.Valid p) :=
  match p with
  | none => isFalse (by simp [Rbtree.Valid])
  | some i => decidable_of_iff (i < t.arena.length) (by simp [Rbtree.Valid])

theorem getN_none (t : Rbtree α) : t.getN none = default := rfl

theorem writeN_arena_length (t : Rbtree α) (p : Ptr) (n : Node α) :
    (t.writeN p n).arena.length = t.arena.length := by
  cases p <;> simp [Rbtree.writeN]

theorem writeN_nill (t : Rbtree α) (p : Ptr) (n : Node α) : (t.writeN p n).nill = t.nill := by
  cases p <;> simp [Rbtree.writeN]

theorem writeN_root (t : Rbtree α) (p : Ptr) (n : Node α) : (t.writeN p n).root = t.root := by
  cases p <;> simp [Rbtree.writeN]

theorem writeN_count (t : Rbtree α) (p : Ptr) (n : Node α) : (t.writeN p n).count = t.count := by
  cases p <;> simp [Rbtree.writeN]

theorem writeN_first (t : Rbtree α) (p : Ptr) (n : Node α) : (t.writeN p n).first = t.first := by
  cases p <;> simp [Rbtree.writeN]

theorem writeN_last (t : Rbtree α) (p : Ptr) (n : Node α) : (t.writeN p n).last = t.last := by
  cases p <;> simp [Rbtree.writeN]

theorem getN_writeN_same {t : Rbtree α} {p : Ptr} (h : t.Valid p) (n : Node α) :
    (t.writeN p n).getN p = n := by
  obtain ⟨i, rfl, hi⟩ := h
  simp [Rbtree.writeN, Rbtree.getN, List.getD, List.getElem?_set_self, hi]

theorem getN_writeN_ne {t : Rbtree α} {p q : Ptr} (h : q ≠ p) (n : Node α) :
    (t.writeN p n).getN q = t.getN q := by
  cases p with
  | none => rfl
  | some i =>
    cases q with
    | none => rfl
    | some j =>
      have hij : j ≠ i := by intro h'; exact h (by rw [h'])
      simp [Rbtree.writeN, Rbtree.getN, List.getD, List.getElem?_set_ne (fun h' => hij h'.symm)]

/-- Either the write misses `q` entirely, or `q = p`, the write landed and
the new node is `n`. -/
theorem getN_writeN_cases (t : Rbtree α) (p q : Ptr) (n : Node α) :
    (t.writeN p n).getN q = t.getN q ∨ (q = p ∧ t.Valid p ∧ (t.writeN p n).getN q = n) := by
  by_cases hqp : q = p
  · subst hqp
    by_cases hv : t.Valid q
    · exact Or.inr ⟨rfl, hv, getN_writeN_same hv n⟩
    · left
      cases q with
      | none => rfl
      | some i =>
        have : ¬ i < t.arena.length := fun hi => hv ⟨i, rfl, hi⟩
        simp [Rbtree.writeN, Rbtree.getN, List.getD, List.set_eq_of_length_le (Nat.le_of_not_lt this)]
  · exact Or.inl (getN_writeN_ne hqp n)

/-! ## Setter frame lemmas -/


/-- A write that leaves a field of the written node unchanged leaves that
field unchanged at every address. -/
theorem getN_writeN_frame {t : Rbtree α} {p : Ptr} {n : Node α} {β : Type} (f : Node α → β)
    (hf : f n = f (t.getN p)) (q : Ptr) : f ((t.writeN p n).getN q) = f (t.getN q) := by
  rcases getN_writeN_cases t p q n with h | ⟨rfl, _, h⟩
  · rw [h]
  · rw [h, hf]

theorem setLeft_nill (t : Rbtree α) (p : Ptr) (v : Ptr) : (t.setLeft p v).nill = t.nill := writeN_nill ..

theorem setLeft_root (t : Rbtree α) (p : Ptr) (v : Ptr) : (t.setLeft p v).root = t.root := writeN_root ..

theorem setLeft_count (t : Rbtree α) (p : Ptr) (v : Ptr) : (t.setLeft p v).count = t.count := writeN_count ..

theorem setLeft_first (t : Rbtree α) (p : Ptr) (v : Ptr) : (t.setLeft p v).first = t.first := writeN_first ..

theorem setLeft_last (t : Rbtree α) (p : Ptr) (v : Ptr) : (t.setLeft p v).last = t.last := writeN_last ..

theorem setLeft_arena_length (t : Rbtree α) (p : Ptr) (v : Ptr) : (t.setLeft p v).arena.length = t.arena.length := writeN_arena_length ..

theorem setRight_nill (t : Rbtree α) (p : Ptr) (v : Ptr) : (t.setRight p v).nill = t.nill := writeN_nill ..

theorem setRight_root (t : Rbtree α) (p : Ptr) (v : Ptr) : (t.setRight p v).root = t.root := writeN_root ..

theorem setRight_count (t : Rbtree α) (p : Ptr) (v : Ptr) : (t.setRight p v).count = t.count := writeN_count ..

theorem setRight_first (t : Rbtree α) (p : Ptr) (v : Ptr) : (t.setRight p v).first = t.first := writeN_first ..

theorem setRight_last (t : Rbtree α) (p : Ptr) (v : Ptr) : (t.setRight p v).last = t.last := writeN_last ..

theorem setRight_arena_length (t : Rbtree α) (p : Ptr) (v : Ptr) : (t.setRight p v).arena.length = t.arena.length := writeN_arena_length ..

theorem setParent_nill (t : Rbtree α) (p : Ptr) (v : Ptr) : (t.setParent p v).nill = t.nill := writeN_nill ..

theorem setParent_root (t : Rbtree α) (p : Ptr) (v : Ptr) : (t.setParent p v).root = t.root := writeN_root ..

theorem setParent_count (t : Rbtree α) (p : Ptr) (v : Ptr) : (t.setParent p v).count = t.count := writeN_count ..

theorem setParent_first (t : Rbtree α) (p : Ptr) (v : Ptr) : (t.setParent p v).first = t.first := writeN_first ..

theorem setParent_last (t : Rbtree α) (p : Ptr) (v : Ptr) : (t.setParent p v).last = t.last := writeN_last ..

theorem setParent_arena_length (t : Rbtree α) (p : Ptr) (v : Ptr) : (t.setParent p v).arena.length = t.arena.length := writeN_arena_length ..

theorem setPrev_nill (t : Rbtree α) (p : Ptr) (v : Ptr) : (t.setPrev p v).nill = t.nill := writeN_nill ..

theorem setPrev_root (t : Rbtree α) (p : Ptr) (v : Ptr) : (t.setPrev p v).root = t.root := writeN_root ..

theorem setPrev_count (t : Rbtree α) (p : Ptr) (v : Ptr) : (t.setPrev p v).count = t.count := writeN_count ..

theorem setPrev_first (t : Rbtree α) (p : Ptr) (v : Ptr) : (t.setPrev p v).first = t.first := writeN_first ..

theorem setPrev_last (t : Rbtree α) (p : Ptr) (v : Ptr) : (t.setPrev p v).last = t.last := writeN_last ..

theorem setPrev_arena_length (t : Rbtree α) (p : Ptr) (v : Ptr) : (t.setPrev p v).arena.length = t.arena.length := writeN_arena_length ..

theorem setNext_nill (t : Rbtree α) (p : Ptr) (v : Ptr) : (t.setNext p v).nill = t.nill := writeN_nill ..

theorem setNext_root (t : Rbtree α) (p : Ptr) (v : Ptr) : (t.setNext p v).root = t.root := writeN_root ..

theorem setNext_count (t : Rbtree α) (p : Ptr) (v : Ptr) : (t.setNext p v).count = t.count := writeN_count ..

theorem setNext_first (t : Rbtree α) (p : Ptr) (v : Ptr) : (t.setNext p v).first = t.first := writeN_first ..

theorem setNext_last (t : Rbtree α) (p : Ptr) (v : Ptr) : (t.setNext p v).last = t.last := writeN_last ..

theorem setNext_arena_length (t : Rbtree α) (p : Ptr) (v : Ptr) : (t.setNext p v).arena.length = t.arena.length := writeN_arena_length ..

theorem setColor_nill (t : Rbtree α) (p : Ptr) (c : Bool) : (t.setColor p c).nill = t.nill := writeN_nill ..

theorem setColor_root (t : Rbtree α) (p : Ptr) (c : Bool) : (t.setColor p c).root = t.root := writeN_root ..

theorem setColor_count (t : Rbtree α) (p : Ptr) (c : Bool) : (t.setColor p c).count = t.count := writeN_count ..

theorem setColor_first (t : Rbtree α) (p : Ptr) (c : Bool) : (t.setColor p c).first = t.first := writeN_first ..

theorem setColor_last (t : Rbtree α) (p : Ptr) (c : Bool) : (t.setColor p c).last = t.last := writeN_last ..

theorem setColor_arena_length (t : Rbtree α) (p : Ptr) (c : Bool) : (t.setColor p c).arena.length = t.arena.length := writeN_arena_length ..

theorem right_setLeft (t : Rbtree α) (p : Ptr) (v : Ptr) (q : Ptr) :
    ((t.setLeft p v).getN q).right = (t.getN q).right := by
  unfold Rbtree.setLeft; apply getN_writeN_frame; rfl

theorem parent_setLeft (t : Rbtree α) (p : Ptr) (v : Ptr) (q : Ptr) :
    ((t.setLeft p v).getN q).parent = (t.getN q).parent := by
  unfold Rbtree.setLeft; apply getN_writeN_frame; rfl

theorem prev_setLeft (t : Rbtree α) (p : Ptr) (v : Ptr) (q : Ptr) :
    ((t.setLeft p v).getN q).prev = (t.getN q).prev := by
  unfold Rbtree.setLeft; apply getN_writeN_frame; rfl

theorem next_setLeft (t : Rbtree α) (p : Ptr) (v : Ptr) (q : Ptr) :
    ((t.setLeft p v).getN q).next = (t.getN q).next := by
  unfold Rbtree.setLeft; apply getN_writeN_frame; rfl

theorem item_setLeft (t : Rbtree α) (p : Ptr) (v : Ptr) (q : Ptr) :
    ((t.setLeft p v).getN q).item = (t.getN q).item := by
  unfold Rbtree.setLeft; apply getN_writeN_frame; rfl

theorem color_setLeft (t : Rbtree α) (p : Ptr) (v : Ptr) (q : Ptr) :
    ((t.setLeft p v).getN q).color = (t.getN q).color := by
  unfold Rbtree.setLeft; apply getN_writeN_frame; rfl

theorem left_setRight (t : Rbtree α) (p : Ptr) (v : Ptr) (q : Ptr) :
    ((t.setRight p v).getN q).left = (t.getN q).left := by
  unfold Rbtree.setRight; apply getN_writeN_frame; rfl

theorem parent_setRight (t : Rbtree α) (p : Ptr) (v : Ptr) (q : Ptr) :
    ((t.setRight p v).getN q).parent = (t.getN q).parent := by
  unfold Rbtree.setRight; apply getN_writeN_frame; rfl

theorem prev_setRight (t : Rbtree α) (p : Ptr) (v : Ptr) (q : Ptr) :
    ((t.setRight p v).getN q).prev = (t.getN q).prev := by
  unfold Rbtree.setRight; apply getN_writeN_frame; rfl

theorem next_setRight (t : Rbtree α) (p : Ptr) (v : Ptr) (q : Ptr) :
    ((t.setRight p v).getN q).next = (t.getN q).next := by
  unfold Rbtree.setRight; apply getN_writeN_frame; rfl

theorem item_setRight (t : Rbtree α) (p : Ptr) (v : Ptr) (q : Ptr) :
    ((t.setRight p v).getN q).item = (t.getN q).item := by
  unfold Rbtree.setRight; apply getN_writeN_frame; rfl

theorem color_setRight (t : Rbtree α) (p : Ptr) (v : Ptr) (q : Ptr) :
    ((t.setRight p v).getN q).color = (t.getN q).color := by
  unfold Rbtree.setRight; apply getN_writeN_frame; rfl

theorem left_setParent (t : Rbtree α) (p : Ptr) (v : Ptr) (q : Ptr) :
    ((t.setParent p v).getN q).left = (t.getN q).left := by
  unfold Rbtree.setParent; apply getN_writeN_frame; rfl

theorem right_setParent (t : Rbtree α) (p : Ptr) (v : Ptr) (q : Ptr) :
    ((t.setParent p v).getN q).right = (t.getN q).right := by
  unfold Rbtree.setParent; apply getN_writeN_frame; rfl

theorem prev_setParent (t : Rbtree α) (p : Ptr) (v : Ptr) (q : Ptr) :
    ((t.setParent p v).getN q).prev = (t.getN q).prev := by
  unfold Rbtree.setParent; apply getN_writeN_frame; rfl

theorem next_setParent (t : Rbtree α) (p : Ptr) (v : Ptr) (q : Ptr) :
    ((t.setParent p v).getN q).next = (t.getN q).next := by
  unfold Rbtree.setParent; apply getN_writeN_frame; rfl

theorem item_setParent (t : Rbtree α) (p : Ptr) (v : Ptr) (q : Ptr) :
    ((t.setParent p v).getN q).item = (t.getN q).item := by
  unfold Rbtree.setParent; apply getN_writeN_frame; rfl

theorem color_setParent (t : Rbtree α) (p : Ptr) (v : Ptr) (q : Ptr) :
    ((t.setParent p v).getN q).color = (t.getN q).color := by
  unfold Rbtree.setParent; apply getN_writeN_frame; rfl

theorem left_setPrev (t : Rbtree α) (p : Ptr) (v : Ptr) (q : Ptr) :
    ((t.setPrev p v).getN q).left = (t.getN q).left := by
  unfold Rbtree.setPrev; apply getN_writeN_frame; rfl

theorem right_setPrev (t : Rbtree α) (p : Ptr) (v : Ptr) (q : Ptr) :
    ((t.setPrev p v).getN q).right = (t.getN q).right := by
  unfold Rbtree.setPrev; apply getN_writeN_frame; rfl

theorem parent_setPrev (t : Rbtree α) (p : Ptr) (v : Ptr) (q : Ptr) :
    ((t.setPrev p v).getN q).parent = (t.getN q).parent := by
  unfold Rbtree.setPrev; apply getN_writeN_frame; rfl

theorem next_setPrev (t : Rbtree α) (p : Ptr) (v : Ptr) (q : Ptr) :
    ((t.setPrev p v).getN q).next = (t.getN q).next := by
  unfold Rbtree.setPrev; apply getN_writeN_frame; rfl

theorem item_setPrev (t : Rbtree α) (p : Ptr) (v : Ptr) (q : Ptr) :
    ((t.setPrev p v).getN q).item = (t.getN q).item := by
  unfold Rbtree.setPrev; apply getN_writeN_frame; rfl

theorem color_setPrev (t : Rbtree α) (p : Ptr) (v : Ptr) (q : Ptr) :
    ((t.setPrev p v).getN q).color = (t.getN q).color := by
  unfold Rbtree.setPrev; apply getN_writeN_frame; rfl

theorem left_setNext (t : Rbtree α) (p : Ptr) (v : Ptr) (q : Ptr) :
    ((t.setNext p v).getN q).left = (t.getN q).left := by
  unfold Rbtree.setNext; apply getN_writeN_frame; rfl

theorem right_setNext (t : Rbtree α) (p : Ptr) (v : Ptr) (q : Ptr) :
    ((t.setNext p v).getN q).right = (t.getN q).right := by
  unfold Rbtree.setNext; apply getN_writeN_frame; rfl

theorem parent_setNext (t : Rbtree α) (p : Ptr) (v : Ptr) (q : Ptr) :
    ((t.setNext p v).getN q).parent = (t.getN q).parent := by
  unfold Rbtree.setNext; apply getN_writeN_frame; rfl

theorem prev_setNext (t : Rbtree α) (p : Ptr) (v : Ptr) (q : Ptr) :
    ((t.setNext p v).getN q).prev = (t.getN q).prev := by
  unfold Rbtree.setNext; apply getN_writeN_frame; rfl

theorem item_setNext (t : Rbtree α) (p : Ptr) (v : Ptr) (q : Ptr) :
    ((t.setNext p v).getN q).item = (t.getN q).item := by
  unfold Rbtree.setNext; apply getN_writeN_frame; rfl

theorem color_setNext (t : Rbtree α) (p : Ptr) (v : Ptr) (q : Ptr) :
    ((t.setNext p v).getN q).color = (t.getN q).color := by
  unfold Rbtree.setNext; apply getN_writeN_frame; rfl

theorem left_setColor (t : Rbtree α) (p : Ptr) (c : Bool) (q : Ptr) :
    ((t.setColor p c).getN q).left = (t.getN q).left := by
  unfold Rbtree.setColor; apply getN_writeN_frame; rfl

theorem right_setColor (t : Rbtree α) (p : Ptr) (c : Bool) (q : Ptr) :
    ((t.setColor p c).getN q).right = (t.getN q).right := by
  unfold Rbtree.setColor; apply getN_writeN_frame; rfl

theorem parent_setColor (t : Rbtree α) (p : Ptr) (c : Bool) (q : Ptr) :
    ((t.setColor p c).getN q).parent = (t.getN q).parent := by
  unfold Rbtree.setColor; apply getN_writeN_frame; rfl

theorem prev_setColor (t : Rbtree α) (p : Ptr) (c : Bool) (q : Ptr) :
    ((t.setColor p c).getN q).prev = (t.getN q).prev := by
  unfold Rbtree.setColor; apply getN_writeN_frame; rfl

theorem next_setColor (t : Rbtree α) (p : Ptr) (c : Bool) (q : Ptr) :
    ((t.setColor p c).getN q).next = (t.getN q).next := by
  unfold Rbtree.setColor; apply getN_writeN_frame; rfl

theorem item_setColor (t : Rbtree α) (p : Ptr) (c : Bool) (q : Ptr) :
    ((t.setColor p c).getN q).item = (t.getN q).item := by
  unfold Rbtree.setColor; apply getN_writeN_frame; rfl

theorem getN_setLeft_same {t : Rbtree α} {p : Ptr} (h : t.Valid p) (v : Ptr) :
    ((t.setLeft p v).getN p).left = v := by rw [Rbtree.setLeft, getN_writeN_same h]

theorem getN_setLeft_ne {t : Rbtree α} {p q : Ptr} (h : q ≠ p) (v : Ptr) :
    (t.setLeft p v).getN q = t.getN q := getN_writeN_ne h _

theorem getN_setRight_same {t : Rbtree α} {p : Ptr} (h : t.Valid p) (v : Ptr) :
    ((t.setRight p v).getN p).right = v := by rw [Rbtree.setRight, getN_writeN_same h]

theorem getN_setRight_ne {t : Rbtree α} {p q : Ptr} (h : q ≠ p) (v : Ptr) :
    (t.setRight p v).getN q = t.getN q := getN_writeN_ne h _

theorem getN_setParent_same {t : Rbtree α} {p : Ptr} (h : t.Valid p) (v : Ptr) :
    ((t.setParent p v).getN p).parent = v := by rw [Rbtree.setParent, getN_writeN_same h]

theorem getN_setParent_ne {t : Rbtree α} {p q : Ptr} (h : q ≠ p) (v : Ptr) :
    (t.setParent p v).getN q = t.getN q := getN_writeN_ne h _

theorem getN_setPrev_same {t : Rbtree α} {p : Ptr} (h : t.Valid p) (v : Ptr) :
    ((t.setPrev p v).getN p).prev = v := by rw [Rbtree.setPrev, getN_writeN_same h]

theorem getN_setPrev_ne {t : Rbtree α} {p q : Ptr} (h : q ≠ p) (v : Ptr) :
    (t.setPrev p v).getN q = t.getN q := getN_writeN_ne h _

theorem getN_setNext_same {t : Rbtree α} {p : Ptr} (h : t.Valid p) (v : Ptr) :
    ((t.setNext p v).getN p).next = v := by rw [Rbtree.setNext, getN_writeN_same h]

theorem getN_setNext_ne {t : Rbtree α} {p q : Ptr} (h : q ≠ p) (v : Ptr) :
    (t.setNext p v).getN q = t.getN q := getN_writeN_ne h _

theorem getN_setColor_same {t : Rbtree α} {p : Ptr} (h : t.Valid p) (c : Bool) :
    ((t.setColor p c).getN p).color = c := by rw [Rbtree.setColor, getN_writeN_same h]

theorem getN_setColor_ne {t : Rbtree α} {p q : Ptr} (h : q ≠ p) (c : Bool) :
    (t.setColor p c).getN q = t.getN q := getN_writeN_ne h _

/-! ## Frame facts: rotations and fixups touch only tree links and colors -/

theorem getN_withRoot (t : Rbtree α) (y q : Ptr) : Rbtree.getN { t with root := y } q = t.getN q := rfl

theorem getN_withCount (t : Rbtree α) (c : Int) (q : Ptr) :
    Rbtree.getN { t with count := c } q = t.getN q := rfl

theorem getN_withFirst (t : Rbtree α) (y q : Ptr) : Rbtree.getN { t with first := y } q = t.getN q := rfl

theorem getN_withLast (t : Rbtree α) (y q : Ptr) : Rbtree.getN { t with last := y } q = t.getN q := rfl

/-- States that agree on everything the list/count observations see — the
sentinel index, header `count`/`first`/`last`, arena size, and every
node's `item`, `prev`, `next` — and may differ only in tree links
(`left`/`right`/`parent`), colors and `root`.  Rotations and both fixup
procedures relate states this way. -/
def SameAux (t t' : Rbtree α) : Prop :=
  t'.nill = t.nill ∧ t'.count = t.count ∧ t'.first = t.first ∧ t'.last = t.last ∧
  t'.arena.length = t.arena.length ∧
  ∀ q, (t'.getN q).item = (t.getN q).item ∧ (t'.getN q).prev = (t.getN q).prev ∧
    (t'.getN q).next = (t.getN q).next

theorem sameAux_refl (t : Rbtree α) : SameAux t t :=
  ⟨rfl, rfl, rfl, rfl, rfl, fun _ => ⟨rfl, rfl, rfl⟩⟩

theorem SameAux.trans {t₁ t₂ t₃ : Rbtree α} (h₁ : SameAux t₁ t₂) (h₂ : SameAux t₂ t₃) :
    SameAux t₁ t₃ := by
  obtain ⟨a1, b1, c1, d1, e1, f1⟩ := h₁
  obtain ⟨a2, b2, c2, d2, e2, f2⟩ := h₂
  refine ⟨a2.trans a1, b2.trans b1, c2.trans c1, d2.trans d1, e2.trans e1, fun q => ?_⟩
  obtain ⟨i1, p1, n1⟩ := f1 q
  obtain ⟨i2, p2, n2⟩ := f2 q
  exact ⟨i2.trans i1, p2.trans p1, n2.trans n1⟩

theorem sameAux_setLeft (t : Rbtree α) (p v : Ptr) : SameAux t (t.setLeft p v) :=
  ⟨setLeft_nill .., setLeft_count .., setLeft_first .., setLeft_last .., setLeft_arena_length ..,
   fun q => ⟨item_setLeft t p v q, prev_setLeft t p v q, next_setLeft t p v q⟩⟩

theorem sameAux_setRight (t : Rbtree α) (p v : Ptr) : SameAux t (t.setRight p v) :=
  ⟨setRight_nill .., setRight_count .., setRight_first .., setRight_last .., setRight_arena_length ..,
   fun q => ⟨item_setRight t p v q, prev_setRight t p v q, next_setRight t p v q⟩⟩

theorem sameAux_setParent (t : Rbtree α) (p v : Ptr) : SameAux t (t.setParent p v) :=
  ⟨setParent_nill .., setParent_count .., setParent_first .., setParent_last .., setParent_arena_length ..,
   fun q => ⟨item_setParent t p v q, prev_setParent t p v q, next_setParent t p v q⟩⟩

theorem sameAux_setColor (t : Rbtree α) (p : Ptr) (c : Bool) : SameAux t (t.setColor p c) :=
  ⟨setColor_nill .., setColor_count .., setColor_first .., setColor_last .., setColor_arena_length ..,
   fun q => ⟨item_setColor t p c q, prev_setColor t p c q, next_setColor t p c q⟩⟩

theorem sameAux_ext_setLeft {t t' : Rbtree α} (h : SameAux t t') (p v : Ptr) :
    SameAux t (t'.setLeft p v) := h.trans (sameAux_setLeft ..)

theorem sameAux_ext_setRight {t t' : Rbtree α} (h : SameAux t t') (p v : Ptr) :
    SameAux t (t'.setRight p v) := h.trans (sameAux_setRight ..)

theorem sameAux_ext_setParent {t t' : Rbtree α} (h : SameAux t t') (p v : Ptr) :
    SameAux t (t'.setParent p v) := h.trans (sameAux_setParent ..)

theorem sameAux_ext_setColor {t t' : Rbtree α} (h : SameAux t t') (p : Ptr) (c : Bool) :
    SameAux t (t'.setColor p c) := h.trans (sameAux_setColor ..)

theorem sameAux_ext_withRoot {t t' : Rbtree α} (h : SameAux t t') (y : Ptr) :
    SameAux t { t' with root := y } :=
  h.trans ⟨rfl, rfl, rfl, rfl, rfl, fun _ => ⟨rfl, rfl, rfl⟩⟩

theorem sameAux_withRoot (t : Rbtree α) (y : Ptr) : SameAux t { t with root := y } :=
  ⟨rfl, rfl, rfl, rfl, rfl, fun _ => ⟨rfl, rfl, rfl⟩⟩

theorem sameAux_leftRotate (t : Rbtree α) (x : Ptr) : SameAux t (leftRotate t x) := by
  unfold leftRotate
  split
  · exact sameAux_refl t
  · lift_lets
    extract_lets y a b c d e
    have ha : SameAux t a := sameAux_setRight ..
    have hb : SameAux t b := by
      unfold_let b; split
      · exact ha.trans (sameAux_setParent ..)
      · exact ha
    have hc : SameAux t c := hb.trans (sameAux_setParent ..)
    have hd : SameAux t d := by
      unfold_let d; split
      · exact hc.trans (sameAux_withRoot ..)
      · split
        · exact hc.trans (sameAux_setLeft ..)
        · exact hc.trans (sameAux_setRight ..)
    have he : SameAux t e := hd.trans (sameAux_setLeft ..)
    exact he.trans (sameAux_setParent ..)

theorem sameAux_rightRotate (t : Rbtree α) (x : Ptr) : SameAux t (rightRotate t x) := by
  unfold rightRotate
  split
  · exact sameAux_refl t
  · lift_lets
    extract_lets y a b c d e
    have ha : SameAux t a := sameAux_setLeft ..
    have hb : SameAux t b := by
      unfold_let b; split
      · exact ha.trans (sameAux_setParent ..)
      · exact ha
    have hc : SameAux t c := hb.trans (sameAux_setParent ..)
    have hd : SameAux t d := by
      unfold_let d; split
      · exact hc.trans (sameAux_withRoot ..)
      · split
        · exact hc.trans (sameAux_setLeft ..)
        · exact hc.trans (sameAux_setRight ..)
    have he : SameAux t e := hd.trans (sameAux_setRight ..)
    exact he.trans (sameAux_setParent ..)

theorem sameAux_transplant (t : Rbtree α) (u v : Ptr) : SameAux t (transplant t u v) := by
  unfold transplant
  lift_lets
  extract_lets a
  have ha : SameAux t a := by
    unfold_let a; split
    · exact sameAux_withRoot ..
    · split
      · exact sameAux_setLeft ..
      · exact sameAux_setRight ..
  exact ha.trans (sameAux_setParent ..)
theorem sameAux_insertFixupLoop {fuel : Nat} :
    ∀ {t : Rbtree α} {z : Ptr} {t' : Rbtree α}, insertFixupLoop fuel t z = some t' → SameAux t t' := by
  induction fuel with
  | zero => intro t z t' h; simp [insertFixupLoop] at h
  | succ fuel ih =>
    intro t z t' h
    rw [insertFixupLoop] at h
    split at h
    · split at h
      · lift_lets at h
        extract_lets y a1 a2 a3 z1 zp p b1 zb b2 b3 b4 at h
        split at h
        · have h1 : SameAux t a1 := sameAux_setColor ..
          have h2 : SameAux t a2 := h1.trans (sameAux_setColor ..)
          have h3 : SameAux t a3 := h2.trans (sameAux_setColor ..)
          exact h3.trans (ih h)
        · have hp : SameAux t b1 := by
            unfold_let b1 p
            split
            · exact sameAux_leftRotate ..
            · exact sameAux_refl t
          have h2 : SameAux t b2 := hp.trans (sameAux_setColor ..)
          have h3 : SameAux t b3 := h2.trans (sameAux_setColor ..)
          have h4 : SameAux t b4 := h3.trans (sameAux_rightRotate ..)
          exact h4.trans (ih h)
      · lift_lets at h
        extract_lets y a1 a2 a3 z1 zp p b1 zb b2 b3 b4 at h
        split at h
        · have h1 : SameAux t a1 := sameAux_setColor ..
          have h2 : SameAux t a2 := h1.trans (sameAux_setColor ..)
          have h3 : SameAux t a3 := h2.trans (sameAux_setColor ..)
          exact h3.trans (ih h)
        · have hp : SameAux t b1 := by
            unfold_let b1 p
            split
            · exact sameAux_rightRotate ..
            · exact sameAux_refl t
          have h2 : SameAux t b2 := hp.trans (sameAux_setColor ..)
          have h3 : SameAux t b3 := h2.trans (sameAux_setColor ..)
          have h4 : SameAux t b4 := h3.trans (sameAux_leftRotate ..)
          exact h4.trans (ih h)
    · cases h; exact sameAux_refl t
theorem sameAux_deleteFixupLoop {fuel : Nat} :
    ∀ {t : Rbtree α} {x : Ptr} {r : Rbtree α × Ptr}, deleteFixupLoop fuel t x = some r → SameAux t r.1 := by
  induction fuel with
  | zero => intro t x r h; simp [deleteFixupLoop] at h
  | succ fuel ih =>
    intro t x r h
    rw [deleteFixupLoop] at h
    split at h
    · split at h
      · lift_lets at h
        extract_lets w2 c1 c2 c3 p t9 w1 t8 x1 t7 t6 t5 q t4 w t3 t2 t1 t0 x0 at h
        have hp : SameAux t t9 := by
          unfold_let t9 p
          split
          · exact ((sameAux_setColor ..).trans (sameAux_setColor ..)).trans (sameAux_leftRotate ..)
          · exact sameAux_refl t
        split at h
        · exact (hp.trans (sameAux_setColor ..)).trans (ih h)
        · have hq : SameAux t t4 := by
            unfold_let t4 q
            split
            · exact ((hp.trans (sameAux_setColor ..)).trans (sameAux_setColor ..)).trans
                (sameAux_rightRotate ..)
            · exact hp
          exact ((((hq.trans (sameAux_setColor ..)).trans (sameAux_setColor ..)).trans
            (sameAux_setColor ..)).trans (sameAux_leftRotate ..)).trans (ih h)
      · lift_lets at h
        extract_lets w2 c1 c2 c3 p t9 w1 t8 x1 t7 t6 t5 q t4 w t3 t2 t1 t0 x0 at h
        have hp : SameAux t t9 := by
          unfold_let t9 p
          split
          · exact ((sameAux_setColor ..).trans (sameAux_setColor ..)).trans (sameAux_rightRotate ..)
          · exact sameAux_refl t
        split at h
        · exact (hp.trans (sameAux_setColor ..)).trans (ih h)
        · have hq : SameAux t t4 := by
            unfold_let t4 q
            split
            · exact ((hp.trans (sameAux_setColor ..)).trans (sameAux_setColor ..)).trans
                (sameAux_leftRotate ..)
            · exact hp
          exact ((((hq.trans (sameAux_setColor ..)).trans (sameAux_setColor ..)).trans
            (sameAux_setColor ..)).trans (sameAux_rightRotate ..)).trans (ih h)
    · cases h; exact sameAux_refl t

theorem sameAux_insertFixup {t : Rbtree α} {z : Ptr} {t' : Rbtree α}
    (h : insertFixup t z = some t') : SameAux t t' := by
  unfold insertFixup at h
  cases hh : insertFixupLoop (t.arena.length + 1) t z with
  | none => rw [hh] at h; simp at h
  | some t1 =>
    rw [hh] at h
    simp at h
    subst h
    exact (sameAux_insertFixupLoop hh).trans (sameAux_setColor ..)

theorem sameAux_deleteFixup {t : Rbtree α} {x : Ptr} {t' : Rbtree α}
    (h : deleteFixup t x = some t') : SameAux t t' := by
  unfold deleteFixup at h
  cases hh : deleteFixupLoop (t.arena.length + 1) t x with
  | none => rw [hh] at h; simp at h
  | some r =>
    rw [hh] at h
    simp at h
    subst h
    exact (sameAux_deleteFixupLoop hh).trans (sameAux_setColor ..)

/-! ## Abstraction lemmas -/

theorem ext_isTree {t : Rbtree α} :
    ∀ {fuel : Nat} {p : Ptr} {T : ATree}, ext t fuel p = some T → IsTree t p T := by
  intro fuel
  induction fuel with
  | zero => intro p T h; simp [ext] at h
  | succ fuel ih =>
    intro p T h
    rw [ext.eq_def] at h
    dsimp only [] at h
    split at h
    · rename_i hp
      cases h
      rw [hp]
      exact IsTree.nil
    · rename_i hp
      cases p with
      | none =>
        dsimp only [] at h
        exact Option.noConfusion h
      | some i =>
        dsimp only [] at h
        split at h
        · rename_i hlt
          split at h
          · rename_i L R hL hR
            cases h
            exact IsTree.node (fun hni => hp (by rw [hni])) hlt (ih hL) (ih hR)
          · exact Option.noConfusion h
        · exact Option.noConfusion h

theorem isTree_mem_lt {t : Rbtree α} {p : Ptr} {T : ATree} (hT : IsTree t p T) :
    ∀ j ∈ T.inorder, j < t.arena.length ∧ j ≠ t.nill := by
  induction hT with
  | nil => intro j hj; simp [ATree.inorder] at hj
  | node hni hlt hL hR ihL ihR =>
    intro j hj
    simp only [ATree.inorder, List.mem_append, List.mem_cons] at hj
    rcases hj with hj | hj | hj
    · exact ihL j hj
    · subst hj; exact ⟨hlt, hni⟩
    · exact ihR j hj

theorem nodup_length_le {l : List Nat} {n : Nat} (hd : l.Nodup) (hlt : ∀ j ∈ l, j < n) :
    l.length ≤ n := by
  have hsub : l ⊆ List.range n := fun j hj => List.mem_range.mpr (hlt j hj)
  simpa using (hd.subperm hsub).length_le

/-- Two items are equal in the sense of the source: neither is less than
the other. -/
def eqv (less : α → α → Bool) (a b : Option α) : Prop :=
  iless less a b = false ∧ iless less b a = false

instance (less : α → α → Bool) (a b : Option α) : Decidable (eqv less a b) := by
  unfold eqv; infer_instance

theorem searchLoop_notFound {t : Rbtree α} {less : α → α → Bool} {key : α} :
    ∀ {T : ATree} {p : Ptr}, IsTree t p T →
    (∀ j ∈ T.inorder, ¬ eqv less (some key) ((t.getN (some j)).item)) →
    ∀ {fuel : Nat}, T.inorder.length < fuel →
    searchLoop t less key fuel p = some (some t.nill) := by
  intro T
  induction T with
  | nil =>
    intro p hT _ fuel hfuel
    cases hT
    match fuel, hfuel with
    | fuel + 1, _ => simp [searchLoop]
  | node L i R ihL ihR =>
    intro p hT hne fuel hfuel
    cases hT with
    | node hni hlt hL hR =>
      match fuel, hfuel with
      | fuel + 1, hfuel =>
        have hmem : i ∈ (ATree.node L i R).inorder := by simp [ATree.inorder]
        have hlen : (ATree.node L i R).inorder.length = L.inorder.length + 1 + R.inorder.length := by
          simp [ATree.inorder]; omega
        rw [searchLoop]
        rw [if_neg (by simpa using hni)]
        rcases hcase : iless less ((t.getN (some i)).item) (some key) with _ | _
        · rcases hcase2 : iless less (some key) ((t.getN (some i)).item) with _ | _
          · exact absurd ⟨hcase2, hcase⟩ (hne i hmem)
          · simp only [hcase, hcase2, Bool.false_eq_true, if_false, if_true]
            refine ihL hL (fun j hj => hne j ?_) ?_
            · simp only [ATree.inorder, List.mem_append, List.mem_cons]; left; exact hj
            · rw [hlen] at hfuel; omega
        · simp only [hcase, if_true]
          refine ihR hR (fun j hj => hne j ?_) ?_
          · simp only [ATree.inorder, List.mem_append, List.mem_cons]; right; right; exact hj
          · rw [hlen] at hfuel; omega

/-- The order contract the callers must supply (as for Go's `sort`
package): a strict weak order given as a boolean `Less`. -/
def WeakOrder (less : α → α → Bool) : Prop :=
  (∀ a, less a a = false) ∧
  (∀ a b c, less a b = true → less b c = true → less a c = true) ∧
  (∀ a b c, less a b = false → less b c = false → less a c = false)

theorem iless_some_some (less : α → α → Bool) (a b : α) :
    iless less (some a) (some b) = less a b := rfl

theorem searchLoop_found {t : Rbtree α} {less : α → α → Bool} {key : α}
    (hw : WeakOrder less) :
    ∀ {T : ATree} {p : Ptr}, IsTree t p T → bstb t less T = true →
    (∀ j ∈ T.inorder, ((t.getN (some j)).item).isSome) →
    ∀ {j0 : Nat}, j0 ∈ T.inorder → eqv less (some key) ((t.getN (some j0)).item) →
    ∀ {fuel : Nat}, T.inorder.length < fuel →
    searchLoop t less key fuel p = some (some j0) := by
  obtain ⟨hw1, hw2, hw3⟩ := hw
  intro T
  induction T with
  | nil => intro p hT hbst hit j0 hj0 heqv fuel hfuel; simp [ATree.inorder] at hj0
  | node L i R ihL ihR =>
    intro p hT hbst hitems j0 hj0 heqv fuel hfuel
    cases hT with
    | node hni hlt hL hR =>
    match fuel, hfuel with
    | fuel + 1, hfuel =>
    have hlen : (ATree.node L i R).inorder.length = L.inorder.length + 1 + R.inorder.length := by
      simp [ATree.inorder]; omega
    simp only [bstb, Bool.and_eq_true, List.all_eq_true] at hbst
    obtain ⟨⟨⟨hbL, hbR⟩, hbLi⟩, hbiR⟩ := hbst
    have hii : i ∈ (ATree.node L i R).inorder := by simp [ATree.inorder]
    obtain ⟨ai, hai⟩ := Option.isSome_iff_exists.mp (hitems i hii)
    obtain ⟨aj, haj⟩ := Option.isSome_iff_exists.mp (hitems j0 hj0)
    have he1 : less key aj = false := by
      have := heqv.1; rw [haj, iless_some_some] at this; exact this
    have he2 : less aj key = false := by
      have := heqv.2; rw [haj, iless_some_some] at this; exact this
    rw [searchLoop, if_neg (by simpa using hni)]
    simp only [ATree.inorder, List.mem_append, List.mem_cons] at hj0
    rcases hj0 with hj0 | rfl | hj0
    · have hlj : less aj ai = true := by
        have := hbLi j0 hj0; rw [haj, hai, iless_some_some] at this; exact this
      have hc1 : less ai key = false := by
        cases hc : less ai key with
        | false => rfl
        | true => exact absurd (hw2 aj ai key hlj hc) (by rw [he2]; simp)
      have hc2 : less key ai = true := by
        cases hc : less key ai with
        | true => rfl
        | false => exact absurd (hw3 aj key ai he2 hc) (by rw [hlj]; simp)
      rw [hai, iless_some_some, hc1]
      simp only [Bool.false_eq_true, if_false, iless_some_some, hc2, if_true]
      refine ihL hL (by exact hbL) (fun j hj => hitems j (by
        simp only [ATree.inorder, List.mem_append, List.mem_cons]; left; exact hj)) hj0 heqv ?_
      rw [hlen] at hfuel; omega
    · rw [haj] at hai
      cases hai
      rw [haj, iless_some_some, he2]
      simp only [Bool.false_eq_true, if_false, iless_some_some, he1]
    · have hlj : less ai aj = true := by
        have := hbiR j0 hj0; rw [haj, hai, iless_some_some] at this; exact this
      have hc1 : less ai key = true := by
        cases hc : less ai key with
        | true => rfl
        | false => exact absurd (hw3 ai key aj hc he1) (by rw [hlj]; simp)
      rw [hai, iless_some_some, hc1]
      simp only [if_true]
      refine ihR hR (by exact hbR) (fun j hj => hitems j (by
        simp only [ATree.inorder, List.mem_append, List.mem_cons]; right; right; exact hj)) hj0 heqv ?_
      rw [hlen] at hfuel; omega

/-! ## Search wrappers and the error-path claims -/

theorem inorder_length_le {t : Rbtree α} {p : Ptr} {T : ATree} (hT : IsTree t p T)
    (hd : T.inorder.Nodup) : T.inorder.length ≤ t.arena.length :=
  nodup_length_le hd (fun j hj => (isTree_mem_lt hT j hj).1)

theorem search_notFound {t : Rbtree α} {less : α → α → Bool} {key : α} {T : ATree}
    (hI : Inv t less T)
    (hne : ∀ j ∈ T.inorder, ¬ eqv less (some key) ((t.getN (some j)).item)) :
    search t less key = some (some t.nill) := by
  have hT := ext_isTree hI.tree
  exact searchLoop_notFound hT hne (Nat.lt_succ_of_le (inorder_length_le hT hI.nodup))

theorem search_found {t : Rbtree α} {less : α → α → Bool} {key : α} {T : ATree}
    (hI : Inv t less T) (hw : WeakOrder less) {j0 : Nat} (hj0 : j0 ∈ T.inorder)
    (heqv : eqv less (some key) ((t.getN (some j0)).item)) :
    search t less key = some (some j0) := by
  have hT := ext_isTree hI.tree
  exact searchLoop_found hw hT hI.bst hI.items hj0 heqv
    (Nat.lt_succ_of_le (inorder_length_le hT hI.nodup))

theorem listLinked_head_prev {t : Rbtree α} {pr : Ptr} {a : Nat} {rest : List Nat}
    (h : listLinkedb t pr (a :: rest) = true) : (t.getN (some a)).prev = pr := by
  simp only [listLinkedb, Bool.and_eq_true, decide_eq_true_eq] at h
  exact h.1.1

theorem listLinked_getLast_next {t : Rbtree α} :
    ∀ {l : List Nat} {pr : Ptr} {a : Nat}, listLinkedb t pr l = true →
    l.getLast? = some a → (t.getN (some a)).next = some t.nill := by
  intro l
  induction l with
  | nil => intro pr a h hl; simp at hl
  | cons b rest ih =>
    intro pr a h hl
    simp only [listLinkedb, Bool.and_eq_true, decide_eq_true_eq] at h
    cases rest with
    | nil =>
      simp at hl
      subst hl
      exact h.1.2
    | cons c rest2 =>
      rw [List.getLast?_cons_cons] at hl
      exact ih h.2 hl

/-- C7: on an empty container `Remove` of any item returns `(nil, false)`
and `First`/`Last` return the sentinel (absence); and in any well-formed
container, `Next()` of the last node and `Prev()` of the first node are
absent (Go `nil` on the empty container's sentinel endpoints, the sentinel
otherwise): an endpoint has no neighbor. -/
theorem claim_C7 {α : Type} (less : α → α → Bool) (x : α) (t : Rbtree α) (T : ATree)
    (hI : Inv t less T) :
    Remove (NewRbtree : Rbtree α) less (some x) = some (NewRbtree, none, false) ∧
    Rbtree.First (NewRbtree : Rbtree α) = some (NewRbtree : Rbtree α).nill ∧
    Rbtree.Last (NewRbtree : Rbtree α) = some (NewRbtree : Rbtree α).nill ∧
    absent t (t.Next t.Last) ∧ absent t (t.Prev t.First) := by
  refine ⟨rfl, rfl, rfl, ?_, ?_⟩
  · rw [Rbtree.Next, Rbtree.Last, hI.lastOK]
    cases hl : T.inorder.getLast? with
    | none =>
      left
      exact hI.sentinel.2.2.2.1
    | some a =>
      right
      exact listLinked_getLast_next hI.listLinked hl
  · rw [Rbtree.Prev, Rbtree.First, hI.firstOK]
    cases hlst : T.inorder with
    | nil =>
      left
      exact hI.sentinel.2.2.1
    | cons a rest =>
      right
      have := hI.listLinked
      rw [hlst] at this
      exact listLinked_head_prev this

/-- C7 witness at a concrete state. -/
theorem claim_C7_witness :
    Remove (NewRbtree : Rbtree Int) intLess (some 5) = some (NewRbtree, none, false) ∧
    Rbtree.First (NewRbtree : Rbtree Int) = some (NewRbtree : Rbtree Int).nill ∧
    Rbtree.Last (NewRbtree : Rbtree Int) = some (NewRbtree : Rbtree Int).nill ∧
    absent egT2 (egT2.Next egT2.Last) ∧ absent egT2 (egT2.Prev egT2.First) :=
  claim_C7 intLess 5 egT2 egA2
    ⟨by decide, by decide, by decide, by decide, by decide, by decide, by decide, by decide,
     by decide, by decide, by decide, by decide, by decide, by decide⟩

/-- C9: a nil item passed to `Insert`, `Remove` or `Get` yields the
unsuccessful result with the state unchanged, and a `Remove` or `Get` of
an item matching no stored item (no stored item compares equal) yields the
unsuccessful result with the state unchanged (`Get` performs no heap
write by definition). -/
theorem claim_C9 {α : Type} (less : α → α → Bool) (t : Rbtree α) (T : ATree) (x : α)
    (hI : Inv t less T)
    (hx : ∀ j ∈ T.inorder, ¬ eqv less (some x) ((t.getN (some j)).item)) :
    Insert t less none = some (t, none, false) ∧
    Remove t less none = some (t, none, false) ∧
    Get t less none = some none ∧
    Remove t less (some x) = some (t, none, false) ∧
    Get t less (some x) = some none := by
  refine ⟨rfl, rfl, rfl, ?_, ?_⟩
  · unfold Remove remove
    dsimp only []
    rw [search_notFound hI hx]
    simp
  · unfold Get
    dsimp only []
    rw [search_notFound hI hx]
    simp

/-- C9 witness at a concrete state. -/
theorem claim_C9_witness :
    Insert egT2 intLess none = some (egT2, none, false) ∧
    Remove egT2 intLess none = some (egT2, none, false) ∧
    Get egT2 intLess none = some none ∧
    Remove egT2 intLess (some 5) = some (egT2, none, false) ∧
    Get egT2 intLess (some 5) = some none :=
  claim_C9 intLess egT2 egA2 5
    ⟨by decide, by decide, by decide, by decide, by decide, by decide, by decide, by decide,
     by decide, by decide, by decide, by decide, by decide, by decide⟩
    (by decide)

/-! ## The example states are honest container states -/

theorem egT1_built : insVal NewRbtree 5 = egT1 := by decide

theorem egS1_built : insVal NewRbtree 1 = egS1 := by decide

theorem egT2_built : insVal egS1 2 = egT2 := by decide

theorem egT1rm_step : remove_raw egT1 (some 1) = some (egT1rm, some 1) := by decide

theorem egT3_step : insVal egT2 3 = egT3 := by decide

theorem egT3rm_step : Remove egT3 intLess (some 3) = some (egT3rm, some (ItemBox.item 3), true) := by
  decide

/-! ## Remove_raw result shape (claim C4) -/

theorem remove_raw_snd {t : Rbtree α} {z : Ptr} {t' : Rbtree α} {r : Ptr}
    (h : remove_raw t z = some (t', r)) : r = z := by
  unfold remove_raw at h
  cases hs : remove_struct t z with
  | none => rw [hs] at h; simp at h
  | some a =>
    obtain ⟨t1, x, yc⟩ := a
    rw [hs] at h
    simp only [Option.bind_eq_bind, Option.some_bind] at h
    split at h
    · cases hd : deleteFixup t1 x with
      | none => rw [hd] at h; simp at h
      | some t2 =>
        rw [hd] at h
        simp at h
        exact h.2.symm
    · simp at h
      exact h.2.symm

/-- C4 (amended): a null handle is rejected with no mutation; a non-null
handle `z` on which the private `remove_raw` completes yields `ok = true`
together with the removed node `z` itself coerced to `Item` through the
embedded interface (not the node's stored item), and a `Remove` whose
search lands on the same node `z` produces the very same final state — the
fixup and list splice are the shared `remove_raw`. -/
theorem claim_C4 {α : Type} (t : Rbtree α) (z : Nat) (t' : Rbtree α) (r : Ptr)
    (h : remove_raw t (some z) = some (t', r)) (less : α → α → Bool) (key : α)
    (hs : search t less key = some (some z)) (hzn : z ≠ t.nill) :
    Remove_raw t none = some (t, none, false) ∧
    r = some z ∧
    Remove_raw t (some z) = some (t', some (ItemBox.node z), true) ∧
    Remove t less (some key) = some (t', ((t'.getN (some z)).item).map ItemBox.item, true) := by
  have hr : r = some z := remove_raw_snd h
  subst hr
  refine ⟨rfl, rfl, ?_, ?_⟩
  · unfold Remove_raw
    dsimp only []
    rw [h]
    rfl
  · unfold Remove remove
    dsimp only []
    rw [hs]
    simp only [Option.bind_eq_bind, Option.some_bind]
    rw [if_neg (by simpa using hzn)]
    rw [h]
    simp only [Option.bind_eq_bind, Option.some_bind]
    rfl

/-- C4 counterexample to the claim as stated: removing the only node of a
one-node tree by handle returns the node itself boxed as an `Item`
interface value (`ItemBox.node 1`), not the node's stored item `5`. -/
theorem claim_C4_counterexample :
    (Remove_raw egT1 (some 1)).map (fun r => r.2) = some (some (ItemBox.node 1), true) ∧
    (egT1.getN (some 1)).item = some 5 ∧
    some (ItemBox.node 1) ≠ (some (ItemBox.item (5 : Int))) := by decide

/-- C4 witness at a concrete state. -/
theorem claim_C4_witness :
    Remove_raw egT1 none = some (egT1, none, false) ∧
    (some 1 : Ptr) = some 1 ∧
    Remove_raw egT1 (some 1) = some (egT1rm, some (ItemBox.node 1), true) ∧
    Remove egT1 intLess (some 5) =
      some (egT1rm, ((egT1rm.getN (some 1)).item).map ItemBox.item, true) :=
  claim_C4 egT1 1 egT1rm (some 1) (by decide) intLess 5 (by decide) (by decide)

/-- C5 counterexample: starting from the two-item state `egT2` (items 1
and 2, root item 1), 3 is not present; inserting 3 and then removing it
returns `(3, true)` and restores `count`, but the root of the resulting
tree holds item 2 — the tree shape is not restored, colors aside. -/
theorem claim_C5_counterexample :
    Remove (insVal egT2 3) intLess (some 3) = some (egT3rm, some (ItemBox.item 3), true) ∧
    egT3rm.count = egT2.count ∧
    (egT3rm.getN egT3rm.root).item = some 2 ∧
    (egT2.getN egT2.root).item = some 1 := by
  refine ⟨?_, by decide, by decide, by decide⟩
  rw [egT3_step]
  exact egT3rm_step

/-! ## The two-children case of remove_raw (claim C3) -/

theorem sameAux_remove_struct {t : Rbtree α} {z : Ptr} {t1 : Rbtree α} {x : Ptr} {yc : Bool}
    (h : remove_struct t z = some (t1, x, yc)) : SameAux t t1 := by
  unfold remove_struct at h
  split at h
  · cases h; exact sameAux_transplant ..
  · split at h
    · cases h; exact sameAux_transplant ..
    · cases hm : minLoop t (t.arena.length + 1) ((t.getN z).right) with
      | none => rw [hm] at h; simp at h
      | some y =>
        rw [hm, Option.bind_eq_bind, Option.some_bind] at h
        lift_lets at h
        extract_lets ycv xv a b c d e f g at h
        simp only [pure, Option.some_inj, Prod.mk.injEq] at h
        obtain ⟨ht, hx, hyc⟩ := h
        subst ht
        have hc : SameAux t c := by
          unfold_let c
          split
          · exact sameAux_setParent ..
          · refine SameAux.trans ?_ (sameAux_setParent ..)
            refine SameAux.trans ?_ (sameAux_setRight ..)
            exact sameAux_transplant ..
        refine SameAux.trans ?_ (sameAux_setColor ..)
        refine SameAux.trans ?_ (sameAux_setParent ..)
        refine SameAux.trans ?_ (sameAux_setLeft ..)
        exact hc.trans (sameAux_transplant ..)

/-! ## Transplant field lemmas -/

theorem transplant_arena_length (t : Rbtree α) (u v : Ptr) :
    (transplant t u v).arena.length = t.arena.length := (sameAux_transplant t u v).2.2.2.2.1

theorem transplant_nill (t : Rbtree α) (u v : Ptr) : (transplant t u v).nill = t.nill :=
  (sameAux_transplant t u v).1

theorem color_transplant (t : Rbtree α) (u v q : Ptr) :
    ((transplant t u v).getN q).color = (t.getN q).color := by
  unfold transplant
  rw [color_setParent]
  split
  · rfl
  · split
    · rw [color_setLeft]
    · rw [color_setRight]

theorem left_transplant {t : Rbtree α} {u q : Ptr} (v : Ptr) (h : q ≠ (t.getN u).parent) :
    ((transplant t u v).getN q).left = (t.getN q).left := by
  unfold transplant
  rw [left_setParent]
  split
  · rfl
  · split
    · rw [getN_setLeft_ne h]
    · rw [left_setRight]

theorem right_transplant {t : Rbtree α} {u q : Ptr} (v : Ptr) (h : q ≠ (t.getN u).parent) :
    ((transplant t u v).getN q).right = (t.getN q).right := by
  unfold transplant
  rw [right_setParent]
  split
  · rfl
  · split
    · rw [right_setLeft]
    · rw [getN_setRight_ne h]

theorem parent_transplant {t : Rbtree α} {u v q : Ptr} (h : q ≠ v) :
    ((transplant t u v).getN q).parent = (t.getN q).parent := by
  unfold transplant
  rw [getN_setParent_ne h]
  split
  · rfl
  · split
    · rw [parent_setLeft]
    · rw [parent_setRight]

theorem parent_transplant_same {t : Rbtree α} {u v : Ptr} (hv : ∃ i, v = some i ∧ i < t.arena.length) :
    ((transplant t u v).getN v).parent = (t.getN u).parent := by
  unfold transplant
  lift_lets
  extract_lets a
  have hva : a.Valid v := by
    obtain ⟨i, rfl, hi⟩ := hv
    refine ⟨i, rfl, ?_⟩
    unfold_let a
    split
    · simpa using hi
    · split
      · rw [setLeft_arena_length]; exact hi
      · rw [setRight_arena_length]; exact hi
  rw [Rbtree.setParent, getN_writeN_same hva]
  show (a.getN u).parent = (t.getN u).parent
  unfold_let a
  split
  · rfl
  · split
    · rw [parent_setLeft]
    · rw [parent_setRight]

theorem transplant_root_of_nill {t : Rbtree α} {u : Ptr} (v : Ptr)
    (h : (t.getN u).parent = some t.nill) : (transplant t u v).root = v := by
  unfold transplant
  rw [setParent_root]
  rw [if_pos h]

theorem transplant_root_of_not {t : Rbtree α} {u : Ptr} (v : Ptr)
    (h : (t.getN u).parent ≠ some t.nill) : (transplant t u v).root = t.root := by
  unfold transplant
  rw [setParent_root]
  rw [if_neg h]
  split
  · rw [setLeft_root]
  · rw [setRight_root]

theorem transplant_slot {t : Rbtree α} {u : Ptr} {pi : Nat} (v : Ptr)
    (hp : (t.getN u).parent = some pi) (hpn : pi ≠ t.nill) (hv : pi < t.arena.length) :
    ((transplant t u v).getN (some pi)).left = v ∨ ((transplant t u v).getN (some pi)).right = v := by
  unfold transplant
  rw [hp]
  rw [if_neg (by simpa using hpn)]
  split
  · left
    rw [left_setParent, getN_setLeft_same ⟨pi, rfl, hv⟩]
  · right
    rw [right_setParent, getN_setRight_same ⟨pi, rfl, hv⟩]

theorem getN_transplant_ne {t : Rbtree α} {u v q : Ptr} (h1 : q ≠ (t.getN u).parent)
    (h2 : q ≠ v) : (transplant t u v).getN q = t.getN q := by
  unfold transplant
  rw [getN_setParent_ne h2]
  split
  · rfl
  · split
    · exact getN_setLeft_ne h1 _
    · exact getN_setRight_ne h1 _


/-- C3: removing a node `zi` with two children relocates the in-order
successor `yi` (the minimum of the right subtree, where the inlined walk
stops): `yi`'s stored item is untouched (and so is the detached node
`zi`'s), the node object `yi` itself is rewired into `zi`'s position
(parent link, left child and the position's color all taken over, and the
old parent's child slot — or the root — now references `yi`), and the
color handed to the `if yOriginalColor == BLACK` fixup test is `yi`'s
original color, not `zi`'s. -/
theorem claim_C3 {α : Type} (t : Rbtree α) (zi yi : Nat) (t1 : Rbtree α) (x : Ptr) (yc : Bool)
    (hyv : yi < t.arena.length) (hd5 : yi ≠ zi)
    (hl : (t.getN (some zi)).left ≠ some t.nill)
    (hr : (t.getN (some zi)).right ≠ some t.nill)
    (hy : minLoop t (t.arena.length + 1) ((t.getN (some zi)).right) = some (some yi))
    (hd1 : (t.getN (some yi)).right ≠ some zi)
    (hd3 : (t.getN (some zi)).parent ≠ some zi)
    (hd4 : (t.getN (some zi)).parent ≠ some yi)
    (hd7 : (t.getN (some zi)).left ≠ some yi)
    (hd9 : (t.getN (some zi)).right ≠ some zi)
    (h : remove_struct t (some zi) = some (t1, x, yc)) :
    yc = (t.getN (some yi)).color ∧
    (t1.getN (some yi)).item = (t.getN (some yi)).item ∧
    (t1.getN (some zi)).item = (t.getN (some zi)).item ∧
    (t1.getN (some yi)).parent = (t.getN (some zi)).parent ∧
    (t1.getN (some yi)).color = (t.getN (some zi)).color ∧
    (t1.getN (some yi)).left = (t.getN (some zi)).left ∧
    ((t.getN (some zi)).parent = some t.nill → t1.root = some yi) ∧
    (∀ pi, (t.getN (some zi)).parent = some pi → pi ≠ t.nill → pi < t.arena.length →
      (t1.getN (some pi)).left = some yi ∨ (t1.getN (some pi)).right = some yi) := by
  have hitems := (sameAux_remove_struct h).2.2.2.2.2
  unfold remove_struct at h
  rw [if_neg hl, if_neg hr] at h
  rw [hy, Option.bind_eq_bind, Option.some_bind] at h
  lift_lets at h
  extract_lets ycv xv a b c d e f g at h
  simp only [pure, Option.some_inj, Prod.mk.injEq] at h
  obtain ⟨ht, hxx, hyc⟩ := h
  subst ht
  -- lengths and sentinel indices of the intermediate states
  have hLa : a.arena.length = t.arena.length := by
    unfold_let a; exact transplant_arena_length ..
  have hLb : b.arena.length = t.arena.length := by
    unfold_let b; rw [setRight_arena_length, hLa]
  have hLc : c.arena.length = t.arena.length := by
    unfold_let c; split
    · rw [setParent_arena_length]
    · rw [setParent_arena_length, hLb]
  have hLd : d.arena.length = t.arena.length := by
    unfold_let d; rw [transplant_arena_length, hLc]
  have hLe : e.arena.length = t.arena.length := by
    unfold_let e; rw [setLeft_arena_length, hLd]
  have hLf : f.arena.length = t.arena.length := by
    unfold_let f; rw [setParent_arena_length, hLe]
  have hNc : c.nill = t.nill := by
    unfold_let c; split
    · rw [setParent_nill]
    · rw [setParent_nill]
      unfold_let b
      rw [setRight_nill]
      unfold_let a
      exact transplant_nill ..
  -- node zi's record is untouched up to state c
  have hcz : c.getN (some zi) = t.getN (some zi) := by
    unfold_let c; split
    · exact getN_setParent_ne (Ne.symm hd1) _
    · rename_i hnp
      have htarget : (b.getN (some yi)).right = (t.getN (some zi)).right := by
        unfold_let b
        rw [getN_setRight_same ⟨yi, rfl, by rw [hLa]; exact hyv⟩]
        unfold_let a
        exact right_transplant _ (Ne.symm hnp)
      rw [getN_setParent_ne (by rw [htarget]; exact Ne.symm hd9)]
      unfold_let b
      rw [getN_setRight_ne (fun hq => hd5 (Option.some.inj hq).symm)]
      unfold_let a
      exact getN_transplant_ne (Ne.symm hnp) (Ne.symm hd1)
  -- the left child written into yi
  have hel : (e.getN (some yi)).left = (t.getN (some zi)).left := by
    unfold_let e
    rw [getN_setLeft_same ⟨yi, rfl, by rw [hLd]; exact hyv⟩]
    unfold_let d
    rw [left_transplant _ (by rw [hcz]; exact Ne.symm hd3)]
    rw [hcz]
  refine ⟨hyc.symm, (hitems (some yi)).1, (hitems (some zi)).1, ?_, ?_, ?_, ?_, ?_⟩
  · -- parent of yi
    unfold_let g
    rw [parent_setColor]
    unfold_let f
    rw [getN_setParent_ne (by rw [hel]; exact Ne.symm hd7)]
    unfold_let e
    rw [parent_setLeft]
    unfold_let d
    rw [parent_transplant_same ⟨yi, rfl, by rw [hLc]; exact hyv⟩]
    rw [hcz]
  · -- color of yi
    unfold_let g
    rw [getN_setColor_same ⟨yi, rfl, by rw [hLf]; exact hyv⟩]
    unfold_let f
    rw [color_setParent]
    unfold_let e
    rw [color_setLeft]
    unfold_let d
    rw [color_transplant]
    rw [hcz]
  · -- left of yi
    unfold_let g
    rw [left_setColor]
    unfold_let f
    rw [left_setParent]
    exact hel
  · -- root case
    intro hzp
    unfold_let g
    rw [setColor_root]
    unfold_let f
    rw [setParent_root]
    unfold_let e
    rw [setLeft_root]
    unfold_let d
    exact transplant_root_of_nill _ (by rw [hcz, hNc]; exact hzp)
  · -- parent slot case
    intro pi hzp hpn hpv
    have hpy : (some pi : Ptr) ≠ some yi := by
      intro hq
      exact hd4 (hzp.trans hq)
    have hslot := transplant_slot (t := c) (u := some zi) (some yi)
      (by rw [hcz]; exact hzp) (by rw [hNc]; exact hpn) (by rw [hLc]; exact hpv)
    rcases hslot with hs | hs
    · left
      unfold_let g
      rw [left_setColor]
      unfold_let f
      rw [left_setParent]
      unfold_let e
      rw [getN_setLeft_ne hpy]
      exact hs
    · right
      unfold_let g
      rw [right_setColor]
      unfold_let f
      rw [right_setParent]
      unfold_let e
      rw [right_setLeft]
      exact hs

/-- C3 witness: in `egT3` the root (item 2, black) has two children; its
successor is node 3 (red).  The fixup flag is `RED` — node 3's original
color, although the removed node itself is black — and node 3 takes over
the root position with its item intact. -/
theorem claim_C3_witness :
    (false : Bool) = (egT3.getN (some 3)).color ∧
    (egT3s.getN (some 3)).item = (egT3.getN (some 3)).item ∧
    (egT3s.getN (some 2)).item = (egT3.getN (some 2)).item ∧
    (egT3s.getN (some 3)).parent = (egT3.getN (some 2)).parent ∧
    (egT3s.getN (some 3)).color = (egT3.getN (some 2)).color ∧
    (egT3s.getN (some 3)).left = (egT3.getN (some 2)).left ∧
    ((egT3.getN (some 2)).parent = some egT3.nill → egT3s.root = some 3) ∧
    (∀ pi, (egT3.getN (some 2)).parent = some pi → pi ≠ egT3.nill → pi < egT3.arena.length →
      (egT3s.getN (some pi)).left = some 3 ∨ (egT3s.getN (some pi)).right = some 3) :=
  claim_C3 egT3 2 3 egT3s (some 0) false (by decide) (by decide) (by decide) (by decide)
    (by decide) (by decide) (by decide) (by decide) (by decide) (by decide) (by decide)

/-! ## Footprint of deleteFixup (claim C10) -/

theorem ptrIn_ne {S : List Nat} {p : Ptr} {j : Nat} (hp : PtrIn S p) (hj : j ∉ S) :
    (some j : Ptr) ≠ p := by
  cases p with
  | none => simp
  | some i =>
    intro hq
    cases hq
    exact hj hp

theorem ptrIn_left {t : Rbtree α} {S : List Nat} {x : Ptr} (hc : ClosedOver t S)
    (hx : PtrIn S x) : PtrIn S ((t.getN x).left) := by
  cases x with
  | none => exact trivial
  | some i => exact (hc.2 i hx).1

theorem ptrIn_right {t : Rbtree α} {S : List Nat} {x : Ptr} (hc : ClosedOver t S)
    (hx : PtrIn S x) : PtrIn S ((t.getN x).right) := by
  cases x with
  | none => exact trivial
  | some i => exact (hc.2 i hx).2.1

theorem ptrIn_parent {t : Rbtree α} {S : List Nat} {x : Ptr} (hc : ClosedOver t S)
    (hx : PtrIn S x) : PtrIn S ((t.getN x).parent) := by
  cases x with
  | none => exact trivial
  | some i => exact (hc.2 i hx).2.2

theorem closedOver_of_fields {t t' : Rbtree α} {S : List Nat} (hc : ClosedOver t S)
    (hn : t'.nill = t.nill)
    (hf : ∀ q, (t'.getN q).left = (t.getN q).left ∧ (t'.getN q).right = (t.getN q).right ∧
      (t'.getN q).parent = (t.getN q).parent) : ClosedOver t' S := by
  refine ⟨by rw [hn]; exact hc.1, fun i hi => ?_⟩
  obtain ⟨h1, h2, h3⟩ := hf (some i)
  rw [h1, h2, h3]
  exact hc.2 i hi

theorem closedOver_setLeft {t : Rbtree α} {S : List Nat} {p v : Ptr} (hc : ClosedOver t S)
    (hv : PtrIn S v) : ClosedOver (t.setLeft p v) S := by
  refine ⟨by rw [setLeft_nill]; exact hc.1, fun i hi => ?_⟩
  refine ⟨?_, by rw [right_setLeft]; exact (hc.2 i hi).2.1,
    by rw [parent_setLeft]; exact (hc.2 i hi).2.2⟩
  rcases getN_writeN_cases t p (some i) { t.getN p with left := v } with hcase | ⟨hq, _, hcase⟩
  · rw [Rbtree.setLeft, hcase]; exact (hc.2 i hi).1
  · rw [Rbtree.setLeft, hcase]; exact hv

theorem closedOver_setRight {t : Rbtree α} {S : List Nat} {p v : Ptr} (hc : ClosedOver t S)
    (hv : PtrIn S v) : ClosedOver (t.setRight p v) S := by
  refine ⟨by rw [setRight_nill]; exact hc.1, fun i hi => ?_⟩
  refine ⟨by rw [left_setRight]; exact (hc.2 i hi).1, ?_,
    by rw [parent_setRight]; exact (hc.2 i hi).2.2⟩
  rcases getN_writeN_cases t p (some i) { t.getN p with right := v } with hcase | ⟨hq, _, hcase⟩
  · rw [Rbtree.setRight, hcase]; exact (hc.2 i hi).2.1
  · rw [Rbtree.setRight, hcase]; exact hv

theorem closedOver_setParent {t : Rbtree α} {S : List Nat} {p v : Ptr} (hc : ClosedOver t S)
    (hv : PtrIn S v) : ClosedOver (t.setParent p v) S := by
  refine ⟨by rw [setParent_nill]; exact hc.1, fun i hi => ?_⟩
  refine ⟨by rw [left_setParent]; exact (hc.2 i hi).1,
    by rw [right_setParent]; exact (hc.2 i hi).2.1, ?_⟩
  rcases getN_writeN_cases t p (some i) { t.getN p with parent := v } with hcase | ⟨hq, _, hcase⟩
  · rw [Rbtree.setParent, hcase]; exact (hc.2 i hi).2.2
  · rw [Rbtree.setParent, hcase]; exact hv

theorem closedOver_setColor {t : Rbtree α} {S : List Nat} {p : Ptr} {cb : Bool}
    (hc : ClosedOver t S) : ClosedOver (t.setColor p cb) S :=
  closedOver_of_fields hc (setColor_nill ..)
    (fun q => ⟨left_setColor .., right_setColor .., parent_setColor ..⟩)

theorem closedOver_withRoot {t : Rbtree α} {S : List Nat} {y : Ptr} (hc : ClosedOver t S) :
    ClosedOver { t with root := y } S :=
  closedOver_of_fields hc rfl (fun _ => ⟨rfl, rfl, rfl⟩)

theorem leftRotate_S {t : Rbtree α} {S : List Nat} {x : Ptr} (hc : ClosedOver t S)
    (hx : PtrIn S x) :
    ClosedOver (leftRotate t x) S ∧
    (∀ j, j ∉ S → (leftRotate t x).getN (some j) = t.getN (some j)) ∧
    (PtrIn S t.root → PtrIn S (leftRotate t x).root) := by
  unfold leftRotate
  split
  · exact ⟨hc, fun j hj => rfl, fun h => h⟩
  · lift_lets
    extract_lets y a b c d e
    have hy : PtrIn S y := ptrIn_right hc hx
    have hca : ClosedOver a S := closedOver_setRight hc (ptrIn_left hc hy)
    have hfa : ∀ j, j ∉ S → a.getN (some j) = t.getN (some j) := fun j hj =>
      getN_setRight_ne (ptrIn_ne hx hj) _
    have hra : a.root = t.root := setRight_root ..
    have hcb : ClosedOver b S := by
      unfold_let b
      split
      · exact closedOver_setParent hca (by exact hx)
      · exact hca
    have hfb : ∀ j, j ∉ S → b.getN (some j) = a.getN (some j) := by
      intro j hj
      unfold_let b
      split
      · exact getN_setParent_ne (ptrIn_ne (ptrIn_left hca hy) hj) _
      · rfl
    have hrb : b.root = a.root := by
      unfold_let b; split
      · exact setParent_root ..
      · rfl
    have hcc : ClosedOver c S := closedOver_setParent hcb (ptrIn_parent hcb hx)
    have hfc : ∀ j, j ∉ S → c.getN (some j) = b.getN (some j) := fun j hj =>
      getN_setParent_ne (ptrIn_ne hy hj) _
    have hrc : c.root = b.root := setParent_root ..
    have hcd : ClosedOver d S := by
      unfold_let d
      split
      · exact closedOver_withRoot hcc
      · split
        · exact closedOver_setLeft hcc hy
        · exact closedOver_setRight hcc hy
    have hfd : ∀ j, j ∉ S → d.getN (some j) = c.getN (some j) := by
      intro j hj
      unfold_let d
      split
      · rfl
      · split
        · exact getN_setLeft_ne (ptrIn_ne (ptrIn_parent hcc hx) hj) _
        · exact getN_setRight_ne (ptrIn_ne (ptrIn_parent hcc hx) hj) _
    have hrd : PtrIn S t.root → PtrIn S d.root := by
      intro hr
      unfold_let d
      split
      · exact hy
      · split
        · rw [setLeft_root, hrc, hrb, hra]; exact hr
        · rw [setRight_root, hrc, hrb, hra]; exact hr
    have hce : ClosedOver e S := closedOver_setLeft hcd hx
    have hfe : ∀ j, j ∉ S → e.getN (some j) = d.getN (some j) := fun j hj =>
      getN_setLeft_ne (ptrIn_ne hy hj) _
    refine ⟨closedOver_setParent hce hy, fun j hj => ?_, fun hr => ?_⟩
    · rw [getN_setParent_ne (ptrIn_ne hx hj), hfe j hj, hfd j hj, hfc j hj, hfb j hj, hfa j hj]
    · rw [setParent_root, setLeft_root]
      exact hrd hr

theorem rightRotate_S {t : Rbtree α} {S : List Nat} {x : Ptr} (hc : ClosedOver t S)
    (hx : PtrIn S x) :
    ClosedOver (rightRotate t x) S ∧
    (∀ j, j ∉ S → (rightRotate t x).getN (some j) = t.getN (some j)) ∧
    (PtrIn S t.root → PtrIn S (rightRotate t x).root) := by
  unfold rightRotate
  split
  · exact ⟨hc, fun j hj => rfl, fun h => h⟩
  · lift_lets
    extract_lets y a b c d e
    have hy : PtrIn S y := ptrIn_left hc hx
    have hca : ClosedOver a S := closedOver_setLeft hc (ptrIn_right hc hy)
    have hfa : ∀ j, j ∉ S → a.getN (some j) = t.getN (some j) := fun j hj =>
      getN_setLeft_ne (ptrIn_ne hx hj) _
    have hra : a.root = t.root := setLeft_root ..
    have hcb : ClosedOver b S := by
      unfold_let b
      split
      · exact closedOver_setParent hca (by exact hx)
      · exact hca
    have hfb : ∀ j, j ∉ S → b.getN (some j) = a.getN (some j) := by
      intro j hj
      unfold_let b
      split
      · exact getN_setParent_ne (ptrIn_ne (ptrIn_right hca hy) hj) _
      · rfl
    have hrb : b.root = a.root := by
      unfold_let b; split
      · exact setParent_root ..
      · rfl
    have hcc : ClosedOver c S := closedOver_setParent hcb (ptrIn_parent hcb hx)
    have hfc : ∀ j, j ∉ S → c.getN (some j) = b.getN (some j) := fun j hj =>
      getN_setParent_ne (ptrIn_ne hy hj) _
    have hrc : c.root = b.root := setParent_root ..
    have hcd : ClosedOver d S := by
      unfold_let d
      split
      · exact closedOver_withRoot hcc
      · split
        · exact closedOver_setLeft hcc hy
        · exact closedOver_setRight hcc hy
    have hfd : ∀ j, j ∉ S → d.getN (some j) = c.getN (some j) := by
      intro j hj
      unfold_let d
      split
      · rfl
      · split
        · exact getN_setLeft_ne (ptrIn_ne (ptrIn_parent hcc hx) hj) _
        · exact getN_setRight_ne (ptrIn_ne (ptrIn_parent hcc hx) hj) _
    have hrd : PtrIn S t.root → PtrIn S d.root := by
      intro hr
      unfold_let d
      split
      · exact hy
      · split
        · rw [setLeft_root, hrc, hrb, hra]; exact hr
        · rw [setRight_root, hrc, hrb, hra]; exact hr
    have hce : ClosedOver e S := closedOver_setRight hcd hx
    have hfe : ∀ j, j ∉ S → e.getN (some j) = d.getN (some j) := fun j hj =>
      getN_setRight_ne (ptrIn_ne hy hj) _
    refine ⟨closedOver_setParent hce hy, fun j hj => ?_, fun hr => ?_⟩
    · rw [getN_setParent_ne (ptrIn_ne hx hj), hfe j hj, hfd j hj, hfc j hj, hfb j hj, hfa j hj]
    · rw [setParent_root, setRight_root]
      exact hrd hr

theorem frame_comp {t a b : Rbtree α} {S : List Nat}
    (h1 : ∀ j, j ∉ S → a.getN (some j) = t.getN (some j))
    (h2 : ∀ j, j ∉ S → b.getN (some j) = a.getN (some j)) :
    ∀ j, j ∉ S → b.getN (some j) = t.getN (some j) := fun j hj => (h2 j hj).trans (h1 j hj)

theorem deleteFixupLoop_S {S : List Nat} {fuel : Nat} :
    ∀ {t : Rbtree α} {x : Ptr} {r : Rbtree α × Ptr}, deleteFixupLoop fuel t x = some r →
    ClosedOver t S → PtrIn S x → PtrIn S t.root →
    ClosedOver r.1 S ∧ (∀ j, j ∉ S → r.1.getN (some j) = t.getN (some j)) ∧
      PtrIn S r.2 ∧ PtrIn S r.1.root := by
  induction fuel with
  | zero => intro t x r h; simp [deleteFixupLoop] at h
  | succ fuel ih =>
    intro t x r h hc hx hroot
    rw [deleteFixupLoop] at h
    split at h
    · split at h
      · lift_lets at h
        extract_lets w2 c1 c2 c3 p t9 w1 t8 x1 t7 t6 t5 q t4 w t3 t2 t1 t0 x0 at h
        have hw2 : PtrIn S w2 := ptrIn_right hc (ptrIn_parent hc hx)
        have h9 : ClosedOver t9 S ∧ (∀ j, j ∉ S → t9.getN (some j) = t.getN (some j)) ∧
            PtrIn S w1 ∧ PtrIn S t9.root := by
          unfold_let t9 w1 p
          split
          · have hc1 : ClosedOver c1 S := closedOver_setColor hc
            have hf1 : ∀ j, j ∉ S → c1.getN (some j) = t.getN (some j) := fun j hj =>
              getN_setColor_ne (ptrIn_ne hw2 hj) _
            have hx1 : PtrIn S ((c1.getN x).parent) := ptrIn_parent hc1 hx
            have hc2 : ClosedOver c2 S := closedOver_setColor hc1
            have hf2 : ∀ j, j ∉ S → c2.getN (some j) = c1.getN (some j) := fun j hj =>
              getN_setColor_ne (ptrIn_ne hx1 hj) _
            have hx2 : PtrIn S ((c2.getN x).parent) := ptrIn_parent hc2 hx
            have h3 := leftRotate_S hc2 hx2
            refine ⟨h3.1, frame_comp (frame_comp hf1 hf2) h3.2.1,
              ptrIn_right h3.1 (ptrIn_parent h3.1 hx), h3.2.2 ?_⟩
            unfold_let c2 c1
            rw [setColor_root, setColor_root]
            exact hroot
          · exact ⟨hc, fun _ _ => rfl, hw2, hroot⟩
        obtain ⟨hc9, hf9, hw1, hr9⟩ := h9
        split at h
        · have hc8 : ClosedOver t8 S := closedOver_setColor hc9
          have hf8 : ∀ j, j ∉ S → t8.getN (some j) = t9.getN (some j) := fun j hj =>
            getN_setColor_ne (ptrIn_ne hw1 hj) _
          have hx1 : PtrIn S x1 := ptrIn_parent hc8 hx
          have hr8 : PtrIn S t8.root := by
            unfold_let t8; rw [setColor_root]; exact hr9
          obtain ⟨ha, hb, hcx, hd⟩ := ih h hc8 hx1 hr8
          exact ⟨ha, frame_comp (frame_comp hf9 hf8) hb, hcx, hd⟩
        · have h4 : ClosedOver t4 S ∧ (∀ j, j ∉ S → t4.getN (some j) = t9.getN (some j)) ∧
              PtrIn S w ∧ PtrIn S t4.root := by
            unfold_let t4 w q
            split
            · have hwl : PtrIn S ((t9.getN w1).left) := ptrIn_left hc9 hw1
              have hc7 : ClosedOver t7 S := closedOver_setColor hc9
              have hf7 : ∀ j, j ∉ S → t7.getN (some j) = t9.getN (some j) := fun j hj =>
                getN_setColor_ne (ptrIn_ne hwl hj) _
              have hc6 : ClosedOver t6 S := closedOver_setColor hc7
              have hf6 : ∀ j, j ∉ S → t6.getN (some j) = t7.getN (some j) := fun j hj =>
                getN_setColor_ne (ptrIn_ne hw1 hj) _
              have h5 := rightRotate_S hc6 (show PtrIn S w1 from hw1)
              refine ⟨h5.1, frame_comp (frame_comp hf7 hf6) h5.2.1,
                ptrIn_right h5.1 (ptrIn_parent h5.1 hx), h5.2.2 ?_⟩
              unfold_let t6 t7
              rw [setColor_root, setColor_root]
              exact hr9
            · exact ⟨hc9, fun _ _ => rfl, hw1, hr9⟩
          obtain ⟨hc4, hf4, hw, hr4⟩ := h4
          have hc3 : ClosedOver t3 S := closedOver_setColor hc4
          have hf3 : ∀ j, j ∉ S → t3.getN (some j) = t4.getN (some j) := fun j hj =>
            getN_setColor_ne (ptrIn_ne hw hj) _
          have hc2 : ClosedOver t2 S := closedOver_setColor hc3
          have hf2 : ∀ j, j ∉ S → t2.getN (some j) = t3.getN (some j) := fun j hj =>
            getN_setColor_ne (ptrIn_ne (ptrIn_parent hc3 hx) hj) _
          have hc1 : ClosedOver t1 S := closedOver_setColor hc2
          have hf1 : ∀ j, j ∉ S → t1.getN (some j) = t2.getN (some j) := fun j hj =>
            getN_setColor_ne (ptrIn_ne (ptrIn_right hc2 (show PtrIn S w from hw)) hj) _
          have h0 := leftRotate_S hc1 (show PtrIn S ((t1.getN x).parent) from ptrIn_parent hc1 hx)
          have hr0 : PtrIn S t0.root := by
            refine h0.2.2 ?_
            unfold_let t1 t2 t3
            rw [setColor_root, setColor_root, setColor_root]
            exact hr4
          obtain ⟨ha, hb, hcx, hd⟩ := ih h h0.1 hr0 hr0
          exact ⟨ha, frame_comp (frame_comp hf9 (frame_comp (frame_comp hf4
            (frame_comp (frame_comp hf3 hf2) hf1)) h0.2.1)) hb, hcx, hd⟩
      · lift_lets at h
        extract_lets w2 c1 c2 c3 p t9 w1 t8 x1 t7 t6 t5 q t4 w t3 t2 t1 t0 x0 at h
        have hw2 : PtrIn S w2 := ptrIn_left hc (ptrIn_parent hc hx)
        have h9 : ClosedOver t9 S ∧ (∀ j, j ∉ S → t9.getN (some j) = t.getN (some j)) ∧
            PtrIn S w1 ∧ PtrIn S t9.root := by
          unfold_let t9 w1 p
          split
          · have hc1 : ClosedOver c1 S := closedOver_setColor hc
            have hf1 : ∀ j, j ∉ S → c1.getN (some j) = t.getN (some j) := fun j hj =>
              getN_setColor_ne (ptrIn_ne hw2 hj) _
            have hx1 : PtrIn S ((c1.getN x).parent) := ptrIn_parent hc1 hx
            have hc2 : ClosedOver c2 S := closedOver_setColor hc1
            have hf2 : ∀ j, j ∉ S → c2.getN (some j) = c1.getN (some j) := fun j hj =>
              getN_setColor_ne (ptrIn_ne hx1 hj) _
            have hx2 : PtrIn S ((c2.getN x).parent) := ptrIn_parent hc2 hx
            have h3 := rightRotate_S hc2 hx2
            refine ⟨h3.1, frame_comp (frame_comp hf1 hf2) h3.2.1,
              ptrIn_left h3.1 (ptrIn_parent h3.1 hx), h3.2.2 ?_⟩
            unfold_let c2 c1
            rw [setColor_root, setColor_root]
            exact hroot
          · exact ⟨hc, fun _ _ => rfl, hw2, hroot⟩
        obtain ⟨hc9, hf9, hw1, hr9⟩ := h9
        split at h
        · have hc8 : ClosedOver t8 S := closedOver_setColor hc9
          have hf8 : ∀ j, j ∉ S → t8.getN (some j) = t9.getN (some j) := fun j hj =>
            getN_setColor_ne (ptrIn_ne hw1 hj) _
          have hx1 : PtrIn S x1 := ptrIn_parent hc8 hx
          have hr8 : PtrIn S t8.root := by
            unfold_let t8; rw [setColor_root]; exact hr9
          obtain ⟨ha, hb, hcx, hd⟩ := ih h hc8 hx1 hr8
          exact ⟨ha, frame_comp (frame_comp hf9 hf8) hb, hcx, hd⟩
        · have h4 : ClosedOver t4 S ∧ (∀ j, j ∉ S → t4.getN (some j) = t9.getN (some j)) ∧
              PtrIn S w ∧ PtrIn S t4.root := by
            unfold_let t4 w q
            split
            · have hwr : PtrIn S ((t9.getN w1).right) := ptrIn_right hc9 hw1
              have hc7 : ClosedOver t7 S := closedOver_setColor hc9
              have hf7 : ∀ j, j ∉ S → t7.getN (some j) = t9.getN (some j) := fun j hj =>
                getN_setColor_ne (ptrIn_ne hwr hj) _
              have hc6 : ClosedOver t6 S := closedOver_setColor hc7
              have hf6 : ∀ j, j ∉ S → t6.getN (some j) = t7.getN (some j) := fun j hj =>
                getN_setColor_ne (ptrIn_ne hw1 hj) _
              have h5 := leftRotate_S hc6 (show PtrIn S w1 from hw1)
              refine ⟨h5.1, frame_comp (frame_comp hf7 hf6) h5.2.1,
                ptrIn_left h5.1 (ptrIn_parent h5.1 hx), h5.2.2 ?_⟩
              unfold_let t6 t7
              rw [setColor_root, setColor_root]
              exact hr9
            · exact ⟨hc9, fun _ _ => rfl, hw1, hr9⟩
          obtain ⟨hc4, hf4, hw, hr4⟩ := h4
          have hc3 : ClosedOver t3 S := closedOver_setColor hc4
          have hf3 : ∀ j, j ∉ S → t3.getN (some j) = t4.getN (some j) := fun j hj =>
            getN_setColor_ne (ptrIn_ne hw hj) _
          have hc2 : ClosedOver t2 S := closedOver_setColor hc3
          have hf2 : ∀ j, j ∉ S → t2.getN (some j) = t3.getN (some j) := fun j hj =>
            getN_setColor_ne (ptrIn_ne (ptrIn_parent hc3 hx) hj) _
          have hc1 : ClosedOver t1 S := closedOver_setColor hc2
          have hf1 : ∀ j, j ∉ S → t1.getN (some j) = t2.getN (some j) := fun j hj =>
            getN_setColor_ne (ptrIn_ne (ptrIn_left hc2 (show PtrIn S w from hw)) hj) _
          have h0 := rightRotate_S hc1 (show PtrIn S ((t1.getN x).parent) from ptrIn_parent hc1 hx)
          have hr0 : PtrIn S t0.root := by
            refine h0.2.2 ?_
            unfold_let t1 t2 t3
            rw [setColor_root, setColor_root, setColor_root]
            exact hr4
          obtain ⟨ha, hb, hcx, hd⟩ := ih h h0.1 hr0 hr0
          exact ⟨ha, frame_comp (frame_comp hf9 (frame_comp (frame_comp hf4
            (frame_comp (frame_comp hf3 hf2) hf1)) h0.2.1)) hb, hcx, hd⟩
    · cases h
      exact ⟨hc, fun _ _ => rfl, hx, hroot⟩

theorem deleteFixup_S {S : List Nat} {t : Rbtree α} {x : Ptr} {t' : Rbtree α}
    (h : deleteFixup t x = some t') (hc : ClosedOver t S) (hx : PtrIn S x)
    (hroot : PtrIn S t.root) :
    ∀ j, j ∉ S → t'.getN (some j) = t.getN (some j) := by
  unfold deleteFixup at h
  cases hh : deleteFixupLoop (t.arena.length + 1) t x with
  | none => rw [hh] at h; simp at h
  | some r =>
    rw [hh] at h
    simp at h
    subst h
    obtain ⟨hc1, hf1, hx1, _⟩ := deleteFixupLoop_S hh hc hx hroot
    intro j hj
    rw [getN_setColor_ne (ptrIn_ne hx1 hj), hf1 j hj]

theorem remove_struct_z_frame {t : Rbtree α} {zi : Nat} {t1 : Rbtree α} {x : Ptr} {yc : Bool}
    (hd3 : (t.getN (some zi)).parent ≠ some zi)
    (hd8 : (t.getN (some zi)).left ≠ some zi)
    (hd9 : (t.getN (some zi)).right ≠ some zi)
    (htwo : (t.getN (some zi)).left ≠ some t.nill → (t.getN (some zi)).right ≠ some t.nill →
      ∃ yi, minLoop t (t.arena.length + 1) ((t.getN (some zi)).right) = some (some yi) ∧
        yi < t.arena.length ∧ yi ≠ zi ∧ (t.getN (some yi)).right ≠ some zi)
    (h : remove_struct t (some zi) = some (t1, x, yc)) :
    t1.getN (some zi) = t.getN (some zi) := by
  unfold remove_struct at h
  split at h
  · cases h; exact getN_transplant_ne (Ne.symm hd3) (Ne.symm hd9)
  · split at h
    · cases h; exact getN_transplant_ne (Ne.symm hd3) (Ne.symm hd8)
    · rename_i hln hrn
      obtain ⟨yi, hy, hyv, hd5, hd1⟩ := htwo hln hrn
      rw [hy, Option.bind_eq_bind, Option.some_bind] at h
      lift_lets at h
      extract_lets ycv xv a b c d e f g at h
      simp only [pure, Option.some_inj, Prod.mk.injEq] at h
      obtain ⟨ht, hxx, hyc⟩ := h
      subst ht
      have hLa : a.arena.length = t.arena.length := by
        unfold_let a; exact transplant_arena_length ..
      have hLc : c.arena.length = t.arena.length := by
        unfold_let c; split
        · rw [setParent_arena_length]
        · rw [setParent_arena_length]
          unfold_let b
          rw [setRight_arena_length, hLa]
      have hLd : d.arena.length = t.arena.length := by
        unfold_let d; rw [transplant_arena_length, hLc]
      have hcz : c.getN (some zi) = t.getN (some zi) := by
        unfold_let c; split
        · exact getN_setParent_ne (Ne.symm hd1) _
        · rename_i hnp
          have htarget : (b.getN (some yi)).right = (t.getN (some zi)).right := by
            unfold_let b
            rw [getN_setRight_same ⟨yi, rfl, by rw [hLa]; exact hyv⟩]
            unfold_let a
            exact right_transplant _ (Ne.symm hnp)
          rw [getN_setParent_ne (by rw [htarget]; exact Ne.symm hd9)]
          unfold_let b
          rw [getN_setRight_ne (fun hq => hd5 (Option.some.inj hq).symm)]
          unfold_let a
          exact getN_transplant_ne (Ne.symm hnp) (Ne.symm hd1) 
      have hdz : d.getN (some zi) = t.getN (some zi) := by
        unfold_let d
        rw [getN_transplant_ne (by rw [hcz]; exact Ne.symm hd3)
          (fun hq => hd5 (Option.some.inj hq).symm), hcz]
      have hez : e.getN (some zi) = t.getN (some zi) := by
        unfold_let e
        rw [getN_setLeft_ne (fun hq => hd5 (Option.some.inj hq).symm), hdz]
      have hel : (e.getN (some yi)).left = (t.getN (some zi)).left := by
        unfold_let e
        rw [getN_setLeft_same ⟨yi, rfl, by rw [hLd]; exact hyv⟩]
        rw [hdz]
      have hfz : f.getN (some zi) = t.getN (some zi) := by
        unfold_let f
        rw [getN_setParent_ne (by rw [hel]; exact Ne.symm hd8), hez]
      unfold_let g
      rw [getN_setColor_ne (fun hq => hd5 (Option.some.inj hq).symm), hfz]

/-- C10: a completed removal by handle leaves the removed node's own
record fully intact — its `prev`/`next` still reference its former
in-order neighbors, and its `left`, `right`, `parent` and `color` are as
they were — so `Next()`/`Prev()` on the removed node still return what
they returned before the removal.  `S` is the set of live indices after
the structural unlink (closed under the tree links); the detached node
`zi` is outside it. -/
theorem claim_C10 {α : Type} (t : Rbtree α) (zi : Nat) (t1 : Rbtree α) (x : Ptr) (yc : Bool)
    (tf : Rbtree α) (r : Ptr) (S : List Nat)
    (h1 : remove_struct t (some zi) = some (t1, x, yc))
    (h : remove_raw t (some zi) = some (tf, r))
    (hd3 : (t.getN (some zi)).parent ≠ some zi)
    (hd8 : (t.getN (some zi)).left ≠ some zi)
    (hd9 : (t.getN (some zi)).right ≠ some zi)
    (htwo : (t.getN (some zi)).left ≠ some t.nill → (t.getN (some zi)).right ≠ some t.nill →
      ∃ yi, minLoop t (t.arena.length + 1) ((t.getN (some zi)).right) = some (some yi) ∧
        yi < t.arena.length ∧ yi ≠ zi ∧ (t.getN (some yi)).right ≠ some zi)
    (hC : ClosedOver t1 S) (hzS : zi ∉ S) (hxS : PtrIn S x) (hrS : PtrIn S t1.root)
    (hnext : (t.getN (some zi)).next ≠ some zi)
    (hprev : (t.getN (some zi)).prev ≠ some zi) :
    tf.getN (some zi) = t.getN (some zi) ∧
    Rbtree.Next tf (some zi) = (t.getN (some zi)).next ∧
    Rbtree.Prev tf (some zi) = (t.getN (some zi)).prev := by
  have hstruct : t1.getN (some zi) = t.getN (some zi) :=
    remove_struct_z_frame hd3 hd8 hd9 htwo h1
  unfold remove_raw at h
  rw [h1, Option.bind_eq_bind, Option.some_bind] at h
  split at h
  rename_i tt xx ycc heq
  injection heq with e1 e23
  injection e23 with e2 e3
  subst e1; subst e2; subst e3
  lift_lets at h
  extract_lets jp at h
  have main : tf.getN (some zi) = t.getN (some zi) := by
    split at h
    · cases hd : deleteFixup t1 x with
      | none => rw [hd, Option.bind_eq_bind, Option.none_bind] at h; exact absurd h (by simp)
      | some t2 =>
        rw [hd, Option.bind_eq_bind, Option.some_bind] at h
        unfold_let jp at h
        beta_reduce at h
        lift_lets at h
        extract_lets tc s1 s2 at h
        simp only [pure, Option.some_inj, Prod.mk.injEq] at h
        obtain ⟨ht, hrr⟩ := h
        subst ht
        have hz2 : t2.getN (some zi) = t.getN (some zi) :=
          (deleteFixup_S hd hC hxS hrS zi hzS).trans hstruct
        have hzc : tc.getN (some zi) = t.getN (some zi) := by
          unfold_let tc; exact hz2
        have hs1 : s1.getN (some zi) = t.getN (some zi) := by
          unfold_let s1; split
          · rw [getN_setPrev_ne (by rw [hzc]; exact Ne.symm hnext), hzc]
          · exact hzc
        unfold_let s2; split
        · rw [getN_setNext_ne (by rw [hs1]; exact Ne.symm hprev), hs1]
        · exact hs1
    · rw [Option.bind_eq_bind, Option.some_bind] at h
      unfold_let jp at h
      beta_reduce at h
      lift_lets at h
      extract_lets tc s1 s2 at h
      simp only [pure, Option.some_inj, Prod.mk.injEq] at h
      obtain ⟨ht, hrr⟩ := h
      subst ht
      have hzc : tc.getN (some zi) = t.getN (some zi) := by
        unfold_let tc; exact hstruct
      have hs1 : s1.getN (some zi) = t.getN (some zi) := by
        unfold_let s1; split
        · rw [getN_setPrev_ne (by rw [hzc]; exact Ne.symm hnext), hzc]
        · exact hzc
      unfold_let s2; split
      · rw [getN_setNext_ne (by rw [hs1]; exact Ne.symm hprev), hs1]
      · exact hs1
  exact ⟨main, by rw [Rbtree.Next, main], by rw [Rbtree.Prev, main]⟩

/-- C10 witness: removing node 2 (the root, two children) from `egT3`
leaves node 2's whole record as it was, `prev` and `next` included. -/
theorem claim_C10_witness :
    egT3r.getN (some 2) = egT3.getN (some 2) ∧
    Rbtree.Next egT3r (some 2) = (egT3.getN (some 2)).next ∧
    Rbtree.Prev egT3r (some 2) = (egT3.getN (some 2)).prev :=
  claim_C10 egT3 2 egT3s (some 0) false egT3r (some 2) [0, 1, 3]
    (by decide) (by decide) (by decide) (by decide) (by decide)
    (fun h1 h2 => ⟨3, by decide, by decide, by decide, by decide⟩)
    (by decide) (by decide) (by decide) (by decide) (by decide) (by decide)

/-! ## Duplicate insertion (claim C6) -/

theorem eqv_symm {less : α → α → Bool} {a b : Option α} (h : eqv less a b) : eqv less b a :=
  ⟨h.2, h.1⟩

theorem bstb_pairwise {t : Rbtree α} {less : α → α → Bool} (hw : WeakOrder less) :
    ∀ {T : ATree}, bstb t less T = true →
    T.inorder.Pairwise
      (fun i j => iless less ((t.getN (some i)).item) ((t.getN (some j)).item) = true) := by
  obtain ⟨hw1, hw2, hw3⟩ := hw
  intro T
  induction T with
  | nil => intro _; simp [ATree.inorder]
  | node L i R ihL ihR =>
    intro hb
    simp only [bstb, Bool.and_eq_true, List.all_eq_true] at hb
    obtain ⟨⟨⟨hbL, hbR⟩, hbLi⟩, hbiR⟩ := hb
    simp only [ATree.inorder]
    rw [List.pairwise_append]
    refine ⟨ihL hbL, ?_, ?_⟩
    · rw [List.pairwise_cons]
      exact ⟨fun j hj => hbiR j hj, ihR hbR⟩
    · intro a ha b hb
      simp only [List.mem_cons] at hb
      rcases hb with rfl | hb
      · exact hbLi a ha
      · -- a < i and i < b
        have h1 := hbLi a ha
        have h2 := hbiR b hb
        cases hia : ((t.getN (some a)).item) with
        | none => rw [hia] at h1; simp [iless] at h1
        | some av =>
          cases hib : ((t.getN (some i)).item) with
          | none => rw [hib] at h1; simp [iless] at h1
          | some iv =>
            cases hbv : ((t.getN (some b)).item) with
            | none => rw [hbv] at h2; simp [iless] at h2
            | some bv =>
              rw [hia, hib, iless_some_some] at h1
              rw [hib, hbv, iless_some_some] at h2
              rw [iless_some_some]
              exact hw2 av iv bv h1 h2

theorem bst_unique {t : Rbtree α} {less : α → α → Bool} {T : ATree} (hw : WeakOrder less)
    (hb : bstb t less T = true) :
    ∀ i ∈ T.inorder, ∀ j ∈ T.inorder, i ≠ j →
      ¬ eqv less ((t.getN (some i)).item) ((t.getN (some j)).item) := by
  have hp := bstb_pairwise hw hb
  have hp' : T.inorder.Pairwise
      (fun i j => ¬ eqv less ((t.getN (some i)).item) ((t.getN (some j)).item)) := by
    refine hp.imp ?_
    intro i j hlt heqv
    rw [heqv.1] at hlt
    exact Bool.false_ne_true hlt
  intro i hi j hj hne
  have hsym : Symmetric (fun i j => ¬ eqv less ((t.getN (some i)).item) ((t.getN (some j)).item)) :=
    fun a b hab h => hab (eqv_symm h)
  exact hp'.forall hsym hi hj hne

theorem insertLoop_found {t : Rbtree α} {less : α → α → Bool} {key : α}
    (hw : WeakOrder less) :
    ∀ {T : ATree} {p : Ptr}, IsTree t p T → bstb t less T = true →
    (∀ j ∈ T.inorder, ((t.getN (some j)).item).isSome) →
    ∀ {j0 : Nat}, j0 ∈ T.inorder → eqv less (some key) ((t.getN (some j0)).item) →
    ∀ {fuel : Nat} {y : Ptr}, T.inorder.length < fuel →
    ∃ y', insertLoop t less key fuel p y = some (some j0, y', true) := by
  obtain ⟨hw1, hw2, hw3⟩ := hw
  intro T
  induction T with
  | nil => intro p hT hbst hit j0 hj0 heqv fuel y hfuel; simp [ATree.inorder] at hj0
  | node L i R ihL ihR =>
    intro p hT hbst hitems j0 hj0 heqv fuel y hfuel
    cases hT with
    | node hni hlt hL hR =>
    match fuel, hfuel with
    | fuel + 1, hfuel =>
    have hlen : (ATree.node L i R).inorder.length = L.inorder.length + 1 + R.inorder.length := by
      simp [ATree.inorder]; omega
    simp only [bstb, Bool.and_eq_true, List.all_eq_true] at hbst
    obtain ⟨⟨⟨hbL, hbR⟩, hbLi⟩, hbiR⟩ := hbst
    have hii : i ∈ (ATree.node L i R).inorder := by simp [ATree.inorder]
    obtain ⟨ai, hai⟩ := Option.isSome_iff_exists.mp (hitems i hii)
    obtain ⟨aj, haj⟩ := Option.isSome_iff_exists.mp (hitems j0 hj0)
    have he1 : less key aj = false := by
      have := heqv.1; rw [haj, iless_some_some] at this; exact this
    have he2 : less aj key = false := by
      have := heqv.2; rw [haj, iless_some_some] at this; exact this
    rw [insertLoop]
    rw [if_pos (by simpa using hni)]
    simp only [ATree.inorder, List.mem_append, List.mem_cons] at hj0
    rcases hj0 with hj0 | rfl | hj0
    · -- j0 in the left subtree: the key is less than item i, descend left
      have hlj : less aj ai = true := by
        have := hbLi j0 hj0; rw [haj, hai, iless_some_some] at this; exact this
      have hc2 : less key ai = true := by
        cases hc : less key ai with
        | true => rfl
        | false => exact absurd (hw3 aj key ai he2 hc) (by rw [hlj]; simp)
      rw [hai, iless_some_some, hc2]
      simp only [if_true]
      refine ihL hL hbL (fun j hj => hitems j (by
        simp only [ATree.inorder, List.mem_append, List.mem_cons]; left; exact hj)) hj0 heqv ?_
      rw [hlen] at hfuel; omega
    · rw [haj] at hai
      cases hai
      rw [haj, iless_some_some, he1, iless_some_some, he2]
      exact ⟨y, by simp⟩
    · have hlj : less ai aj = true := by
        have := hbiR j0 hj0; rw [haj, hai, iless_some_some] at this; exact this
      have hc1 : less key ai = false := by
        cases hc : less key ai with
        | false => rfl
        | true => exact absurd (hw2 key ai aj hc hlj) (by rw [he1]; simp)
      have hc2 : less ai key = true := by
        cases hc : less ai key with
        | true => rfl
        | false => exact absurd (hw3 ai key aj hc he1) (by rw [hlj]; simp)
      rw [hai, iless_some_some, hc1, iless_some_some, hc2]
      simp only [Bool.false_eq_true, if_false, if_true]
      refine ihR hR hbR (fun j hj => hitems j (by
        simp only [ATree.inorder, List.mem_append, List.mem_cons]; right; right; exact hj)) hj0 heqv ?_
      rw [hlen] at hfuel; omega

/-- The integer order contract is a strict weak order. -/
theorem intLess_weakOrder : WeakOrder intLess := by
  refine ⟨fun a => ?_, fun a b c h1 h2 => ?_, fun a b c h1 h2 => ?_⟩
  · simp [intLess]
  · simp only [intLess, decide_eq_true_eq] at h1 h2 ⊢; omega
  · simp only [intLess, decide_eq_false_iff_not] at h1 h2 ⊢; omega

/-- C6: inserting an item equal (mutually non-less) to the stored item of
node `j0` returns that very node with `ok = false` and the state
untouched (so `count` is unchanged and nothing is mutated); moreover no
two distinct stored nodes hold mutually non-less items. -/
theorem claim_C6 {α : Type} (less : α → α → Bool) (hw : WeakOrder less) (t : Rbtree α)
    (T : ATree) (hI : Inv t less T) (x : α) (j0 : Nat)
    (hj0 : j0 ∈ T.inorder) (heqv : eqv less (some x) ((t.getN (some j0)).item)) :
    Insert t less (some x) = some (t, some j0, false) ∧
    (∀ i ∈ T.inorder, ∀ j ∈ T.inorder, i ≠ j →
      ¬ eqv less ((t.getN (some i)).item) ((t.getN (some j)).item)) := by
  have hT := ext_isTree hI.tree
  obtain ⟨y', hloop⟩ := insertLoop_found hw hT hI.bst hI.items hj0 heqv (y := some t.nill)
    (show T.inorder.length < t.arena.length + 1 from
      Nat.lt_succ_of_le (inorder_length_le hT hI.nodup))
  constructor
  · unfold Insert insert
    dsimp only []
    rw [hloop]
    simp
  · exact bst_unique hw hI.bst

/-- C6 witness: inserting 2 into `egT2` (which stores 2 at node 2). -/
theorem claim_C6_witness :
    Insert egT2 intLess (some 2) = some (egT2, some 2, false) ∧
    (∀ i ∈ egA2.inorder, ∀ j ∈ egA2.inorder, i ≠ j →
      ¬ eqv intLess ((egT2.getN (some i)).item) ((egT2.getN (some j)).item)) :=
  claim_C6 intLess intLess_weakOrder egT2 egA2
    ⟨by decide, by decide, by decide, by decide, by decide, by decide, by decide, by decide,
     by decide, by decide, by decide, by decide, by decide, by decide⟩
    2 2 (by decide) (by decide)

/-! ## Rotations preserve the in-order sequence (claim C8) -/

theorem rotLAt_inorder (xi : Nat) : ∀ T : ATree, (rotLAt xi T).inorder = T.inorder := by
  intro T
  induction T with
  | nil => rfl
  | node L i R ihL ihR =>
    rw [rotLAt.eq_def]
    dsimp only []
    split
    · split
      · simp [ATree.inorder]
      · rfl
    · simp [ATree.inorder, ihL, ihR]

theorem rotRAt_inorder (xi : Nat) : ∀ T : ATree, (rotRAt xi T).inorder = T.inorder := by
  intro T
  induction T with
  | nil => rfl
  | node L i R ihL ihR =>
    rw [rotRAt.eq_def]
    dsimp only []
    split
    · split
      · simp [ATree.inorder]
      · rfl
    · simp [ATree.inorder, ihL, ihR]

/-- A state change that does not touch the `left`/`right` fields of a
tree's members (nor the sentinel index or arena size) represents the same
abstract tree. -/
theorem isTree_frame {t t' : Rbtree α} (hn : t'.nill = t.nill)
    (hlen : t.arena.length ≤ t'.arena.length) :
    ∀ {p : Ptr} {T : ATree}, IsTree t p T →
    (∀ j ∈ T.inorder, (t'.getN (some j)).left = (t.getN (some j)).left ∧
      (t'.getN (some j)).right = (t.getN (some j)).right) →
    IsTree t' p T := by
  intro p T hT
  induction hT with
  | nil => intro _; rw [← hn]; exact IsTree.nil
  | @node i L R hni hlt hL hR ihL ihR =>
    intro hf
    have hi : i ∈ (ATree.node L i R).inorder := by simp [ATree.inorder]
    have hfl : ∀ j ∈ L.inorder, (t'.getN (some j)).left = (t.getN (some j)).left ∧
        (t'.getN (some j)).right = (t.getN (some j)).right := fun j hj =>
      hf j (by simp only [ATree.inorder, List.mem_append, List.mem_cons]; left; exact hj)
    have hfr : ∀ j ∈ R.inorder, (t'.getN (some j)).left = (t.getN (some j)).left ∧
        (t'.getN (some j)).right = (t.getN (some j)).right := fun j hj =>
      hf j (by simp only [ATree.inorder, List.mem_append, List.mem_cons]; right; right; exact hj)
    refine IsTree.node (by rw [hn]; exact hni) (Nat.lt_of_lt_of_le hlt hlen) ?_ ?_
    · rw [(hf i hi).1]; exact ihL hfl
    · rw [(hf i hi).2]; exact ihR hfr
/-- Field-level effect of `leftRotate` at a node `xi` whose right child
`yi` is not the sentinel: the new contents of the four touched cells
(`xi`, `yi`, `yi`'s old left child, `xi`'s old parent), the root update,
and the frame for every other cell. -/
theorem leftRotate_effect {t : Rbtree α} {xi yi : Nat}
    (hy : (t.getN (some xi)).right = some yi) (hyn : yi ≠ t.nill) (hxn : xi ≠ t.nill)
    (hxy : yi ≠ xi) (hxv : xi < t.arena.length) (hyv : yi < t.arena.length)
    (hb : ∀ bi, (t.getN (some yi)).left = some bi → bi ≠ xi ∧ bi ≠ yi ∧
      (bi ≠ t.nill → bi < t.arena.length))
    (hs : ∀ s, (t.getN (some xi)).parent = some s → s ≠ t.nill →
      s ≠ xi ∧ s ≠ yi ∧ s < t.arena.length ∧ (t.getN (some yi)).left ≠ some s) :
    (leftRotate t (some xi)).getN (some xi) =
      { t.getN (some xi) with right := (t.getN (some yi)).left, parent := some yi } ∧
    (leftRotate t (some xi)).getN (some yi) =
      { t.getN (some yi) with left := some xi, parent := (t.getN (some xi)).parent } ∧
    (∀ bi, (t.getN (some yi)).left = some bi → bi ≠ t.nill →
      (leftRotate t (some xi)).getN (some bi) = { t.getN (some bi) with parent := some xi }) ∧
    ((t.getN (some xi)).parent = some t.nill → (leftRotate t (some xi)).root = some yi) ∧
    ((t.getN (some xi)).parent ≠ some t.nill → (leftRotate t (some xi)).root = t.root) ∧
    (∀ s, (t.getN (some xi)).parent = some s → s ≠ t.nill →
      ((t.getN (some s)).left = some xi →
        (leftRotate t (some xi)).getN (some s) = { t.getN (some s) with left := some yi }) ∧
      ((t.getN (some s)).left ≠ some xi →
        (leftRotate t (some xi)).getN (some s) = { t.getN (some s) with right := some yi })) ∧
    (∀ j : Nat, j ≠ xi → j ≠ yi → (t.getN (some yi)).left ≠ some j →
      (t.getN (some xi)).parent ≠ some j →
      (leftRotate t (some xi)).getN (some j) = t.getN (some j)) := by
  have hxyp : (some yi : Ptr) ≠ some xi := fun hq => hxy (Option.some.inj hq)
  have hyxp : (some xi : Ptr) ≠ some yi := fun hq => hxy (Option.some.inj hq).symm
  have hpx : (t.getN (some xi)).parent ≠ some xi := by
    intro hp
    by_cases hxnill : xi = t.nill
    · exact hxn hxnill
    · exact (hs xi hp hxnill).1 rfl
  have hpy : (t.getN (some xi)).parent ≠ some yi := by
    intro hp
    exact (hs yi hp hyn).2.1 rfl
  unfold leftRotate
  rw [if_neg (by rw [hy]; simpa using hyn), hy]
  lift_lets
  extract_lets y a b c d e
  have haL : a.arena.length = t.arena.length := by unfold_let a; rw [setRight_arena_length]
  have haN : a.nill = t.nill := by unfold_let a; rw [setRight_nill]
  have haj : ∀ j : Ptr, j ≠ some xi → a.getN j = t.getN j := by
    intro j hj
    unfold_let a
    exact getN_setRight_ne hj _
  have hax : a.getN (some xi) = { t.getN (some xi) with right := (t.getN (some yi)).left } := by
    unfold_let a y
    rw [Rbtree.setRight, getN_writeN_same ⟨xi, rfl, hxv⟩]
  have hay : a.getN (some yi) = t.getN (some yi) := haj (some yi) hxyp
  have hbj : ∀ j : Nat, (t.getN (some yi)).left ≠ some j → b.getN (some j) = a.getN (some j) := by
    intro j hj
    unfold_let b y
    split
    · refine getN_setParent_ne ?_ _
      rw [hay]
      exact fun hq => hj hq.symm
    · rfl
  have hbL : b.arena.length = t.arena.length := by
    unfold_let b
    split
    · rw [setParent_arena_length, haL]
    · exact haL
  have hbN : b.nill = t.nill := by
    unfold_let b
    split
    · rw [setParent_nill, haN]
    · exact haN
  have hbx : b.getN (some xi) = a.getN (some xi) :=
    hbj xi (fun hq => (hb xi hq).1 rfl)
  have hby : b.getN (some yi) = a.getN (some yi) :=
    hbj yi (fun hq => (hb yi hq).2.1 rfl)
  have hbb : ∀ bi, (t.getN (some yi)).left = some bi → bi ≠ t.nill →
      b.getN (some bi) = { t.getN (some bi) with parent := some xi } := by
    intro bi hbl hbin
    have hbiv : bi < t.arena.length := (hb bi hbl).2.2 hbin
    unfold_let b y
    rw [if_pos (by rw [hay, haN, hbl]; simpa using hbin)]
    rw [hay, hbl]
    rw [Rbtree.setParent, getN_writeN_same ⟨bi, rfl, by rw [haL]; exact hbiv⟩]
    rw [haj (some bi) (fun hq => (hb bi hbl).1 (Option.some.inj hq))]
  have hbroot : b.root = t.root := by
    unfold_let b
    split
    · rw [setParent_root]; unfold_let a; rw [setRight_root]
    · unfold_let a; rw [setRight_root]
  have hcj : ∀ j : Ptr, j ≠ some yi → c.getN j = b.getN j := by
    intro j hj
    unfold_let c y
    exact getN_setParent_ne hj _
  have hcy : c.getN (some yi) =
      { t.getN (some yi) with parent := (t.getN (some xi)).parent } := by
    unfold_let c y
    rw [Rbtree.setParent, getN_writeN_same ⟨yi, rfl, by rw [hbL]; exact hyv⟩]
    rw [hbx, hax, hby, hay]
  have hcL : c.arena.length = t.arena.length := by
    unfold_let c; rw [setParent_arena_length, hbL]
  have hcN : c.nill = t.nill := by
    unfold_let c; rw [setParent_nill, hbN]
  have hcx : c.getN (some xi) = a.getN (some xi) := by
    rw [hcj (some xi) hyxp, hbx]
  have hcxp : (c.getN (some xi)).parent = (t.getN (some xi)).parent := by
    rw [hcx, hax]
  have hcroot : c.root = t.root := by
    unfold_let c; rw [setParent_root, hbroot]
  have hdj : ∀ j : Nat, (t.getN (some xi)).parent ≠ some j →
      d.getN (some j) = c.getN (some j) := by
    intro j hj
    unfold_let d y
    split
    · rfl
    · split
      · refine getN_setLeft_ne ?_ _
        rw [hcxp]
        exact fun hq => hj hq.symm
      · refine getN_setRight_ne ?_ _
        rw [hcxp]
        exact fun hq => hj hq.symm
  have hdL : d.arena.length = t.arena.length := by
    unfold_let d
    split
    · exact hcL
    · split
      · rw [setLeft_arena_length, hcL]
      · rw [setRight_arena_length, hcL]
  have hdN : d.nill = t.nill := by
    unfold_let d
    split
    · exact hcN
    · split
      · rw [setLeft_nill, hcN]
      · rw [setRight_nill, hcN]
  have hdx : d.getN (some xi) = a.getN (some xi) := by
    rw [hdj xi hpx, hcx]
  have hdy : d.getN (some yi) = c.getN (some yi) := hdj yi hpy
  have hdb : ∀ bi, (t.getN (some yi)).left = some bi → bi ≠ t.nill →
      d.getN (some bi) = { t.getN (some bi) with parent := some xi } := by
    intro bi hbl hbin
    have hpb : (t.getN (some xi)).parent ≠ some bi := by
      intro hp
      by_cases hbnill : bi = t.nill
      · exact hbin hbnill
      · exact (hs bi hp hbnill).2.2.2 hbl
    rw [hdj bi hpb, hcj (some bi) (fun hq => (hb bi hbl).2.1 (Option.some.inj hq)),
      hbb bi hbl hbin]
  have hdroot_pos : (t.getN (some xi)).parent = some t.nill → d.root = some yi := by
    intro hp
    unfold_let d y
    rw [if_pos (by rw [hcxp, hcN]; exact hp)]
  have hdroot_neg : (t.getN (some xi)).parent ≠ some t.nill → d.root = c.root := by
    intro hp
    unfold_let d
    rw [if_neg (by rw [hcxp, hcN]; exact hp)]
    split
    · rw [setLeft_root]
    · rw [setRight_root]
  have hds : ∀ s, (t.getN (some xi)).parent = some s → s ≠ t.nill →
      ((t.getN (some s)).left = some xi →
        d.getN (some s) = { t.getN (some s) with left := some yi }) ∧
      ((t.getN (some s)).left ≠ some xi →
        d.getN (some s) = { t.getN (some s) with right := some yi }) := by
    intro s hp hsn
    obtain ⟨hs1, hs2, hs3, hs4⟩ := hs s hp hsn
    have hcs : c.getN (some s) = t.getN (some s) := by
      rw [hcj (some s) (fun hq => hs2 (Option.some.inj hq)),
        hbj s hs4, haj (some s) (fun hq => hs1 (Option.some.inj hq))]
    have hcond : ¬ (c.getN (some xi)).parent = some c.nill := by
      rw [hcxp, hcN, hp]
      simpa using hsn
    constructor
    · intro hleft
      unfold_let d y
      rw [if_neg hcond]
      rw [if_pos (by rw [hcxp, hp, hcs]; exact hleft.symm)]
      rw [hcxp, hp]
      rw [Rbtree.setLeft, getN_writeN_same ⟨s, rfl, by rw [hcL]; exact hs3⟩, hcs]
    · intro hleft
      unfold_let d y
      rw [if_neg hcond]
      rw [if_neg (by rw [hcxp, hp, hcs]; exact fun hq => hleft hq.symm)]
      rw [hcxp, hp]
      rw [Rbtree.setRight, getN_writeN_same ⟨s, rfl, by rw [hcL]; exact hs3⟩, hcs]
  have hej : ∀ j : Ptr, j ≠ some yi → e.getN j = d.getN j := by
    intro j hj
    unfold_let e y
    exact getN_setLeft_ne hj _
  have heL : e.arena.length = t.arena.length := by
    unfold_let e; rw [setLeft_arena_length, hdL]
  have hey : e.getN (some yi) =
      { t.getN (some yi) with left := some xi, parent := (t.getN (some xi)).parent } := by
    unfold_let e y
    rw [Rbtree.setLeft, getN_writeN_same ⟨yi, rfl, by rw [hdL]; exact hyv⟩]
    rw [hdy, hcy]
  have heroot : e.root = d.root := by
    unfold_let e; rw [setLeft_root]
  have hfj : ∀ j : Ptr, j ≠ some xi →
      (e.setParent (some xi) y).getN j = e.getN j := by
    intro j hj
    exact getN_setParent_ne hj _
  have hfx : (e.setParent (some xi) y).getN (some xi) =
      { t.getN (some xi) with right := (t.getN (some yi)).left, parent := some yi } := by
    unfold_let y
    rw [Rbtree.setParent, getN_writeN_same ⟨xi, rfl, by rw [heL]; exact hxv⟩]
    rw [hej (some xi) hyxp, hdx, hax]
  have hfroot : (e.setParent (some xi) y).root = e.root := by
    rw [setParent_root]
  refine ⟨hfx, ?_, ?_, ?_, ?_, ?_, ?_⟩
  · rw [hfj (some yi) hxyp, hey]
  · intro bi hsrc hbl hbin
    rw [hfj (some bi) (fun hq => (hb bi hbl).1 (Option.some.inj hq)),
      hej (some bi) (fun hq => (hb bi hbl).2.1 (Option.some.inj hq))]
    exact hdb bi hbl hbin
  · intro hp
    rw [hfroot, heroot, hdroot_pos hp]
  · intro hp
    rw [hfroot, heroot, hdroot_neg hp, hcroot]
  · intro s hsrc hp hsn
    obtain ⟨hs1, hs2, _, _⟩ := hs s hp hsn
    constructor
    · intro hleft
      rw [hfj (some s) (fun hq => hs1 (Option.some.inj hq)),
        hej (some s) (fun hq => hs2 (Option.some.inj hq))]
      exact (hds s hp hsn).1 hleft
    · intro hleft
      rw [hfj (some s) (fun hq => hs1 (Option.some.inj hq)),
        hej (some s) (fun hq => hs2 (Option.some.inj hq))]
      exact (hds s hp hsn).2 hleft
  · intro j hj1 hj2 hj3 hj4
    rw [hfj (some j) (fun hq => hj1 (Option.some.inj hq)),
      hej (some j) (fun hq => hj2 (Option.some.inj hq)),
      hdj j hj4, hcj (some j) (fun hq => hj2 (Option.some.inj hq)),
      hbj j hj3, haj (some j) (fun hq => hj1 (Option.some.inj hq))]

/-- Field-level effect of `rightRotate` at a node `xi` whose left child
`yi` is not the sentinel: the new contents of the four touched cells
(`xi`, `yi`, `yi`'s old right child, `xi`'s old parent), the root update,
and the frame for every other cell. -/
theorem rightRotate_effect {t : Rbtree α} {xi yi : Nat}
    (hy : (t.getN (some xi)).left = some yi) (hyn : yi ≠ t.nill) (hxn : xi ≠ t.nill)
    (hxy : yi ≠ xi) (hxv : xi < t.arena.length) (hyv : yi < t.arena.length)
    (hb : ∀ bi, (t.getN (some yi)).right = some bi → bi ≠ xi ∧ bi ≠ yi ∧
      (bi ≠ t.nill → bi < t.arena.length))
    (hs : ∀ s, (t.getN (some xi)).parent = some s → s ≠ t.nill →
      s ≠ xi ∧ s ≠ yi ∧ s < t.arena.length ∧ (t.getN (some yi)).right ≠ some s) :
    (rightRotate t (some xi)).getN (some xi) =
      { t.getN (some xi) with left := (t.getN (some yi)).right, parent := some yi } ∧
    (rightRotate t (some xi)).getN (some yi) =
      { t.getN (some yi) with right := some xi, parent := (t.getN (some xi)).parent } ∧
    (∀ bi, (t.getN (some yi)).right = some bi → bi ≠ t.nill →
      (rightRotate t (some xi)).getN (some bi) = { t.getN (some bi) with parent := some xi }) ∧
    ((t.getN (some xi)).parent = some t.nill → (rightRotate t (some xi)).root = some yi) ∧
    ((t.getN (some xi)).parent ≠ some t.nill → (rightRotate t (some xi)).root = t.root) ∧
    (∀ s, (t.getN (some xi)).parent = some s → s ≠ t.nill →
      ((t.getN (some s)).left = some xi →
        (rightRotate t (some xi)).getN (some s) = { t.getN (some s) with left := some yi }) ∧
      ((t.getN (some s)).left ≠ some xi →
        (rightRotate t (some xi)).getN (some s) = { t.getN (some s) with right := some yi })) ∧
    (∀ j : Nat, j ≠ xi → j ≠ yi → (t.getN (some yi)).right ≠ some j →
      (t.getN (some xi)).parent ≠ some j →
      (rightRotate t (some xi)).getN (some j) = t.getN (some j)) := by
  have hxyp : (some yi : Ptr) ≠ some xi := fun hq => hxy (Option.some.inj hq)
  have hyxp : (some xi : Ptr) ≠ some yi := fun hq => hxy (Option.some.inj hq).symm
  have hpx : (t.getN (some xi)).parent ≠ some xi := by
    intro hp
    by_cases hxnill : xi = t.nill
    · exact hxn hxnill
    · exact (hs xi hp hxnill).1 rfl
  have hpy : (t.getN (some xi)).parent ≠ some yi := by
    intro hp
    exact (hs yi hp hyn).2.1 rfl
  unfold rightRotate
  rw [if_neg (by rw [hy]; simpa using hyn), hy]
  lift_lets
  extract_lets y a b c d e
  have haL : a.arena.length = t.arena.length := by unfold_let a; rw [setLeft_arena_length]
  have haN : a.nill = t.nill := by unfold_let a; rw [setLeft_nill]
  have haj : ∀ j : Ptr, j ≠ some xi → a.getN j = t.getN j := by
    intro j hj
    unfold_let a
    exact getN_setLeft_ne hj _
  have hax : a.getN (some xi) = { t.getN (some xi) with left := (t.getN (some yi)).right } := by
    unfold_let a y
    rw [Rbtree.setLeft, getN_writeN_same ⟨xi, rfl, hxv⟩]
  have hay : a.getN (some yi) = t.getN (some yi) := haj (some yi) hxyp
  have hbj : ∀ j : Nat, (t.getN (some yi)).right ≠ some j → b.getN (some j) = a.getN (some j) := by
    intro j hj
    unfold_let b y
    split
    · refine getN_setParent_ne ?_ _
      rw [hay]
      exact fun hq => hj hq.symm
    · rfl
  have hbL : b.arena.length = t.arena.length := by
    unfold_let b
    split
    · rw [setParent_arena_length, haL]
    · exact haL
  have hbN : b.nill = t.nill := by
    unfold_let b
    split
    · rw [setParent_nill, haN]
    · exact haN
  have hbx : b.getN (some xi) = a.getN (some xi) :=
    hbj xi (fun hq => (hb xi hq).1 rfl)
  have hby : b.getN (some yi) = a.getN (some yi) :=
    hbj yi (fun hq => (hb yi hq).2.1 rfl)
  have hbb : ∀ bi, (t.getN (some yi)).right = some bi → bi ≠ t.nill →
      b.getN (some bi) = { t.getN (some bi) with parent := some xi } := by
    intro bi hbl hbin
    have hbiv : bi < t.arena.length := (hb bi hbl).2.2 hbin
    unfold_let b y
    rw [if_pos (by rw [hay, haN, hbl]; simpa using hbin)]
    rw [hay, hbl]
    rw [Rbtree.setParent, getN_writeN_same ⟨bi, rfl, by rw [haL]; exact hbiv⟩]
    rw [haj (some bi) (fun hq => (hb bi hbl).1 (Option.some.inj hq))]
  have hbroot : b.root = t.root := by
    unfold_let b
    split
    · rw [setParent_root]; unfold_let a; rw [setLeft_root]
    · unfold_let a; rw [setLeft_root]
  have hcj : ∀ j : Ptr, j ≠ some yi → c.getN j = b.getN j := by
    intro j hj
    unfold_let c y
    exact getN_setParent_ne hj _
  have hcy : c.getN (some yi) =
      { t.getN (some yi) with parent := (t.getN (some xi)).parent } := by
    unfold_let c y
    rw [Rbtree.setParent, getN_writeN_same ⟨yi, rfl, by rw [hbL]; exact hyv⟩]
    rw [hbx, hax, hby, hay]
  have hcL : c.arena.length = t.arena.length := by
    unfold_let c; rw [setParent_arena_length, hbL]
  have hcN : c.nill = t.nill := by
    unfold_let c; rw [setParent_nill, hbN]
  have hcx : c.getN (some xi) = a.getN (some xi) := by
    rw [hcj (some xi) hyxp, hbx]
  have hcxp : (c.getN (some xi)).parent = (t.getN (some xi)).parent := by
    rw [hcx, hax]
  have hcroot : c.root = t.root := by
    unfold_let c; rw [setParent_root, hbroot]
  have hdj : ∀ j : Nat, (t.getN (some xi)).parent ≠ some j →
      d.getN (some j) = c.getN (some j) := by
    intro j hj
    unfold_let d y
    split
    · rfl
    · split
      · refine getN_setLeft_ne ?_ _
        rw [hcxp]
        exact fun hq => hj hq.symm
      · refine getN_setRight_ne ?_ _
        rw [hcxp]
        exact fun hq => hj hq.symm
  have hdL : d.arena.length = t.arena.length := by
    unfold_let d
    split
    · exact hcL
    · split
      · rw [setLeft_arena_length, hcL]
      · rw [setRight_arena_length, hcL]
  have hdN : d.nill = t.nill := by
    unfold_let d
    split
    · exact hcN
    · split
      · rw [setLeft_nill, hcN]
      · rw [setRight_nill, hcN]
  have hdx : d.getN (some xi) = a.getN (some xi) := by
    rw [hdj xi hpx, hcx]
  have hdy : d.getN (some yi) = c.getN (some yi) := hdj yi hpy
  have hdb : ∀ bi, (t.getN (some yi)).right = some bi → bi ≠ t.nill →
      d.getN (some bi) = { t.getN (some bi) with parent := some xi } := by
    intro bi hbl hbin
    have hpb : (t.getN (some xi)).parent ≠ some bi := by
      intro hp
      by_cases hbnill : bi = t.nill
      · exact hbin hbnill
      · exact (hs bi hp hbnill).2.2.2 hbl
    rw [hdj bi hpb, hcj (some bi) (fun hq => (hb bi hbl).2.1 (Option.some.inj hq)),
      hbb bi hbl hbin]
  have hdroot_pos : (t.getN (some xi)).parent = some t.nill → d.root = some yi := by
    intro hp
    unfold_let d y
    rw [if_pos (by rw [hcxp, hcN]; exact hp)]
  have hdroot_neg : (t.getN (some xi)).parent ≠ some t.nill → d.root = c.root := by
    intro hp
    unfold_let d
    rw [if_neg (by rw [hcxp, hcN]; exact hp)]
    split
    · rw [setLeft_root]
    · rw [setRight_root]
  have hds : ∀ s, (t.getN (some xi)).parent = some s → s ≠ t.nill →
      ((t.getN (some s)).left = some xi →
        d.getN (some s) = { t.getN (some s) with left := some yi }) ∧
      ((t.getN (some s)).left ≠ some xi →
        d.getN (some s) = { t.getN (some s) with right := some yi }) := by
    intro s hp hsn
    obtain ⟨hs1, hs2, hs3, hs4⟩ := hs s hp hsn
    have hcs : c.getN (some s) = t.getN (some s) := by
      rw [hcj (some s) (fun hq => hs2 (Option.some.inj hq)),
        hbj s hs4, haj (some s) (fun hq => hs1 (Option.some.inj hq))]
    have hcond : ¬ (c.getN (some xi)).parent = some c.nill := by
      rw [hcxp, hcN, hp]
      simpa using hsn
    constructor
    · intro hleft
      unfold_let d y
      rw [if_neg hcond]
      rw [if_pos (by rw [hcxp, hp, hcs]; exact hleft.symm)]
      rw [hcxp, hp]
      rw [Rbtree.setLeft, getN_writeN_same ⟨s, rfl, by rw [hcL]; exact hs3⟩, hcs]
    · intro hleft
      unfold_let d y
      rw [if_neg hcond]
      rw [if_neg (by rw [hcxp, hp, hcs]; exact fun hq => hleft hq.symm)]
      rw [hcxp, hp]
      rw [Rbtree.setRight, getN_writeN_same ⟨s, rfl, by rw [hcL]; exact hs3⟩, hcs]
  have hej : ∀ j : Ptr, j ≠ some yi → e.getN j = d.getN j := by
    intro j hj
    unfold_let e y
    exact getN_setRight_ne hj _
  have heL : e.arena.length = t.arena.length := by
    unfold_let e; rw [setRight_arena_length, hdL]
  have hey : e.getN (some yi) =
      { t.getN (some yi) with right := some xi, parent := (t.getN (some xi)).parent } := by
    unfold_let e y
    rw [Rbtree.setRight, getN_writeN_same ⟨yi, rfl, by rw [hdL]; exact hyv⟩]
    rw [hdy, hcy]
  have heroot : e.root = d.root := by
    unfold_let e; rw [setRight_root]
  have hfj : ∀ j : Ptr, j ≠ some xi →
      (e.setParent (some xi) y).getN j = e.getN j := by
    intro j hj
    exact getN_setParent_ne hj _
  have hfx : (e.setParent (some xi) y).getN (some xi) =
      { t.getN (some xi) with left := (t.getN (some yi)).right, parent := some yi } := by
    unfold_let y
    rw [Rbtree.setParent, getN_writeN_same ⟨xi, rfl, by rw [heL]; exact hxv⟩]
    rw [hej (some xi) hyxp, hdx, hax]
  have hfroot : (e.setParent (some xi) y).root = e.root := by
    rw [setParent_root]
  refine ⟨hfx, ?_, ?_, ?_, ?_, ?_, ?_⟩
  · rw [hfj (some yi) hxyp, hey]
  · intro bi hsrc hbl hbin
    rw [hfj (some bi) (fun hq => (hb bi hbl).1 (Option.some.inj hq)),
      hej (some bi) (fun hq => (hb bi hbl).2.1 (Option.some.inj hq))]
    exact hdb bi hbl hbin
  · intro hp
    rw [hfroot, heroot, hdroot_pos hp]
  · intro hp
    rw [hfroot, heroot, hdroot_neg hp, hcroot]
  · intro s hsrc hp hsn
    obtain ⟨hs1, hs2, _, _⟩ := hs s hp hsn
    constructor
    · intro hright
      rw [hfj (some s) (fun hq => hs1 (Option.some.inj hq)),
        hej (some s) (fun hq => hs2 (Option.some.inj hq))]
      exact (hds s hp hsn).1 hright
    · intro hright
      rw [hfj (some s) (fun hq => hs1 (Option.some.inj hq)),
        hej (some s) (fun hq => hs2 (Option.some.inj hq))]
      exact (hds s hp hsn).2 hright
  · intro j hj1 hj2 hj3 hj4
    rw [hfj (some j) (fun hq => hj1 (Option.some.inj hq)),
      hej (some j) (fun hq => hj2 (Option.some.inj hq)),
      hdj j hj4, hcj (some j) (fun hq => hj2 (Option.some.inj hq)),
      hbj j hj3, haj (some j) (fun hq => hj1 (Option.some.inj hq))]

/-- `parentsOKb` only reads the `parent` field of the members. -/
theorem parentsOKb_frame {t t' : Rbtree α} :
    ∀ {T : ATree} {up : Ptr},
    (∀ j ∈ T.inorder, (t'.getN (some j)).parent = (t.getN (some j)).parent) →
    parentsOKb t up T = true → parentsOKb t' up T = true := by
  intro T
  induction T with
  | nil => intro up _ _; rfl
  | node L i R ihL ihR =>
    intro up hf hP
    simp only [parentsOKb, Bool.and_eq_true, decide_eq_true_eq] at hP ⊢
    have hi : i ∈ (ATree.node L i R).inorder := by simp [ATree.inorder]
    refine ⟨⟨?_, ?_⟩, ?_⟩
    · rw [hf i hi]; exact hP.1.1
    · refine ihL ?_ hP.1.2
      intro j hj
      exact hf j (by simp only [ATree.inorder, List.mem_append, List.mem_cons]; left; exact hj)
    · refine ihR ?_ hP.2
      intro j hj
      exact hf j (by simp only [ATree.inorder, List.mem_append, List.mem_cons]; right; right; exact hj)

/-- A non-sentinel child (in the heap) of a tree member is itself a
member. -/
theorem isTree_child_mem {t : Rbtree α} {p : Ptr} {T : ATree} (hT : IsTree t p T) :
    ∀ i ∈ T.inorder, ∀ c : Nat,
    ((t.getN (some i)).left = some c ∨ (t.getN (some i)).right = some c) →
    c ≠ t.nill → c ∈ T.inorder := by
  induction hT with
  | nil => intro i hi; simp [ATree.inorder] at hi
  | @node i L R hni hlt hL hR ihL ihR =>
    intro j hj c hc hcn
    simp only [ATree.inorder, List.mem_append, List.mem_cons] at hj ⊢
    rcases hj with hj | hj | hj
    · exact Or.inl (ihL j hj c hc hcn)
    · subst hj
      rcases hc with hc | hc
      · rw [hc] at hL
        cases hL with
        | nil => exact absurd rfl hcn
        | node h1 h2 h3 h4 => exact Or.inl (by simp [ATree.inorder])
      · rw [hc] at hR
        cases hR with
        | nil => exact absurd rfl hcn
        | node h1 h2 h3 h4 => exact Or.inr (Or.inr (by simp [ATree.inorder]))
    · exact Or.inr (Or.inr (ihR j hj c hc hcn))

/-- The heap parent of a member is the expected parent (only possible
for the root) or another member. -/
theorem parentsOKb_parent_mem {t : Rbtree α} :
    ∀ {T : ATree} {up : Ptr}, parentsOKb t up T = true →
    ∀ i ∈ T.inorder, ((∃ L R, T = ATree.node L i R) ∧ (t.getN (some i)).parent = up) ∨
      ∃ s ∈ T.inorder, (t.getN (some i)).parent = some s := by
  intro T
  induction T with
  | nil => intro up _ i hi; simp [ATree.inorder] at hi
  | node L i R ihL ihR =>
    intro up hP j hj
    simp only [parentsOKb, Bool.and_eq_true, decide_eq_true_eq] at hP
    simp only [ATree.inorder, List.mem_append, List.mem_cons] at hj
    rcases hj with hj | hj | hj
    · rcases ihL hP.1.2 j hj with ⟨_, hp⟩ | ⟨s, hs, hp⟩
      · refine Or.inr ⟨i, by simp [ATree.inorder], hp⟩
      · refine Or.inr ⟨s, ?_, hp⟩
        simp only [ATree.inorder, List.mem_append, List.mem_cons]
        exact Or.inl hs
    · subst hj
      exact Or.inl ⟨⟨L, R, rfl⟩, hP.1.1⟩
    · rcases ihR hP.2 j hj with ⟨_, hp⟩ | ⟨s, hs, hp⟩
      · refine Or.inr ⟨i, by simp [ATree.inorder], hp⟩
      · refine Or.inr ⟨s, ?_, hp⟩
        simp only [ATree.inorder, List.mem_append, List.mem_cons]
        exact Or.inr (Or.inr hs)

/-- The pointer below which a node-shaped tree was extracted is its root
index. -/
theorem isTree_node_ptr {t : Rbtree α} {p : Ptr} {L R : ATree} {i : Nat}
    (h : IsTree t p (ATree.node L i R)) : p = some i := by
  cases h; rfl

/-- Rotation at an absent index is the identity on abstract trees. -/
theorem rotLAt_not_mem {xi : Nat} : ∀ {T : ATree}, xi ∉ T.inorder → rotLAt xi T = T := by
  intro T
  induction T with
  | nil => intro _; rfl
  | node L i R ihL ihR =>
    intro h
    simp only [ATree.inorder, List.mem_append, List.mem_cons, not_or] at h
    rw [rotLAt.eq_def]
    dsimp only []
    rw [if_neg (fun hq => h.2.1 hq.symm), ihL h.1, ihR h.2.2]

theorem rotRAt_not_mem {xi : Nat} : ∀ {T : ATree}, xi ∉ T.inorder → rotRAt xi T = T := by
  intro T
  induction T with
  | nil => intro _; rfl
  | node L i R ihL ihR =>
    intro h
    simp only [ATree.inorder, List.mem_append, List.mem_cons, not_or] at h
    rw [rotRAt.eq_def]
    dsimp only []
    rw [if_neg (fun hq => h.2.1 hq.symm), ihL h.1, ihR h.2.2]

/-- Rotations never change a node's color (nor any item). -/
theorem color_leftRotate (t : Rbtree α) (x : Ptr) (q : Ptr) :
    ((leftRotate t x).getN q).color = (t.getN q).color := by
  unfold leftRotate
  split
  · rfl
  · lift_lets
    extract_lets y a b c d e
    have ha : ∀ q : Ptr, (a.getN q).color = (t.getN q).color := by
      intro q; unfold_let a; rw [color_setRight]
    have hb : ∀ q : Ptr, (b.getN q).color = (t.getN q).color := by
      intro q; unfold_let b; split
      · rw [color_setParent, ha]
      · exact ha q
    have hc : ∀ q : Ptr, (c.getN q).color = (t.getN q).color := by
      intro q; unfold_let c; rw [color_setParent, hb]
    have hd : ∀ q : Ptr, (d.getN q).color = (t.getN q).color := by
      intro q; unfold_let d; split
      · exact hc q
      · split
        · rw [color_setLeft, hc]
        · rw [color_setRight, hc]
    have he : ∀ q : Ptr, (e.getN q).color = (t.getN q).color := by
      intro q; unfold_let e; rw [color_setLeft, hd]
    rw [color_setParent, he]

theorem color_rightRotate (t : Rbtree α) (x : Ptr) (q : Ptr) :
    ((rightRotate t x).getN q).color = (t.getN q).color := by
  unfold rightRotate
  split
  · rfl
  · lift_lets
    extract_lets y a b c d e
    have ha : ∀ q : Ptr, (a.getN q).color = (t.getN q).color := by
      intro q; unfold_let a; rw [color_setLeft]
    have hb : ∀ q : Ptr, (b.getN q).color = (t.getN q).color := by
      intro q; unfold_let b; split
      · rw [color_setParent, ha]
      · exact ha q
    have hc : ∀ q : Ptr, (c.getN q).color = (t.getN q).color := by
      intro q; unfold_let c; rw [color_setParent, hb]
    have hd : ∀ q : Ptr, (d.getN q).color = (t.getN q).color := by
      intro q; unfold_let d; split
      · exact hc q
      · split
        · rw [color_setLeft, hc]
        · rw [color_setRight, hc]
    have he : ∀ q : Ptr, (e.getN q).color = (t.getN q).color := by
      intro q; unfold_let e; rw [color_setRight, hd]
    rw [color_setParent, he]
/-- The pointer below which `nil` was extracted is the sentinel. -/
theorem isTree_nil_ptr {t : Rbtree α} {p : Ptr} (h : IsTree t p ATree.nil) :
    p = some t.nill := by
  cases h; rfl

/-- Walking `leftRotate`'s heap edits down a well-formed tree: the
represented abstract tree becomes `rotLAt xi T`, with coherent parent
pointers.  `t'` is any state whose cells relate to `t` as the effect
lemma describes. -/
theorem rotL_spine {t t' : Rbtree α} {xi yi : Nat}
    (hn : t'.nill = t.nill) (hlen : t'.arena.length = t.arena.length)
    (hyr : (t.getN (some xi)).right = some yi) (hyn : yi ≠ t.nill)
    (hx' : t'.getN (some xi) =
      { t.getN (some xi) with right := (t.getN (some yi)).left, parent := some yi })
    (hy' : t'.getN (some yi) =
      { t.getN (some yi) with left := some xi, parent := (t.getN (some xi)).parent })
    (hb' : ∀ b, (t.getN (some yi)).left = some b → b ≠ t.nill →
      t'.getN (some b) = { t.getN (some b) with parent := some xi })
    (hs' : ∀ s, (t.getN (some xi)).parent = some s → s ≠ t.nill →
      ((t.getN (some s)).left = some xi →
        t'.getN (some s) = { t.getN (some s) with left := some yi }) ∧
      ((t.getN (some s)).left ≠ some xi →
        t'.getN (some s) = { t.getN (some s) with right := some yi }))
    (hu : ∀ j : Nat, j ≠ xi → j ≠ yi → (t.getN (some yi)).left ≠ some j →
      (t.getN (some xi)).parent ≠ some j → t'.getN (some j) = t.getN (some j)) :
    ∀ {p : Ptr} {T : ATree}, IsTree t p T → T.inorder.Nodup → xi ∈ T.inorder →
    ∀ up : Ptr, parentsOKb t up T = true → (∀ j ∈ T.inorder, up ≠ some j) →
    rootPtr t.nill (rotLAt xi T) =
      (if rootPtr t.nill T = some xi then some yi else rootPtr t.nill T) ∧
    IsTree t' (rootPtr t.nill (rotLAt xi T)) (rotLAt xi T) ∧
    parentsOKb t' up (rotLAt xi T) = true := by
  have hlen' : t.arena.length ≤ t'.arena.length := le_of_eq hlen.symm
  intro p T hT
  induction hT with
  | nil => intro _ hxi; simp [ATree.inorder] at hxi
  | @node i L R hni hlt hL hR ihL ihR =>
    intro hnd hxi up hP hno
    simp only [ATree.inorder] at hnd
    obtain ⟨hndL, hndCR, hdisj⟩ := List.nodup_append.mp hnd
    obtain ⟨hiR, hndR⟩ := List.nodup_cons.mp hndCR
    have hiL : i ∉ L.inorder := fun h => hdisj h (List.mem_cons_self _ _)
    have hLR : ∀ a ∈ L.inorder, a ∉ R.inorder := fun a ha hb =>
      hdisj ha (List.mem_cons_of_mem _ hb)
    simp only [parentsOKb, Bool.and_eq_true, decide_eq_true_eq] at hP
    obtain ⟨⟨hPi, hPL⟩, hPR⟩ := hP
    have hmemL : ∀ j ∈ L.inorder, j ∈ (ATree.node L i R).inorder := by
      intro j hj
      simp only [ATree.inorder, List.mem_append, List.mem_cons]
      exact Or.inl hj
    have hmemR : ∀ j ∈ R.inorder, j ∈ (ATree.node L i R).inorder := by
      intro j hj
      simp only [ATree.inorder, List.mem_append, List.mem_cons]
      exact Or.inr (Or.inr hj)
    have hmemI : i ∈ (ATree.node L i R).inorder := by simp [ATree.inorder]
    simp only [ATree.inorder, List.mem_append, List.mem_cons] at hxi
    rcases hxi with hxiL | hxieq | hxiR
    · -- xi lives in the left subtree
      have hix : i ≠ xi := fun h => hiL (by rw [h]; exact hxiL)
      have hyiL : yi ∈ L.inorder := isTree_child_mem hL xi hxiL yi (Or.inr hyr) hyn
      have hiy : i ≠ yi := fun h => hiL (by rw [h]; exact hyiL)
      have hbmem : ∀ bj : Nat, (t.getN (some yi)).left = some bj → bj ≠ t.nill →
          bj ∈ L.inorder := fun bj hq hbn => isTree_child_mem hL yi hyiL bj (Or.inl hq) hbn
      have hbne : ∀ j : Nat, j ∉ L.inorder → j ≠ t.nill → (t.getN (some yi)).left ≠ some j := by
        intro j hjL hjn hq
        exact hjL (hbmem j hq hjn)
      cases L with
      | nil => simp [ATree.inorder] at hxiL
      | node LL lr LR =>
        have hLptr : (t.getN (some i)).left = some lr := isTree_node_ptr hL
        have hno' : ∀ j ∈ (ATree.node LL lr LR).inorder, (some i : Ptr) ≠ some j :=
          fun j hj hq => hiL (by rw [Option.some.inj hq]; exact hj)
        obtain ⟨hrootL, htreeL, hpokL⟩ := ihL hndL hxiL (some i) hPL hno'
        have hF : (t'.getN (some i)).left = rootPtr t.nill (rotLAt xi (ATree.node LL lr LR)) ∧
            (t'.getN (some i)).right = (t.getN (some i)).right ∧
            (t'.getN (some i)).parent = (t.getN (some i)).parent ∧
            (∀ j ∈ R.inorder, (t.getN (some xi)).parent ≠ some j) := by
          by_cases hlrx : lr = xi
          · -- i is the rotated node's parent
            have hPL' := hPL
            simp only [parentsOKb, Bool.and_eq_true, decide_eq_true_eq] at hPL'
            obtain ⟨⟨hPlr, _⟩, _⟩ := hPL'
            rw [hlrx] at hPlr
            have hLptr' : (t.getN (some i)).left = some xi := by rw [hLptr, hlrx]
            have hcelli : t'.getN (some i) = { t.getN (some i) with left := some yi } :=
              (hs' i hPlr hni).1 hLptr'
            have hroot' : rootPtr t.nill (rotLAt xi (ATree.node LL lr LR)) = some yi := by
              rw [hrootL]
              have h0 : rootPtr t.nill (ATree.node LL lr LR) = some lr := rfl
              rw [h0, hlrx, if_pos rfl]
            refine ⟨by rw [hcelli, hroot'], by rw [hcelli], by rw [hcelli], ?_⟩
            intro j hjR hq
            have hij : i = j := Option.some.inj (hPlr.symm.trans hq)
            exact hiR (by rw [hij]; exact hjR)
          · -- xi is deeper in the left subtree
            have hparent : ∃ s, s ∈ (ATree.node LL lr LR).inorder ∧
                (t.getN (some xi)).parent = some s := by
              rcases parentsOKb_parent_mem hPL xi hxiL with ⟨⟨L1, R1, hEq⟩, _⟩ | ⟨s, hs1, hs2⟩
              · injection hEq with h1 h2 h3
                exact absurd h2 hlrx
              · exact ⟨s, hs1, hs2⟩
            obtain ⟨s, hsL, hps⟩ := hparent
            have hsi : s ≠ i := fun h => hiL (by rw [← h]; exact hsL)
            have hcelli : t'.getN (some i) = t.getN (some i) := by
              refine hu i hix hiy (hbne i hiL hni) ?_
              rw [hps]
              exact fun hq => hsi (Option.some.inj hq)
            have hroot' : rootPtr t.nill (rotLAt xi (ATree.node LL lr LR)) = some lr := by
              rw [hrootL]
              have h0 : rootPtr t.nill (ATree.node LL lr LR) = some lr := rfl
              rw [h0, if_neg (fun hq => hlrx (Option.some.inj hq))]
            refine ⟨by rw [hcelli, hroot', hLptr], by rw [hcelli], by rw [hcelli], ?_⟩
            intro j hjR hq
            have hsj : s = j := Option.some.inj (hps.symm.trans hq)
            exact hLR s hsL (by rw [hsj]; exact hjR)
        obtain ⟨F1, F2, F3, F4⟩ := hF
        have hcellR : ∀ j ∈ R.inorder, t'.getN (some j) = t.getN (some j) := by
          intro j hjR
          have hjn := (isTree_mem_lt hR j hjR).2
          refine hu j (fun h => hLR xi hxiL (by rw [← h]; exact hjR))
            (fun h => hLR yi hyiL (by rw [← h]; exact hjR))
            (hbne j (fun hjL => hLR j hjL hjR) hjn) (F4 j hjR)
        have hrotT : rotLAt xi (ATree.node (ATree.node LL lr LR) i R) =
            ATree.node (rotLAt xi (ATree.node LL lr LR)) i R := by
          rw [rotLAt.eq_def]
          dsimp only []
          rw [if_neg (fun hq => hix hq), rotLAt_not_mem (fun h => hLR xi hxiL h)]
        rw [hrotT]
        refine ⟨?_, ?_, ?_⟩
        · have h0 : rootPtr t.nill (ATree.node (rotLAt xi (ATree.node LL lr LR)) i R) =
              some i := rfl
          have h1 : rootPtr t.nill (ATree.node (ATree.node LL lr LR) i R) = some i := rfl
          rw [h0, h1, if_neg (fun hq => hix (Option.some.inj hq))]
        · refine IsTree.node (by rw [hn]; exact hni) (by rw [hlen]; exact hlt) ?_ ?_
          · rw [F1]; exact htreeL
          · rw [F2]
            refine isTree_frame hn hlen' hR ?_
            intro j hj
            exact ⟨by rw [hcellR j hj], by rw [hcellR j hj]⟩
        · simp only [parentsOKb, Bool.and_eq_true, decide_eq_true_eq]
          refine ⟨⟨by rw [F3]; exact hPi, hpokL⟩, ?_⟩
          refine parentsOKb_frame ?_ hPR
          intro j hj
          rw [hcellR j hj]
    · -- xi is this node: the rotation happens here
      subst hxieq
      rw [hyr] at hR
      cases hR with
      | nil => exact absurd rfl hyn
      | @node yi2 B C hyn2 hylt hB hC =>
        have hmemBR : ∀ j ∈ B.inorder, j ∈ (ATree.node B yi C).inorder := by
          intro j hj
          simp only [ATree.inorder, List.mem_append, List.mem_cons]
          exact Or.inl hj
        have hmemCR : ∀ j ∈ C.inorder, j ∈ (ATree.node B yi C).inorder := by
          intro j hj
          simp only [ATree.inorder, List.mem_append, List.mem_cons]
          exact Or.inr (Or.inr hj)
        have hyiR : yi ∈ (ATree.node B yi C).inorder := by simp [ATree.inorder]
        simp only [ATree.inorder] at hndR
        obtain ⟨hndB, hndyC, hdisjBC⟩ := List.nodup_append.mp hndR
        obtain ⟨hyiC, hndC⟩ := List.nodup_cons.mp hndyC
        have hyiB : yi ∉ B.inorder := fun h => hdisjBC h (List.mem_cons_self _ _)
        have hBC : ∀ a ∈ B.inorder, a ∉ C.inorder := fun a ha hb =>
          hdisjBC ha (List.mem_cons_of_mem _ hb)
        have hPR' := hPR
        simp only [parentsOKb, Bool.and_eq_true, decide_eq_true_eq] at hPR'
        obtain ⟨⟨hPy, hPB⟩, hPC⟩ := hPR'
        have hblne : ∀ j : Nat, j ≠ t.nill → j ∉ B.inorder →
            (t.getN (some yi)).left ≠ some j := by
          intro j hjn hjB hq
          cases hBs : B with
          | nil =>
            rw [hBs] at hB
            rw [isTree_nil_ptr hB] at hq
            exact hjn (Option.some.inj hq).symm
          | node B1 bi B2 =>
            rw [hBs] at hB
            rw [isTree_node_ptr hB] at hq
            refine hjB ?_
            rw [hBs, ← Option.some.inj hq]
            simp [ATree.inorder]
        have hcellL : ∀ j ∈ L.inorder, t'.getN (some j) = t.getN (some j) := by
          intro j hj
          have hjn := (isTree_mem_lt hL j hj).2
          refine hu j (fun h => hiL (by rw [← h]; exact hj))
            (fun h => hLR j hj (by rw [h]; exact hyiR))
            (hblne j hjn (fun hjB => hLR j hj (hmemBR j hjB))) ?_
          rw [hPi]
          exact hno j (hmemL j hj)
        have hcellC : ∀ j ∈ C.inorder, t'.getN (some j) = t.getN (some j) := by
          intro j hj
          have hjn := (isTree_mem_lt hC j hj).2
          refine hu j (fun h => hiR (by rw [← h]; exact hmemCR j hj))
            (fun h => hyiC (by rw [← h]; exact hj))
            (hblne j hjn (fun hjB => hBC j hjB hj)) ?_
          rw [hPi]
          exact hno j (hmemR j (hmemCR j hj))
        have hcellB : ∀ j ∈ B.inorder,
            (t'.getN (some j)).left = (t.getN (some j)).left ∧
            (t'.getN (some j)).right = (t.getN (some j)).right := by
          intro j hj
          have hjn := (isTree_mem_lt hB j hj).2
          by_cases hqb : (t.getN (some yi)).left = some j
          · have h := hb' j hqb hjn
            exact ⟨by rw [h], by rw [h]⟩
          · have h : t'.getN (some j) = t.getN (some j) := by
              refine hu j (fun h => hiR (by rw [← h]; exact hmemBR j hj))
                (fun h => hyiB (by rw [← h]; exact hj)) hqb ?_
              rw [hPi]
              exact hno j (hmemR j (hmemBR j hj))
            exact ⟨by rw [h], by rw [h]⟩
        have hrot : rotLAt xi (ATree.node L xi (ATree.node B yi C)) =
            ATree.node (ATree.node L xi B) yi C := by
          rw [rotLAt.eq_def]
          dsimp only []
          rw [if_pos rfl]
        rw [hrot]
        refine ⟨?_, ?_, ?_⟩
        · have h0 : rootPtr t.nill (ATree.node (ATree.node L xi B) yi C) = some yi := rfl
          have h1 : rootPtr t.nill (ATree.node L xi (ATree.node B yi C)) = some xi := rfl
          rw [h0, h1, if_pos rfl]
        · have h0 : rootPtr t.nill (ATree.node (ATree.node L xi B) yi C) = some yi := rfl
          rw [h0]
          refine IsTree.node (by rw [hn]; exact hyn2) (by rw [hlen]; exact hylt) ?_ ?_
          · have hyl : (t'.getN (some yi)).left = some xi := by rw [hy']
            rw [hyl]
            refine IsTree.node (by rw [hn]; exact hni) (by rw [hlen]; exact hlt) ?_ ?_
            · have hxl : (t'.getN (some xi)).left = (t.getN (some xi)).left := by rw [hx']
              rw [hxl]
              refine isTree_frame hn hlen' hL ?_
              intro j hj
              exact ⟨by rw [hcellL j hj], by rw [hcellL j hj]⟩
            · have hxr : (t'.getN (some xi)).right = (t.getN (some yi)).left := by rw [hx']
              rw [hxr]
              exact isTree_frame hn hlen' hB hcellB
          · have hyrr : (t'.getN (some yi)).right = (t.getN (some yi)).right := by rw [hy']
            rw [hyrr]
            refine isTree_frame hn hlen' hC ?_
            intro j hj
            exact ⟨by rw [hcellC j hj], by rw [hcellC j hj]⟩
        · simp only [parentsOKb, Bool.and_eq_true, decide_eq_true_eq]
          refine ⟨⟨?_, ⟨?_, ?_⟩, ?_⟩, ?_⟩
          · rw [hy']
            exact hPi
          · rw [hx']
          · refine parentsOKb_frame ?_ hPL
            intro j hj
            rw [hcellL j hj]
          · cases B with
            | nil => rfl
            | node B1 bi B2 =>
              have hbptr : (t.getN (some yi)).left = some bi := isTree_node_ptr hB
              have hbi : bi ∈ (ATree.node B1 bi B2).inorder := by simp [ATree.inorder]
              have hbin := (isTree_mem_lt hB bi hbi).2
              simp only [ATree.inorder] at hndB
              obtain ⟨hndB1, hndbB2, hdisjB⟩ := List.nodup_append.mp hndB
              obtain ⟨hbiB2, hndB2⟩ := List.nodup_cons.mp hndbB2
              have hbiB1 : bi ∉ B1.inorder := fun h => hdisjB h (List.mem_cons_self _ _)
              have hPB' := hPB
              simp only [parentsOKb, Bool.and_eq_true, decide_eq_true_eq] at hPB'
              obtain ⟨⟨_, hPB1⟩, hPB2⟩ := hPB'
              have hmemB1 : ∀ j ∈ B1.inorder, j ∈ (ATree.node B1 bi B2).inorder := by
                intro j hj
                simp only [ATree.inorder, List.mem_append, List.mem_cons]
                exact Or.inl hj
              have hmemB2 : ∀ j ∈ B2.inorder, j ∈ (ATree.node B1 bi B2).inorder := by
                intro j hj
                simp only [ATree.inorder, List.mem_append, List.mem_cons]
                exact Or.inr (Or.inr hj)
              have hcellB1 : ∀ j ∈ B1.inorder, t'.getN (some j) = t.getN (some j) := by
                intro j hj
                have hjn := (isTree_mem_lt hB j (hmemB1 j hj)).2
                refine hu j (fun h => hiR (by rw [← h]; exact hmemBR j (hmemB1 j hj)))
                  (fun h => hyiB (by rw [← h]; exact hmemB1 j hj))
                  (by rw [hbptr]; exact fun hq => hbiB1 (by rw [Option.some.inj hq]; exact hj)) ?_
                rw [hPi]
                exact hno j (hmemR j (hmemBR j (hmemB1 j hj)))
              have hcellB2 : ∀ j ∈ B2.inorder, t'.getN (some j) = t.getN (some j) := by
                intro j hj
                have hjn := (isTree_mem_lt hB j (hmemB2 j hj)).2
                refine hu j (fun h => hiR (by rw [← h]; exact hmemBR j (hmemB2 j hj)))
                  (fun h => hyiB (by rw [← h]; exact hmemB2 j hj))
                  (by rw [hbptr]; exact fun hq => hbiB2 (by rw [Option.some.inj hq]; exact hj)) ?_
                rw [hPi]
                exact hno j (hmemR j (hmemBR j (hmemB2 j hj)))
              simp only [parentsOKb, Bool.and_eq_true, decide_eq_true_eq]
              refine ⟨⟨?_, ?_⟩, ?_⟩
              · rw [hb' bi hbptr hbin]
              · refine parentsOKb_frame ?_ hPB1
                intro j hj
                rw [hcellB1 j hj]
              · refine parentsOKb_frame ?_ hPB2
                intro j hj
                rw [hcellB2 j hj]
          · refine parentsOKb_frame ?_ hPC
            intro j hj
            rw [hcellC j hj]
    · -- xi lives in the right subtree
      have hix : i ≠ xi := fun h => hiR (by rw [h]; exact hxiR)
      have hyiR : yi ∈ R.inorder := isTree_child_mem hR xi hxiR yi (Or.inr hyr) hyn
      have hiy : i ≠ yi := fun h => hiR (by rw [h]; exact hyiR)
      have hxn : xi ≠ t.nill := (isTree_mem_lt hR xi hxiR).2
      have hbmem : ∀ bj : Nat, (t.getN (some yi)).left = some bj → bj ≠ t.nill →
          bj ∈ R.inorder := fun bj hq hbn => isTree_child_mem hR yi hyiR bj (Or.inl hq) hbn
      have hbne : ∀ j : Nat, j ∉ R.inorder → j ≠ t.nill → (t.getN (some yi)).left ≠ some j := by
        intro j hjR hjn hq
        exact hjR (hbmem j hq hjn)
      cases R with
      | nil => simp [ATree.inorder] at hxiR
      | node RL rr RR =>
        have hRptr : (t.getN (some i)).right = some rr := isTree_node_ptr hR
        have hno' : ∀ j ∈ (ATree.node RL rr RR).inorder, (some i : Ptr) ≠ some j :=
          fun j hj hq => hiR (by rw [Option.some.inj hq]; exact hj)
        obtain ⟨hrootR, htreeR, hpokR⟩ := ihR hndR hxiR (some i) hPR hno'
        have hLnx : (t.getN (some i)).left ≠ some xi := by
          cases hLs : L with
          | nil =>
            rw [hLs] at hL
            rw [isTree_nil_ptr hL]
            exact fun hq => hxn (Option.some.inj hq).symm
          | node L1 ll L2 =>
            rw [hLs] at hL
            rw [isTree_node_ptr hL]
            intro hq
            refine hLR xi ?_ hxiR
            rw [hLs, ← Option.some.inj hq]
            simp [ATree.inorder]
        have hF : (t'.getN (some i)).right = rootPtr t.nill (rotLAt xi (ATree.node RL rr RR)) ∧
            (t'.getN (some i)).left = (t.getN (some i)).left ∧
            (t'.getN (some i)).parent = (t.getN (some i)).parent ∧
            (∀ j ∈ L.inorder, (t.getN (some xi)).parent ≠ some j) := by
          by_cases hrrx : rr = xi
          · have hPR2 := hPR
            simp only [parentsOKb, Bool.and_eq_true, decide_eq_true_eq] at hPR2
            obtain ⟨⟨hPrr, _⟩, _⟩ := hPR2
            rw [hrrx] at hPrr
            have hcelli : t'.getN (some i) = { t.getN (some i) with right := some yi } :=
              (hs' i hPrr hni).2 hLnx
            have hroot' : rootPtr t.nill (rotLAt xi (ATree.node RL rr RR)) = some yi := by
              rw [hrootR]
              have h0 : rootPtr t.nill (ATree.node RL rr RR) = some rr := rfl
              rw [h0, hrrx, if_pos rfl]
            refine ⟨by rw [hcelli, hroot'], by rw [hcelli], by rw [hcelli], ?_⟩
            intro j hjL hq
            have hij : i = j := Option.some.inj (hPrr.symm.trans hq)
            exact hiL (by rw [hij]; exact hjL)
          · have hparent : ∃ s, s ∈ (ATree.node RL rr RR).inorder ∧
                (t.getN (some xi)).parent = some s := by
              rcases parentsOKb_parent_mem hPR xi hxiR with ⟨⟨L1, R1, hEq⟩, _⟩ | ⟨s, hs1, hs2⟩
              · injection hEq with h1 h2 h3
                exact absurd h2 hrrx
              · exact ⟨s, hs1, hs2⟩
            obtain ⟨s, hsR, hps⟩ := hparent
            have hsi : s ≠ i := fun h => hiR (by rw [← h]; exact hsR)
            have hcelli : t'.getN (some i) = t.getN (some i) := by
              refine hu i hix hiy (hbne i hiR hni) ?_
              rw [hps]
              exact fun hq => hsi (Option.some.inj hq)
            have hroot' : rootPtr t.nill (rotLAt xi (ATree.node RL rr RR)) = some rr := by
              rw [hrootR]
              have h0 : rootPtr t.nill (ATree.node RL rr RR) = some rr := rfl
              rw [h0, if_neg (fun hq => hrrx (Option.some.inj hq))]
            refine ⟨by rw [hcelli, hroot', hRptr], by rw [hcelli], by rw [hcelli], ?_⟩
            intro j hjL hq
            have hsj : s = j := Option.some.inj (hps.symm.trans hq)
            exact hLR j hjL (by rw [← hsj]; exact hsR)
        obtain ⟨F1, F2, F3, F4⟩ := hF
        have hcellL : ∀ j ∈ L.inorder, t'.getN (some j) = t.getN (some j) := by
          intro j hjL
          have hjn := (isTree_mem_lt hL j hjL).2
          refine hu j (fun h => hLR j hjL (by rw [h]; exact hxiR))
            (fun h => hLR j hjL (by rw [h]; exact hyiR))
            (hbne j (fun hjR => hLR j hjL hjR) hjn) (F4 j hjL)
        have hrotT : rotLAt xi (ATree.node L i (ATree.node RL rr RR)) =
            ATree.node L i (rotLAt xi (ATree.node RL rr RR)) := by
          rw [rotLAt.eq_def]
          dsimp only []
          rw [if_neg (fun hq => hix hq), rotLAt_not_mem (fun h => hLR xi h hxiR)]
        rw [hrotT]
        refine ⟨?_, ?_, ?_⟩
        · have h0 : rootPtr t.nill (ATree.node L i (rotLAt xi (ATree.node RL rr RR))) =
              some i := rfl
          have h1 : rootPtr t.nill (ATree.node L i (ATree.node RL rr RR)) = some i := rfl
          rw [h0, h1, if_neg (fun hq => hix (Option.some.inj hq))]
        · refine IsTree.node (by rw [hn]; exact hni) (by rw [hlen]; exact hlt) ?_ ?_
          · rw [F2]
            refine isTree_frame hn hlen' hL ?_
            intro j hj
            exact ⟨by rw [hcellL j hj], by rw [hcellL j hj]⟩
          · rw [F1]; exact htreeR
        · simp only [parentsOKb, Bool.and_eq_true, decide_eq_true_eq]
          refine ⟨⟨by rw [F3]; exact hPi, ?_⟩, hpokR⟩
          refine parentsOKb_frame ?_ hPL
          intro j hj
          rw [hcellL j hj]
/-- Walking `rightRotate`'s heap edits down a well-formed tree: the
represented abstract tree becomes `rotRAt xi T`, with coherent parent
pointers.  `t'` is any state whose cells relate to `t` as the effect
lemma describes. -/
theorem rotR_spine {t t' : Rbtree α} {xi yi : Nat}
    (hn : t'.nill = t.nill) (hlen : t'.arena.length = t.arena.length)
    (hyr : (t.getN (some xi)).left = some yi) (hyn : yi ≠ t.nill)
    (hx' : t'.getN (some xi) =
      { t.getN (some xi) with left := (t.getN (some yi)).right, parent := some yi })
    (hy' : t'.getN (some yi) =
      { t.getN (some yi) with right := some xi, parent := (t.getN (some xi)).parent })
    (hb' : ∀ b, (t.getN (some yi)).right = some b → b ≠ t.nill →
      t'.getN (some b) = { t.getN (some b) with parent := some xi })
    (hs' : ∀ s, (t.getN (some xi)).parent = some s → s ≠ t.nill →
      ((t.getN (some s)).left = some xi →
        t'.getN (some s) = { t.getN (some s) with left := some yi }) ∧
      ((t.getN (some s)).left ≠ some xi →
        t'.getN (some s) = { t.getN (some s) with right := some yi }))
    (hu : ∀ j : Nat, j ≠ xi → j ≠ yi → (t.getN (some yi)).right ≠ some j →
      (t.getN (some xi)).parent ≠ some j → t'.getN (some j) = t.getN (some j)) :
    ∀ {p : Ptr} {T : ATree}, IsTree t p T → T.inorder.Nodup → xi ∈ T.inorder →
    ∀ up : Ptr, parentsOKb t up T = true → (∀ j ∈ T.inorder, up ≠ some j) →
    rootPtr t.nill (rotRAt xi T) =
      (if rootPtr t.nill T = some xi then some yi else rootPtr t.nill T) ∧
    IsTree t' (rootPtr t.nill (rotRAt xi T)) (rotRAt xi T) ∧
    parentsOKb t' up (rotRAt xi T) = true := by
  have hlen' : t.arena.length ≤ t'.arena.length := le_of_eq hlen.symm
  intro p T hT
  induction hT with
  | nil => intro _ hxi; simp [ATree.inorder] at hxi
  | @node i L R hni hlt hL hR ihL ihR =>
    intro hnd hxi up hP hno
    simp only [ATree.inorder] at hnd
    obtain ⟨hndL, hndCR, hdisj⟩ := List.nodup_append.mp hnd
    obtain ⟨hiR, hndR⟩ := List.nodup_cons.mp hndCR
    have hiL : i ∉ L.inorder := fun h => hdisj h (List.mem_cons_self _ _)
    have hLR : ∀ a ∈ L.inorder, a ∉ R.inorder := fun a ha hb =>
      hdisj ha (List.mem_cons_of_mem _ hb)
    simp only [parentsOKb, Bool.and_eq_true, decide_eq_true_eq] at hP
    obtain ⟨⟨hPi, hPL⟩, hPR⟩ := hP
    have hmemL : ∀ j ∈ L.inorder, j ∈ (ATree.node L i R).inorder := by
      intro j hj
      simp only [ATree.inorder, List.mem_append, List.mem_cons]
      exact Or.inl hj
    have hmemR : ∀ j ∈ R.inorder, j ∈ (ATree.node L i R).inorder := by
      intro j hj
      simp only [ATree.inorder, List.mem_append, List.mem_cons]
      exact Or.inr (Or.inr hj)
    have hmemI : i ∈ (ATree.node L i R).inorder := by simp [ATree.inorder]
    simp only [ATree.inorder, List.mem_append, List.mem_cons] at hxi
    rcases hxi with hxiL | hxieq | hxiR
    · -- xi lives in the left subtree
      have hix : i ≠ xi := fun h => hiL (by rw [h]; exact hxiL)
      have hyiL : yi ∈ L.inorder := isTree_child_mem hL xi hxiL yi (Or.inl hyr) hyn
      have hiy : i ≠ yi := fun h => hiL (by rw [h]; exact hyiL)
      have hbmem : ∀ bj : Nat, (t.getN (some yi)).right = some bj → bj ≠ t.nill →
          bj ∈ L.inorder := fun bj hq hbn => isTree_child_mem hL yi hyiL bj (Or.inr hq) hbn
      have hbne : ∀ j : Nat, j ∉ L.inorder → j ≠ t.nill → (t.getN (some yi)).right ≠ some j := by
        intro j hjL hjn hq
        exact hjL (hbmem j hq hjn)
      cases L with
      | nil => simp [ATree.inorder] at hxiL
      | node LL lr LR =>
        have hLptr : (t.getN (some i)).left = some lr := isTree_node_ptr hL
        have hno' : ∀ j ∈ (ATree.node LL lr LR).inorder, (some i : Ptr) ≠ some j :=
          fun j hj hq => hiL (by rw [Option.some.inj hq]; exact hj)
        obtain ⟨hrootL, htreeL, hpokL⟩ := ihL hndL hxiL (some i) hPL hno'
        have hF : (t'.getN (some i)).left = rootPtr t.nill (rotRAt xi (ATree.node LL lr LR)) ∧
            (t'.getN (some i)).right = (t.getN (some i)).right ∧
            (t'.getN (some i)).parent = (t.getN (some i)).parent ∧
            (∀ j ∈ R.inorder, (t.getN (some xi)).parent ≠ some j) := by
          by_cases hlrx : lr = xi
          · -- i is the rotated node's parent
            have hPL' := hPL
            simp only [parentsOKb, Bool.and_eq_true, decide_eq_true_eq] at hPL'
            obtain ⟨⟨hPlr, _⟩, _⟩ := hPL'
            rw [hlrx] at hPlr
            have hLptr' : (t.getN (some i)).left = some xi := by rw [hLptr, hlrx]
            have hcelli : t'.getN (some i) = { t.getN (some i) with left := some yi } :=
              (hs' i hPlr hni).1 hLptr'
            have hroot' : rootPtr t.nill (rotRAt xi (ATree.node LL lr LR)) = some yi := by
              rw [hrootL]
              have h0 : rootPtr t.nill (ATree.node LL lr LR) = some lr := rfl
              rw [h0, hlrx, if_pos rfl]
            refine ⟨by rw [hcelli, hroot'], by rw [hcelli], by rw [hcelli], ?_⟩
            intro j hjR hq
            have hij : i = j := Option.some.inj (hPlr.symm.trans hq)
            exact hiR (by rw [hij]; exact hjR)
          · -- xi is deeper in the left subtree
            have hparent : ∃ s, s ∈ (ATree.node LL lr LR).inorder ∧
                (t.getN (some xi)).parent = some s := by
              rcases parentsOKb_parent_mem hPL xi hxiL with ⟨⟨L1, R1, hEq⟩, _⟩ | ⟨s, hs1, hs2⟩
              · injection hEq with h1 h2 h3
                exact absurd h2 hlrx
              · exact ⟨s, hs1, hs2⟩
            obtain ⟨s, hsL, hps⟩ := hparent
            have hsi : s ≠ i := fun h => hiL (by rw [← h]; exact hsL)
            have hcelli : t'.getN (some i) = t.getN (some i) := by
              refine hu i hix hiy (hbne i hiL hni) ?_
              rw [hps]
              exact fun hq => hsi (Option.some.inj hq)
            have hroot' : rootPtr t.nill (rotRAt xi (ATree.node LL lr LR)) = some lr := by
              rw [hrootL]
              have h0 : rootPtr t.nill (ATree.node LL lr LR) = some lr := rfl
              rw [h0, if_neg (fun hq => hlrx (Option.some.inj hq))]
            refine ⟨by rw [hcelli, hroot', hLptr], by rw [hcelli], by rw [hcelli], ?_⟩
            intro j hjR hq
            have hsj : s = j := Option.some.inj (hps.symm.trans hq)
            exact hLR s hsL (by rw [hsj]; exact hjR)
        obtain ⟨F1, F2, F3, F4⟩ := hF
        have hcellR : ∀ j ∈ R.inorder, t'.getN (some j) = t.getN (some j) := by
          intro j hjR
          have hjn := (isTree_mem_lt hR j hjR).2
          refine hu j (fun h => hLR xi hxiL (by rw [← h]; exact hjR))
            (fun h => hLR yi hyiL (by rw [← h]; exact hjR))
            (hbne j (fun hjL => hLR j hjL hjR) hjn) (F4 j hjR)
        have hrotT : rotRAt xi (ATree.node (ATree.node LL lr LR) i R) =
            ATree.node (rotRAt xi (ATree.node LL lr LR)) i R := by
          rw [rotRAt.eq_def]
          dsimp only []
          rw [if_neg (fun hq => hix hq), rotRAt_not_mem (fun h => hLR xi hxiL h)]
        rw [hrotT]
        refine ⟨?_, ?_, ?_⟩
        · have h0 : rootPtr t.nill (ATree.node (rotRAt xi (ATree.node LL lr LR)) i R) =
              some i := rfl
          have h1 : rootPtr t.nill (ATree.node (ATree.node LL lr LR) i R) = some i := rfl
          rw [h0, h1, if_neg (fun hq => hix (Option.some.inj hq))]
        · refine IsTree.node (by rw [hn]; exact hni) (by rw [hlen]; exact hlt) ?_ ?_
          · rw [F1]; exact htreeL
          · rw [F2]
            refine isTree_frame hn hlen' hR ?_
            intro j hj
            exact ⟨by rw [hcellR j hj], by rw [hcellR j hj]⟩
        · simp only [parentsOKb, Bool.and_eq_true, decide_eq_true_eq]
          refine ⟨⟨by rw [F3]; exact hPi, hpokL⟩, ?_⟩
          refine parentsOKb_frame ?_ hPR
          intro j hj
          rw [hcellR j hj]
    · -- xi is this node: the rotation happens here
      subst hxieq
      rw [hyr] at hL
      cases hL with
      | nil => exact absurd rfl hyn
      | @node yi2 B C hyn2 hylt hB hC =>
        have hmemBL : ∀ j ∈ B.inorder, j ∈ (ATree.node B yi C).inorder := by
          intro j hj
          simp only [ATree.inorder, List.mem_append, List.mem_cons]
          exact Or.inl hj
        have hmemCL : ∀ j ∈ C.inorder, j ∈ (ATree.node B yi C).inorder := by
          intro j hj
          simp only [ATree.inorder, List.mem_append, List.mem_cons]
          exact Or.inr (Or.inr hj)
        have hyiL : yi ∈ (ATree.node B yi C).inorder := by simp [ATree.inorder]
        simp only [ATree.inorder] at hndL
        obtain ⟨hndB, hndyC, hdisjBC⟩ := List.nodup_append.mp hndL
        obtain ⟨hyiC, hndC⟩ := List.nodup_cons.mp hndyC
        have hyiB : yi ∉ B.inorder := fun h => hdisjBC h (List.mem_cons_self _ _)
        have hBC : ∀ a ∈ B.inorder, a ∉ C.inorder := fun a ha hb =>
          hdisjBC ha (List.mem_cons_of_mem _ hb)
        have hPL' := hPL
        simp only [parentsOKb, Bool.and_eq_true, decide_eq_true_eq] at hPL'
        obtain ⟨⟨hPy, hPB⟩, hPC⟩ := hPL'
        have hbrne : ∀ j : Nat, j ≠ t.nill → j ∉ C.inorder →
            (t.getN (some yi)).right ≠ some j := by
          intro j hjn hjC hq
          cases hCs : C with
          | nil =>
            rw [hCs] at hC
            rw [isTree_nil_ptr hC] at hq
            exact hjn (Option.some.inj hq).symm
          | node C1 ci C2 =>
            rw [hCs] at hC
            rw [isTree_node_ptr hC] at hq
            refine hjC ?_
            rw [hCs, ← Option.some.inj hq]
            simp [ATree.inorder]
        have hcellR : ∀ j ∈ R.inorder, t'.getN (some j) = t.getN (some j) := by
          intro j hj
          have hjn := (isTree_mem_lt hR j hj).2
          refine hu j (fun h => hiR (by rw [← h]; exact hj))
            (fun h => hLR yi hyiL (by rw [← h]; exact hj))
            (hbrne j hjn (fun hjC => hLR j (hmemCL j hjC) hj)) ?_
          rw [hPi]
          exact hno j (hmemR j hj)
        have hcellB : ∀ j ∈ B.inorder, t'.getN (some j) = t.getN (some j) := by
          intro j hj
          have hjn := (isTree_mem_lt hB j hj).2
          refine hu j (fun h => hiL (by rw [← h]; exact hmemBL j hj))
            (fun h => hyiB (by rw [← h]; exact hj))
            (hbrne j hjn (fun hjC => hBC j hj hjC)) ?_
          rw [hPi]
          exact hno j (hmemL j (hmemBL j hj))
        have hcellC : ∀ j ∈ C.inorder,
            (t'.getN (some j)).left = (t.getN (some j)).left ∧
            (t'.getN (some j)).right = (t.getN (some j)).right := by
          intro j hj
          have hjn := (isTree_mem_lt hC j hj).2
          by_cases hqb : (t.getN (some yi)).right = some j
          · have h := hb' j hqb hjn
            exact ⟨by rw [h], by rw [h]⟩
          · have h : t'.getN (some j) = t.getN (some j) := by
              refine hu j (fun h => hiL (by rw [← h]; exact hmemCL j hj))
                (fun h => hyiC (by rw [← h]; exact hj)) hqb ?_
              rw [hPi]
              exact hno j (hmemL j (hmemCL j hj))
            exact ⟨by rw [h], by rw [h]⟩
        have hrot : rotRAt xi (ATree.node (ATree.node B yi C) xi R) =
            ATree.node B yi (ATree.node C xi R) := by
          rw [rotRAt.eq_def]
          dsimp only []
          rw [if_pos rfl]
        rw [hrot]
        refine ⟨?_, ?_, ?_⟩
        · have h0 : rootPtr t.nill (ATree.node B yi (ATree.node C xi R)) = some yi := rfl
          have h1 : rootPtr t.nill (ATree.node (ATree.node B yi C) xi R) = some xi := rfl
          rw [h0, h1, if_pos rfl]
        · have h0 : rootPtr t.nill (ATree.node B yi (ATree.node C xi R)) = some yi := rfl
          rw [h0]
          refine IsTree.node (by rw [hn]; exact hyn2) (by rw [hlen]; exact hylt) ?_ ?_
          · have hyl : (t'.getN (some yi)).left = (t.getN (some yi)).left := by rw [hy']
            rw [hyl]
            refine isTree_frame hn hlen' hB ?_
            intro j hj
            exact ⟨by rw [hcellB j hj], by rw [hcellB j hj]⟩
          · have hyrr : (t'.getN (some yi)).right = some xi := by rw [hy']
            rw [hyrr]
            refine IsTree.node (by rw [hn]; exact hni) (by rw [hlen]; exact hlt) ?_ ?_
            · have hxl : (t'.getN (some xi)).left = (t.getN (some yi)).right := by rw [hx']
              rw [hxl]
              exact isTree_frame hn hlen' hC hcellC
            · have hxr : (t'.getN (some xi)).right = (t.getN (some xi)).right := by rw [hx']
              rw [hxr]
              refine isTree_frame hn hlen' hR ?_
              intro j hj
              exact ⟨by rw [hcellR j hj], by rw [hcellR j hj]⟩
        · simp only [parentsOKb, Bool.and_eq_true, decide_eq_true_eq]
          refine ⟨⟨?_, ?_⟩, ⟨?_, ?_⟩, ?_⟩
          · rw [hy']
            exact hPi
          · refine parentsOKb_frame ?_ hPB
            intro j hj
            rw [hcellB j hj]
          · rw [hx']
          · cases C with
            | nil => rfl
            | node C1 ci C2 =>
              have hcptr : (t.getN (some yi)).right = some ci := isTree_node_ptr hC
              have hci : ci ∈ (ATree.node C1 ci C2).inorder := by simp [ATree.inorder]
              have hcin := (isTree_mem_lt hC ci hci).2
              simp only [ATree.inorder] at hndC
              obtain ⟨hndC1, hndcC2, hdisjC⟩ := List.nodup_append.mp hndC
              obtain ⟨hciC2, hndC2⟩ := List.nodup_cons.mp hndcC2
              have hciC1 : ci ∉ C1.inorder := fun h => hdisjC h (List.mem_cons_self _ _)
              have hPC' := hPC
              simp only [parentsOKb, Bool.and_eq_true, decide_eq_true_eq] at hPC'
              obtain ⟨⟨_, hPC1⟩, hPC2⟩ := hPC'
              have hmemC1 : ∀ j ∈ C1.inorder, j ∈ (ATree.node C1 ci C2).inorder := by
                intro j hj
                simp only [ATree.inorder, List.mem_append, List.mem_cons]
                exact Or.inl hj
              have hmemC2 : ∀ j ∈ C2.inorder, j ∈ (ATree.node C1 ci C2).inorder := by
                intro j hj
                simp only [ATree.inorder, List.mem_append, List.mem_cons]
                exact Or.inr (Or.inr hj)
              have hcellC1 : ∀ j ∈ C1.inorder, t'.getN (some j) = t.getN (some j) := by
                intro j hj
                have hjn := (isTree_mem_lt hC j (hmemC1 j hj)).2
                refine hu j (fun h => hiL (by rw [← h]; exact hmemCL j (hmemC1 j hj)))
                  (fun h => hyiC (by rw [← h]; exact hmemC1 j hj))
                  (by rw [hcptr]; exact fun hq => hciC1 (by rw [Option.some.inj hq]; exact hj)) ?_
                rw [hPi]
                exact hno j (hmemL j (hmemCL j (hmemC1 j hj)))
              have hcellC2 : ∀ j ∈ C2.inorder, t'.getN (some j) = t.getN (some j) := by
                intro j hj
                have hjn := (isTree_mem_lt hC j (hmemC2 j hj)).2
                refine hu j (fun h => hiL (by rw [← h]; exact hmemCL j (hmemC2 j hj)))
                  (fun h => hyiC (by rw [← h]; exact hmemC2 j hj))
                  (by rw [hcptr]; exact fun hq => hciC2 (by rw [Option.some.inj hq]; exact hj)) ?_
                rw [hPi]
                exact hno j (hmemL j (hmemCL j (hmemC2 j hj)))
              simp only [parentsOKb, Bool.and_eq_true, decide_eq_true_eq]
              refine ⟨⟨?_, ?_⟩, ?_⟩
              · rw [hb' ci hcptr hcin]
              · refine parentsOKb_frame ?_ hPC1
                intro j hj
                rw [hcellC1 j hj]
              · refine parentsOKb_frame ?_ hPC2
                intro j hj
                rw [hcellC2 j hj]
          · refine parentsOKb_frame ?_ hPR
            intro j hj
            rw [hcellR j hj]
    · -- xi lives in the right subtree
      have hix : i ≠ xi := fun h => hiR (by rw [h]; exact hxiR)
      have hyiR : yi ∈ R.inorder := isTree_child_mem hR xi hxiR yi (Or.inl hyr) hyn
      have hiy : i ≠ yi := fun h => hiR (by rw [h]; exact hyiR)
      have hxn : xi ≠ t.nill := (isTree_mem_lt hR xi hxiR).2
      have hbmem : ∀ bj : Nat, (t.getN (some yi)).right = some bj → bj ≠ t.nill →
          bj ∈ R.inorder := fun bj hq hbn => isTree_child_mem hR yi hyiR bj (Or.inr hq) hbn
      have hbne : ∀ j : Nat, j ∉ R.inorder → j ≠ t.nill → (t.getN (some yi)).right ≠ some j := by
        intro j hjR hjn hq
        exact hjR (hbmem j hq hjn)
      cases R with
      | nil => simp [ATree.inorder] at hxiR
      | node RL rr RR =>
        have hRptr : (t.getN (some i)).right = some rr := isTree_node_ptr hR
        have hno' : ∀ j ∈ (ATree.node RL rr RR).inorder, (some i : Ptr) ≠ some j :=
          fun j hj hq => hiR (by rw [Option.some.inj hq]; exact hj)
        obtain ⟨hrootR, htreeR, hpokR⟩ := ihR hndR hxiR (some i) hPR hno'
        have hLnx : (t.getN (some i)).left ≠ some xi := by
          cases hLs : L with
          | nil =>
            rw [hLs] at hL
            rw [isTree_nil_ptr hL]
            exact fun hq => hxn (Option.some.inj hq).symm
          | node L1 ll L2 =>
            rw [hLs] at hL
            rw [isTree_node_ptr hL]
            intro hq
            refine hLR xi ?_ hxiR
            rw [hLs, ← Option.some.inj hq]
            simp [ATree.inorder]
        have hF : (t'.getN (some i)).right = rootPtr t.nill (rotRAt xi (ATree.node RL rr RR)) ∧
            (t'.getN (some i)).left = (t.getN (some i)).left ∧
            (t'.getN (some i)).parent = (t.getN (some i)).parent ∧
            (∀ j ∈ L.inorder, (t.getN (some xi)).parent ≠ some j) := by
          by_cases hrrx : rr = xi
          · have hPR2 := hPR
            simp only [parentsOKb, Bool.and_eq_true, decide_eq_true_eq] at hPR2
            obtain ⟨⟨hPrr, _⟩, _⟩ := hPR2
            rw [hrrx] at hPrr
            have hcelli : t'.getN (some i) = { t.getN (some i) with right := some yi } :=
              (hs' i hPrr hni).2 hLnx
            have hroot' : rootPtr t.nill (rotRAt xi (ATree.node RL rr RR)) = some yi := by
              rw [hrootR]
              have h0 : rootPtr t.nill (ATree.node RL rr RR) = some rr := rfl
              rw [h0, hrrx, if_pos rfl]
            refine ⟨by rw [hcelli, hroot'], by rw [hcelli], by rw [hcelli], ?_⟩
            intro j hjL hq
            have hij : i = j := Option.some.inj (hPrr.symm.trans hq)
            exact hiL (by rw [hij]; exact hjL)
          · have hparent : ∃ s, s ∈ (ATree.node RL rr RR).inorder ∧
                (t.getN (some xi)).parent = some s := by
              rcases parentsOKb_parent_mem hPR xi hxiR with ⟨⟨L1, R1, hEq⟩, _⟩ | ⟨s, hs1, hs2⟩
              · injection hEq with h1 h2 h3
                exact absurd h2 hrrx
              · exact ⟨s, hs1, hs2⟩
            obtain ⟨s, hsR, hps⟩ := hparent
            have hsi : s ≠ i := fun h => hiR (by rw [← h]; exact hsR)
            have hcelli : t'.getN (some i) = t.getN (some i) := by
              refine hu i hix hiy (hbne i hiR hni) ?_
              rw [hps]
              exact fun hq => hsi (Option.some.inj hq)
            have hroot' : rootPtr t.nill (rotRAt xi (ATree.node RL rr RR)) = some rr := by
              rw [hrootR]
              have h0 : rootPtr t.nill (ATree.node RL rr RR) = some rr := rfl
              rw [h0, if_neg (fun hq => hrrx (Option.some.inj hq))]
            refine ⟨by rw [hcelli, hroot', hRptr], by rw [hcelli], by rw [hcelli], ?_⟩
            intro j hjL hq
            have hsj : s = j := Option.some.inj (hps.symm.trans hq)
            exact hLR j hjL (by rw [← hsj]; exact hsR)
        obtain ⟨F1, F2, F3, F4⟩ := hF
        have hcellL : ∀ j ∈ L.inorder, t'.getN (some j) = t.getN (some j) := by
          intro j hjL
          have hjn := (isTree_mem_lt hL j hjL).2
          refine hu j (fun h => hLR j hjL (by rw [h]; exact hxiR))
            (fun h => hLR j hjL (by rw [h]; exact hyiR))
            (hbne j (fun hjR => hLR j hjL hjR) hjn) (F4 j hjL)
        have hrotT : rotRAt xi (ATree.node L i (ATree.node RL rr RR)) =
            ATree.node L i (rotRAt xi (ATree.node RL rr RR)) := by
          rw [rotRAt.eq_def]
          dsimp only []
          rw [if_neg (fun hq => hix hq), rotRAt_not_mem (fun h => hLR xi h hxiR)]
        rw [hrotT]
        refine ⟨?_, ?_, ?_⟩
        · have h0 : rootPtr t.nill (ATree.node L i (rotRAt xi (ATree.node RL rr RR))) =
              some i := rfl
          have h1 : rootPtr t.nill (ATree.node L i (ATree.node RL rr RR)) = some i := rfl
          rw [h0, h1, if_neg (fun hq => hix (Option.some.inj hq))]
        · refine IsTree.node (by rw [hn]; exact hni) (by rw [hlen]; exact hlt) ?_ ?_
          · rw [F2]
            refine isTree_frame hn hlen' hL ?_
            intro j hj
            exact ⟨by rw [hcellL j hj], by rw [hcellL j hj]⟩
          · rw [F1]; exact htreeR
        · simp only [parentsOKb, Bool.and_eq_true, decide_eq_true_eq]
          refine ⟨⟨by rw [F3]; exact hPi, ?_⟩, hpokR⟩
          refine parentsOKb_frame ?_ hPL
          intro j hj
          rw [hcellL j hj]
/-- The abstract tree below a pointer is unique. -/
theorem isTree_unique {t : Rbtree α} : ∀ {p : Ptr} {T1 : ATree}, IsTree t p T1 →
    ∀ {T2 : ATree}, IsTree t p T2 → T1 = T2 := by
  intro p T1 h1
  induction h1 with
  | nil =>
    intro T2 h2
    cases h2 with
    | nil => rfl
    | node hni hlt hl hr => exact absurd rfl hni
  | @node i L R hni hlt hL hR ihL ihR =>
    intro T2 h2
    cases h2 with
    | nil => exact absurd rfl hni
    | node hni2 hlt2 hL2 hR2 => rw [ihL hL2, ihR hR2]

/-- The pointer below which a tree hangs is its root pointer. -/
theorem isTree_root_eq {t : Rbtree α} {p : Ptr} {T : ATree} (hT : IsTree t p T) :
    p = rootPtr t.nill T := by
  cases hT with
  | nil => rfl
  | node => rfl

/-- Every member of a well-formed tree is the root of a well-formed
subtree whose members are members of the whole tree. -/
theorem isTree_mem_subtree {t : Rbtree α} {p : Ptr} {T : ATree} (hT : IsTree t p T) :
    T.inorder.Nodup → ∀ i ∈ T.inorder, ∃ L R, IsTree t (some i) (ATree.node L i R) ∧
      (ATree.node L i R).inorder.Nodup ∧
      ∀ j ∈ (ATree.node L i R).inorder, j ∈ T.inorder := by
  induction hT with
  | nil => intro _ i hi; simp [ATree.inorder] at hi
  | @node i L R hni hlt hL hR ihL ihR =>
    intro hnd j hj
    have hnd0 := hnd
    simp only [ATree.inorder] at hnd
    obtain ⟨hndL, hndCR, hdisj⟩ := List.nodup_append.mp hnd
    obtain ⟨hiR, hndR⟩ := List.nodup_cons.mp hndCR
    have hmemL : ∀ k ∈ L.inorder, k ∈ (ATree.node L i R).inorder := by
      intro k hk
      simp only [ATree.inorder, List.mem_append, List.mem_cons]
      exact Or.inl hk
    have hmemR : ∀ k ∈ R.inorder, k ∈ (ATree.node L i R).inorder := by
      intro k hk
      simp only [ATree.inorder, List.mem_append, List.mem_cons]
      exact Or.inr (Or.inr hk)
    simp only [ATree.inorder, List.mem_append, List.mem_cons] at hj
    rcases hj with hj | hj | hj
    · obtain ⟨L1, R1, hsub, hsnd, hsubm⟩ := ihL hndL j hj
      exact ⟨L1, R1, hsub, hsnd, fun k hk => hmemL k (hsubm k hk)⟩
    · subst hj
      exact ⟨L, R, IsTree.node hni hlt hL hR, hnd0, fun k hk => hk⟩
    · obtain ⟨L1, R1, hsub, hsnd, hsubm⟩ := ihR hndR j hj
      exact ⟨L1, R1, hsub, hsnd, fun k hk => hmemR k (hsubm k hk)⟩

/-- In a well-formed tree whose expected root parent is no member, the
parent pointer of a member never points into that member's own
subtree. -/
theorem parent_outside {t : Rbtree α} : ∀ {p : Ptr} {T : ATree}, IsTree t p T →
    T.inorder.Nodup → ∀ up : Ptr, parentsOKb t up T = true →
    (∀ j ∈ T.inorder, up ≠ some j) →
    ∀ i ∈ T.inorder, ∀ {S : ATree}, IsTree t (some i) S →
    ∀ s ∈ S.inorder, (t.getN (some i)).parent ≠ some s := by
  intro p T hT
  induction hT with
  | nil => intro _ _ _ _ i hi; simp [ATree.inorder] at hi
  | @node j L R hnj hltj hLt hRt ihL ihR =>
    intro hnd up hP hno i hi S hS s hsS
    simp only [ATree.inorder] at hnd
    obtain ⟨hndL, hndCR, hdisj⟩ := List.nodup_append.mp hnd
    obtain ⟨hjR, hndR⟩ := List.nodup_cons.mp hndCR
    have hjL : j ∉ L.inorder := fun h => hdisj h (List.mem_cons_self _ _)
    simp only [parentsOKb, Bool.and_eq_true, decide_eq_true_eq] at hP
    obtain ⟨⟨hPj, hPL⟩, hPR⟩ := hP
    simp only [ATree.inorder, List.mem_append, List.mem_cons] at hi
    rcases hi with hi | hi | hi
    · refine ihL hndL (some j) hPL ?_ i hi hS s hsS
      exact fun k hk hq => hjL (by rw [Option.some.inj hq]; exact hk)
    · subst hi
      have hself : IsTree t (some i) (ATree.node L i R) := IsTree.node hnj hltj hLt hRt
      have hSeq : S = ATree.node L i R := isTree_unique hS hself
      rw [hSeq] at hsS
      rw [hPj]
      exact hno s hsS
    · refine ihR hndR (some j) hPR ?_ i hi hS s hsS
      exact fun k hk hq => hjR (by rw [Option.some.inj hq]; exact hk)
/-- `leftRotate` on a well-formed tree realizes `rotLAt` (including the
root/grandparent pointer fix) and keeps the parent pointers coherent. -/
theorem rotL_claim {t : Rbtree α} {T : ATree} (hT : IsTree t t.root T)
    (hnd : T.inorder.Nodup) (hP : parentsOKb t (some t.nill) T = true)
    {xi : Nat} (hxi : xi ∈ T.inorder) (hg : (t.getN (some xi)).right ≠ some t.nill) :
    IsTree (leftRotate t (some xi)) (leftRotate t (some xi)).root (rotLAt xi T) ∧
    parentsOKb (leftRotate t (some xi)) (some t.nill) (rotLAt xi T) = true := by
  have hxv : xi < t.arena.length := (isTree_mem_lt hT xi hxi).1
  have hxn : xi ≠ t.nill := (isTree_mem_lt hT xi hxi).2
  have hnil_mem : ∀ j ∈ T.inorder, j ≠ t.nill := fun j hj => (isTree_mem_lt hT j hj).2
  have hno : ∀ j ∈ T.inorder, (some t.nill : Ptr) ≠ some j :=
    fun j hj hq => hnil_mem j hj (Option.some.inj hq).symm
  obtain ⟨Lx, Rx, hsub, hsnd, hsubm⟩ := isTree_mem_subtree hT hnd xi hxi
  have hsub2 := hsub
  cases hsub2 with
  | node hxn2 hxlt2 hLx hRx =>
  cases Rx with
  | nil => exact absurd (isTree_nil_ptr hRx) hg
  | node RB yi RC =>
    have hyr : (t.getN (some xi)).right = some yi := isTree_node_ptr hRx
    have hyRx : yi ∈ (ATree.node RB yi RC).inorder := by simp [ATree.inorder]
    have hyv : yi < t.arena.length := (isTree_mem_lt hRx yi hyRx).1
    have hyn : yi ≠ t.nill := (isTree_mem_lt hRx yi hyRx).2
    have hmemRxSub : ∀ j ∈ (ATree.node RB yi RC).inorder,
        j ∈ (ATree.node Lx xi (ATree.node RB yi RC)).inorder := by
      intro j hj
      simp only [ATree.inorder, List.mem_append, List.mem_cons] at hj ⊢
      exact Or.inr (Or.inr hj)
    have hxiSub : xi ∈ (ATree.node Lx xi (ATree.node RB yi RC)).inorder := by
      simp [ATree.inorder]
    simp only [ATree.inorder] at hsnd
    obtain ⟨hndLx, hndxRx, hdisjx⟩ := List.nodup_append.mp hsnd
    obtain ⟨hxiRx, hndRx⟩ := List.nodup_cons.mp hndxRx
    have hxy : yi ≠ xi := fun h => hxiRx (by rw [← h]; exact hyRx)
    have hRx2 := hRx
    rw [hyr] at hRx2
    cases hRx2 with
    | node hyn2 hylt2 hRB hRC =>
    obtain ⟨hndRB, hndyRC, hdisjy⟩ := List.nodup_append.mp hndRx
    obtain ⟨hyiRC, hndRC⟩ := List.nodup_cons.mp hndyRC
    have hyiRB : yi ∉ RB.inorder := fun h => hdisjy h (List.mem_cons_self _ _)
    have hmemRBRx : ∀ j ∈ RB.inorder, j ∈ (ATree.node RB yi RC).inorder := by
      intro j hj
      simp only [ATree.inorder, List.mem_append, List.mem_cons]
      exact Or.inl hj
    have hbfacts : ∀ bi, (t.getN (some yi)).left = some bi → bi ≠ xi ∧ bi ≠ yi ∧
        (bi ≠ t.nill → bi < t.arena.length) := by
      intro bi hbl
      cases RB with
      | nil =>
        rw [isTree_nil_ptr hRB] at hbl
        have hbn : bi = t.nill := (Option.some.inj hbl).symm
        refine ⟨?_, ?_, ?_⟩
        · rw [hbn]; exact fun h => hxn h.symm
        · rw [hbn]; exact fun h => hyn h.symm
        · rw [hbn]; exact fun h => absurd rfl h
      | node RB1 bi2 RB2 =>
        have hbptr : (t.getN (some yi)).left = some bi2 := isTree_node_ptr hRB
        have hbeq : bi = bi2 := Option.some.inj (hbl.symm.trans hbptr)
        have hbiRB : bi2 ∈ (ATree.node RB1 bi2 RB2).inorder := by simp [ATree.inorder]
        refine ⟨?_, ?_, fun _ => ?_⟩
        · rw [hbeq]; exact fun h => hxiRx (by rw [← h]; exact hmemRBRx bi2 hbiRB)
        · rw [hbeq]; exact fun h => hyiRB (by rw [← h]; exact hbiRB)
        · rw [hbeq]; exact (isTree_mem_lt hRB bi2 hbiRB).1
    have hout := parent_outside hT hnd (some t.nill) hP hno xi hxi hsub
    have hsfacts : ∀ s, (t.getN (some xi)).parent = some s → s ≠ t.nill →
        s ≠ xi ∧ s ≠ yi ∧ s < t.arena.length ∧ (t.getN (some yi)).left ≠ some s := by
      intro s hp hsn
      rcases parentsOKb_parent_mem hP xi hxi with ⟨_, hpe⟩ | ⟨s0, hs0T, hpe⟩
      · rw [hp] at hpe
        exact absurd (Option.some.inj hpe) hsn
      · have hseq : s = s0 := Option.some.inj (hp.symm.trans hpe)
        refine ⟨?_, ?_, ?_, ?_⟩
        · intro h
          rw [h] at hp
          exact hout xi hxiSub hp
        · intro h
          rw [h] at hp
          exact hout yi (hmemRxSub yi hyRx) hp
        · rw [hseq]; exact (isTree_mem_lt hT s0 hs0T).1
        · intro hq
          have hsSub : s ∈ (ATree.node Lx xi (ATree.node RB yi RC)).inorder :=
            isTree_child_mem hsub yi (hmemRxSub yi hyRx) s (Or.inl hq) hsn
          exact hout s hsSub hp
    obtain ⟨hx', hy', hb', hroot4, hroot5, hs'', hu⟩ :=
      leftRotate_effect hyr hyn hxn hxy hxv hyv hbfacts hsfacts
    obtain ⟨hnn, _, _, _, hlenn, _⟩ := sameAux_leftRotate t (some xi)
    obtain ⟨hrooteq, htree, hpok⟩ :=
      rotL_spine hnn hlenn hyr hyn hx' hy' hb' hs'' hu hT hnd hxi (some t.nill) hP hno
    have hrootfin : (leftRotate t (some xi)).root = rootPtr t.nill (rotLAt xi T) := by
      by_cases hpr : (t.getN (some xi)).parent = some t.nill
      · have hr1 := hroot4 hpr
        have hTroot : rootPtr t.nill T = some xi := by
          rcases parentsOKb_parent_mem hP xi hxi with ⟨⟨L1, R1, hTeq⟩, _⟩ | ⟨s0, hs0T, hpe⟩
          · rw [hTeq]; rfl
          · rw [hpr] at hpe
            exact absurd (Option.some.inj hpe).symm (hnil_mem s0 hs0T)
        rw [hr1, hrooteq, hTroot, if_pos rfl]
      · have hr1 := hroot5 hpr
        have hTrootne : rootPtr t.nill T ≠ some xi := by
          intro hq
          cases T with
          | nil => simp [ATree.inorder] at hxi
          | node L0 i0 R0 =>
            have hieq : i0 = xi := Option.some.inj hq
            have hP2 := hP
            simp only [parentsOKb, Bool.and_eq_true, decide_eq_true_eq] at hP2
            exact hpr (by rw [← hieq]; exact hP2.1.1)
        rw [hr1, isTree_root_eq hT, hrooteq, if_neg hTrootne]
    constructor
    · rw [hrootfin]
      exact htree
    · exact hpok
/-- `rightRotate` on a well-formed tree realizes `rotRAt` (including the
root/grandparent pointer fix) and keeps the parent pointers coherent. -/
theorem rotR_claim {t : Rbtree α} {T : ATree} (hT : IsTree t t.root T)
    (hnd : T.inorder.Nodup) (hP : parentsOKb t (some t.nill) T = true)
    {xi : Nat} (hxi : xi ∈ T.inorder) (hg : (t.getN (some xi)).left ≠ some t.nill) :
    IsTree (rightRotate t (some xi)) (rightRotate t (some xi)).root (rotRAt xi T) ∧
    parentsOKb (rightRotate t (some xi)) (some t.nill) (rotRAt xi T) = true := by
  have hxv : xi < t.arena.length := (isTree_mem_lt hT xi hxi).1
  have hxn : xi ≠ t.nill := (isTree_mem_lt hT xi hxi).2
  have hnil_mem : ∀ j ∈ T.inorder, j ≠ t.nill := fun j hj => (isTree_mem_lt hT j hj).2
  have hno : ∀ j ∈ T.inorder, (some t.nill : Ptr) ≠ some j :=
    fun j hj hq => hnil_mem j hj (Option.some.inj hq).symm
  obtain ⟨Lx, Rx, hsub, hsnd, hsubm⟩ := isTree_mem_subtree hT hnd xi hxi
  have hsub2 := hsub
  cases hsub2 with
  | node hxn2 hxlt2 hLx hRx =>
  cases Lx with
  | nil => exact absurd (isTree_nil_ptr hLx) hg
  | node LB yi LC =>
    have hyr : (t.getN (some xi)).left = some yi := isTree_node_ptr hLx
    have hyLx : yi ∈ (ATree.node LB yi LC).inorder := by simp [ATree.inorder]
    have hyv : yi < t.arena.length := (isTree_mem_lt hLx yi hyLx).1
    have hyn : yi ≠ t.nill := (isTree_mem_lt hLx yi hyLx).2
    have hmemLxSub : ∀ j ∈ (ATree.node LB yi LC).inorder,
        j ∈ (ATree.node (ATree.node LB yi LC) xi Rx).inorder := by
      intro j hj
      simp only [ATree.inorder, List.mem_append, List.mem_cons] at hj ⊢
      exact Or.inl hj
    have hxiSub : xi ∈ (ATree.node (ATree.node LB yi LC) xi Rx).inorder := by
      simp [ATree.inorder]
    simp only [ATree.inorder] at hsnd
    obtain ⟨hndLx, hndxRx, hdisjx⟩ := List.nodup_append.mp hsnd
    have hxy : yi ≠ xi := fun h => hdisjx (by rw [← h]; exact hyLx) (List.mem_cons_self _ _)
    obtain ⟨hndLB, hndyLC, hdisjy⟩ := List.nodup_append.mp hndLx
    obtain ⟨hyiLC, hndLC⟩ := List.nodup_cons.mp hndyLC
    have hyiLB : yi ∉ LB.inorder := fun h => hdisjy h (List.mem_cons_self _ _)
    have hmemLCLx : ∀ j ∈ LC.inorder, j ∈ (ATree.node LB yi LC).inorder := by
      intro j hj
      simp only [ATree.inorder, List.mem_append, List.mem_cons]
      exact Or.inr (Or.inr hj)
    have hLx2 := hLx
    rw [hyr] at hLx2
    cases hLx2 with
    | node hyn2 hylt2 hLB hLC =>
    have hbfacts : ∀ bi, (t.getN (some yi)).right = some bi → bi ≠ xi ∧ bi ≠ yi ∧
        (bi ≠ t.nill → bi < t.arena.length) := by
      intro bi hbl
      cases LC with
      | nil =>
        rw [isTree_nil_ptr hLC] at hbl
        have hbn : bi = t.nill := (Option.some.inj hbl).symm
        refine ⟨?_, ?_, ?_⟩
        · rw [hbn]; exact fun h => hxn h.symm
        · rw [hbn]; exact fun h => hyn h.symm
        · rw [hbn]; exact fun h => absurd rfl h
      | node LC1 bi2 LC2 =>
        have hbptr : (t.getN (some yi)).right = some bi2 := isTree_node_ptr hLC
        have hbeq : bi = bi2 := Option.some.inj (hbl.symm.trans hbptr)
        have hbiLC : bi2 ∈ (ATree.node LC1 bi2 LC2).inorder := by simp [ATree.inorder]
        refine ⟨?_, ?_, fun _ => ?_⟩
        · rw [hbeq]
          intro h
          refine hdisjx ?_ (List.mem_cons_self _ _)
          rw [← h]
          exact hmemLCLx bi2 hbiLC
        · rw [hbeq]; exact fun h => hyiLC (by rw [← h]; exact hbiLC)
        · rw [hbeq]; exact (isTree_mem_lt hLC bi2 hbiLC).1
    have hout := parent_outside hT hnd (some t.nill) hP hno xi hxi hsub
    have hsfacts : ∀ s, (t.getN (some xi)).parent = some s → s ≠ t.nill →
        s ≠ xi ∧ s ≠ yi ∧ s < t.arena.length ∧ (t.getN (some yi)).right ≠ some s := by
      intro s hp hsn
      rcases parentsOKb_parent_mem hP xi hxi with ⟨_, hpe⟩ | ⟨s0, hs0T, hpe⟩
      · rw [hp] at hpe
        exact absurd (Option.some.inj hpe) hsn
      · have hseq : s = s0 := Option.some.inj (hp.symm.trans hpe)
        refine ⟨?_, ?_, ?_, ?_⟩
        · intro h
          rw [h] at hp
          exact hout xi hxiSub hp
        · intro h
          rw [h] at hp
          exact hout yi (hmemLxSub yi hyLx) hp
        · rw [hseq]; exact (isTree_mem_lt hT s0 hs0T).1
        · intro hq
          have hsSub : s ∈ (ATree.node (ATree.node LB yi LC) xi Rx).inorder :=
            isTree_child_mem hsub yi (hmemLxSub yi hyLx) s (Or.inr hq) hsn
          exact hout s hsSub hp
    obtain ⟨hx', hy', hb', hroot4, hroot5, hs'', hu⟩ :=
      rightRotate_effect hyr hyn hxn hxy hxv hyv hbfacts hsfacts
    obtain ⟨hnn, _, _, _, hlenn, _⟩ := sameAux_rightRotate t (some xi)
    obtain ⟨hrooteq, htree, hpok⟩ :=
      rotR_spine hnn hlenn hyr hyn hx' hy' hb' hs'' hu hT hnd hxi (some t.nill) hP hno
    have hrootfin : (rightRotate t (some xi)).root = rootPtr t.nill (rotRAt xi T) := by
      by_cases hpr : (t.getN (some xi)).parent = some t.nill
      · have hr1 := hroot4 hpr
        have hTroot : rootPtr t.nill T = some xi := by
          rcases parentsOKb_parent_mem hP xi hxi with ⟨⟨L1, R1, hTeq⟩, _⟩ | ⟨s0, hs0T, hpe⟩
          · rw [hTeq]; rfl
          · rw [hpr] at hpe
            exact absurd (Option.some.inj hpe).symm (hnil_mem s0 hs0T)
        rw [hr1, hrooteq, hTroot, if_pos rfl]
      · have hr1 := hroot5 hpr
        have hTrootne : rootPtr t.nill T ≠ some xi := by
          intro hq
          cases T with
          | nil => simp [ATree.inorder] at hxi
          | node L0 i0 R0 =>
            have hieq : i0 = xi := Option.some.inj hq
            have hP2 := hP
            simp only [parentsOKb, Bool.and_eq_true, decide_eq_true_eq] at hP2
            exact hpr (by rw [← hieq]; exact hP2.1.1)
        rw [hr1, isTree_root_eq hT, hrooteq, if_neg hTrootne]
    constructor
    · rw [hrootfin]
      exact htree
    · exact hpok
/-- C8: `leftRotate(x)` is a no-op when `x.right` is the sentinel;
otherwise, on a well-formed tree, it promotes `x.right` to `x`'s former
position (the grandparent's child pointer — or the root — now reaches
the promoted node, the promoted node's former left child is reattached
as `x`'s new right child, and all parent pointers remain coherent, as
expressed by the rotated abstract tree `rotLAt`), it preserves the
in-order item sequence, and it changes no node's color; `rightRotate`
is the mirror image. -/
theorem claim_C8 (t : Rbtree α) (T : ATree) (hT : IsTree t t.root T)
    (hnd : T.inorder.Nodup) (hP : parentsOKb t (some t.nill) T = true) :
    (∀ x : Ptr, (t.getN x).right = some t.nill → leftRotate t x = t) ∧
    (∀ x : Ptr, (t.getN x).left = some t.nill → rightRotate t x = t) ∧
    (∀ x q : Ptr,
      ((leftRotate t x).getN q).color = (t.getN q).color ∧
      ((leftRotate t x).getN q).item = (t.getN q).item ∧
      ((rightRotate t x).getN q).color = (t.getN q).color ∧
      ((rightRotate t x).getN q).item = (t.getN q).item) ∧
    (∀ xi ∈ T.inorder, (t.getN (some xi)).right ≠ some t.nill →
      IsTree (leftRotate t (some xi)) (leftRotate t (some xi)).root (rotLAt xi T) ∧
      parentsOKb (leftRotate t (some xi)) (some t.nill) (rotLAt xi T) = true ∧
      (rotLAt xi T).inorder.map (fun j => ((leftRotate t (some xi)).getN (some j)).item) =
        T.inorder.map (fun j => (t.getN (some j)).item)) ∧
    (∀ xi ∈ T.inorder, (t.getN (some xi)).left ≠ some t.nill →
      IsTree (rightRotate t (some xi)) (rightRotate t (some xi)).root (rotRAt xi T) ∧
      parentsOKb (rightRotate t (some xi)) (some t.nill) (rotRAt xi T) = true ∧
      (rotRAt xi T).inorder.map (fun j => ((rightRotate t (some xi)).getN (some j)).item) =
        T.inorder.map (fun j => (t.getN (some j)).item)) := by
  refine ⟨?_, ?_, ?_, ?_, ?_⟩
  · intro x h
    unfold leftRotate
    rw [if_pos h]
  · intro x h
    unfold rightRotate
    rw [if_pos h]
  · intro x q
    exact ⟨color_leftRotate t x q, ((sameAux_leftRotate t x).2.2.2.2.2 q).1,
      color_rightRotate t x q, ((sameAux_rightRotate t x).2.2.2.2.2 q).1⟩
  · intro xi hxi hg
    obtain ⟨h1, h2⟩ := rotL_claim hT hnd hP hxi hg
    refine ⟨h1, h2, ?_⟩
    rw [rotLAt_inorder]
    exact List.map_congr_left
      (fun a _ => ((sameAux_leftRotate t (some xi)).2.2.2.2.2 (some a)).1)
  · intro xi hxi hg
    obtain ⟨h1, h2⟩ := rotR_claim hT hnd hP hxi hg
    refine ⟨h1, h2, ?_⟩
    rw [rotRAt_inorder]
    exact List.map_congr_left
      (fun a _ => ((sameAux_rightRotate t (some xi)).2.2.2.2.2 (some a)).1)

/-- Witness for C8 on the concrete two-node state `egT2`: the
hypotheses hold, and the rotation claim yields the no-op at node 2
(whose right child is the sentinel). -/
theorem claim_C8_witness :
    (IsTree egT2 egT2.root egA2 ∧ egA2.inorder.Nodup ∧
      parentsOKb egT2 (some egT2.nill) egA2 = true) ∧
    leftRotate egT2 (some 2) = egT2 := by
  have hT : IsTree egT2 egT2.root egA2 := by
    show IsTree egT2 (some 1) (ATree.node ATree.nil 1 (ATree.node ATree.nil 2 ATree.nil))
    refine IsTree.node (by decide) (by decide) ?_ ?_
    · show IsTree egT2 (some 0) ATree.nil
      exact IsTree.nil
    · show IsTree egT2 (some 2) (ATree.node ATree.nil 2 ATree.nil)
      refine IsTree.node (by decide) (by decide) ?_ ?_
      · show IsTree egT2 (some 0) ATree.nil
        exact IsTree.nil
      · show IsTree egT2 (some 0) ATree.nil
        exact IsTree.nil
  refine ⟨⟨hT, by decide, by decide⟩, ?_⟩
  exact (claim_C8 egT2 egA2 hT (by decide) (by decide)).1 (some 2) (by decide)
theorem writeN_self {t : Rbtree α} {p : Ptr} (h : t.Valid p) : t.writeN p (t.getN p) = t := by
  obtain ⟨i, rfl, hi⟩ := h
  show { t with arena := t.arena.set i (t.arena.getD i default) } = t
  have harr : t.arena.set i (t.arena.getD i default) = t.arena := by
    apply List.ext_getElem?
    intro j
    by_cases hij : i = j
    · subst hij
      rw [List.getElem?_set_self (by exact hi), List.getD_eq_getElem?_getD]
      rw [List.getElem?_eq_getElem hi]
      rfl
    · rw [List.getElem?_set_ne hij]
  rw [harr]

theorem leftRotate_none (t : Rbtree α) : leftRotate t none = t := rfl

theorem rightRotate_none (t : Rbtree α) : rightRotate t none = t := rfl

/-- Rotating at the sentinel (reachable only in degenerate fixup states)
does not change the state when the sentinel's pointers are clean. -/
theorem leftRotate_sentinel {t : Rbtree α}
    (h1 : (t.getN (some t.nill)).left = none) (h2 : (t.getN (some t.nill)).right = none)
    (h3 : (t.getN (some t.nill)).parent = none) (hlt : t.nill < t.arena.length) :
    leftRotate t (some t.nill) = t := by
  unfold leftRotate
  rw [if_neg (by rw [h2]; exact fun hq => Option.noConfusion hq)]
  rw [h2]
  lift_lets
  extract_lets y a b c d e
  have ha : a = t := by
    unfold_let a y
    show t.setRight (some t.nill) ((t.getN none).left) = t
    rw [Rbtree.setRight]
    have : (t.getN none).left = (t.getN (some t.nill)).right := by rw [h2]; rfl
    rw [this]
    exact writeN_self ⟨t.nill, rfl, hlt⟩
  have hb : b = a := by
    unfold_let b y
    rw [if_pos (by rw [ha, getN_none]; exact fun hq => Option.noConfusion hq)]
    rfl
  have hc : c = b := by
    unfold_let c y
    rfl
  have hd : d = c := by
    unfold_let d
    have hcp : (c.getN (some t.nill)).parent = none := by rw [hc, hb, ha, h3]
    have hcn : c.nill = t.nill := by rw [hc, hb, ha]
    rw [if_neg (by rw [hcp, hcn]; exact fun hq => Option.noConfusion hq)]
    rw [if_neg (by rw [hcp, getN_none]; exact fun hq => Option.noConfusion hq)]
    rw [hcp]
    rfl
  have he : e = d := by
    unfold_let e y
    rfl
  show e.setParent (some t.nill) y = t
  unfold_let y
  rw [he, hd, hc, hb, ha]
  rw [Rbtree.setParent]
  have : (none : Ptr) = (t.getN (some t.nill)).parent := by rw [h3]
  rw [this]
  exact writeN_self ⟨t.nill, rfl, hlt⟩

theorem rightRotate_sentinel {t : Rbtree α}
    (h1 : (t.getN (some t.nill)).left = none) (h2 : (t.getN (some t.nill)).right = none)
    (h3 : (t.getN (some t.nill)).parent = none) (hlt : t.nill < t.arena.length) :
    rightRotate t (some t.nill) = t := by
  unfold rightRotate
  rw [if_neg (by rw [h1]; exact fun hq => Option.noConfusion hq)]
  rw [h1]
  lift_lets
  extract_lets y a b c d e
  have ha : a = t := by
    unfold_let a y
    show t.setLeft (some t.nill) ((t.getN none).right) = t
    rw [Rbtree.setLeft]
    have : (t.getN none).right = (t.getN (some t.nill)).left := by rw [h1]; rfl
    rw [this]
    exact writeN_self ⟨t.nill, rfl, hlt⟩
  have hb : b = a := by
    unfold_let b y
    rw [if_pos (by rw [ha, getN_none]; exact fun hq => Option.noConfusion hq)]
    rfl
  have hc : c = b := by
    unfold_let c y
    rfl
  have hd : d = c := by
    unfold_let d
    have hcp : (c.getN (some t.nill)).parent = none := by rw [hc, hb, ha, h3]
    have hcn : c.nill = t.nill := by rw [hc, hb, ha]
    rw [if_neg (by rw [hcp, hcn]; exact fun hq => Option.noConfusion hq)]
    rw [if_neg (by rw [hcp, getN_none]; exact fun hq => Option.noConfusion hq)]
    rw [hcp]
    rfl
  have he : e = d := by
    unfold_let e y
    rfl
  show e.setParent (some t.nill) y = t
  unfold_let y
  rw [he, hd, hc, hb, ha]
  rw [Rbtree.setParent]
  have : (none : Ptr) = (t.getN (some t.nill)).parent := by rw [h3]
  rw [this]
  exact writeN_self ⟨t.nill, rfl, hlt⟩

/-- A guarded rotation at a non-sentinel node never writes the
sentinel's cell. -/
theorem leftRotate_nill_cell {t : Rbtree α} {xi yi : Nat}
    (hy : (t.getN (some xi)).right = some yi) (hyn : yi ≠ t.nill) (hxn : xi ≠ t.nill) :
    (leftRotate t (some xi)).getN (some t.nill) = t.getN (some t.nill) := by
  have hnx : (some t.nill : Ptr) ≠ some xi := fun hq => hxn (Option.some.inj hq).symm
  have hny : (some t.nill : Ptr) ≠ some yi := fun hq => hyn (Option.some.inj hq).symm
  unfold leftRotate
  rw [if_neg (by rw [hy]; simpa using hyn), hy]
  lift_lets
  extract_lets y a b c d e
  have haN : a.nill = t.nill := by unfold_let a; rw [setRight_nill]
  have ha : a.getN (some t.nill) = t.getN (some t.nill) := by
    unfold_let a
    exact getN_setRight_ne hnx _
  have hb : b.getN (some t.nill) = a.getN (some t.nill) := by
    unfold_let b
    split
    · rename_i hcond
      refine getN_setParent_ne ?_ _
      rw [haN] at hcond
      exact fun hq => hcond hq.symm
    · rfl
  have hbN : b.nill = t.nill := by
    unfold_let b
    split
    · rw [setParent_nill, haN]
    · exact haN
  have hc : c.getN (some t.nill) = b.getN (some t.nill) := by
    unfold_let c y
    exact getN_setParent_ne hny _
  have hcN : c.nill = t.nill := by unfold_let c; rw [setParent_nill, hbN]
  have hd : d.getN (some t.nill) = c.getN (some t.nill) := by
    unfold_let d
    split
    · rfl
    · rename_i hcond
      rw [hcN] at hcond
      split
      · refine getN_setLeft_ne ?_ _
        exact fun hq => hcond hq.symm
      · refine getN_setRight_ne ?_ _
        exact fun hq => hcond hq.symm
  have he : e.getN (some t.nill) = d.getN (some t.nill) := by
    unfold_let e y
    exact getN_setLeft_ne hny _
  rw [getN_setParent_ne hnx, he, hd, hc, hb, ha]

theorem rightRotate_nill_cell {t : Rbtree α} {xi yi : Nat}
    (hy : (t.getN (some xi)).left = some yi) (hyn : yi ≠ t.nill) (hxn : xi ≠ t.nill) :
    (rightRotate t (some xi)).getN (some t.nill) = t.getN (some t.nill) := by
  have hnx : (some t.nill : Ptr) ≠ some xi := fun hq => hxn (Option.some.inj hq).symm
  have hny : (some t.nill : Ptr) ≠ some yi := fun hq => hyn (Option.some.inj hq).symm
  unfold rightRotate
  rw [if_neg (by rw [hy]; simpa using hyn), hy]
  lift_lets
  extract_lets y a b c d e
  have haN : a.nill = t.nill := by unfold_let a; rw [setLeft_nill]
  have ha : a.getN (some t.nill) = t.getN (some t.nill) := by
    unfold_let a
    exact getN_setLeft_ne hnx _
  have hb : b.getN (some t.nill) = a.getN (some t.nill) := by
    unfold_let b
    split
    · rename_i hcond
      refine getN_setParent_ne ?_ _
      rw [haN] at hcond
      exact fun hq => hcond hq.symm
    · rfl
  have hbN : b.nill = t.nill := by
    unfold_let b
    split
    · rw [setParent_nill, haN]
    · exact haN
  have hc : c.getN (some t.nill) = b.getN (some t.nill) := by
    unfold_let c y
    exact getN_setParent_ne hny _
  have hcN : c.nill = t.nill := by unfold_let c; rw [setParent_nill, hbN]
  have hd : d.getN (some t.nill) = c.getN (some t.nill) := by
    unfold_let d
    split
    · rfl
    · rename_i hcond
      rw [hcN] at hcond
      split
      · refine getN_setLeft_ne ?_ _
        exact fun hq => hcond hq.symm
      · refine getN_setRight_ne ?_ _
        exact fun hq => hcond hq.symm
  have he : e.getN (some t.nill) = d.getN (some t.nill) := by
    unfold_let e y
    exact getN_setRight_ne hny _
  rw [getN_setParent_ne hnx, he, hd, hc, hb, ha]
/-- The abstract result of the BST descent of `insert`: the fresh index
`zi` is placed at the leaf position the comparisons of `insertLoop`
reach (items read in the pre-insert state `t`). -/
def insA (t : Rbtree α) (less : α → α → Bool) (x : α) (zi : Nat) : ATree → ATree
  | ATree.nil => ATree.node ATree.nil zi ATree.nil
  | ATree.node L i R =>
    if iless less (some x) ((t.getN (some i)).item) then
      ATree.node (insA t less x zi L) i R
    else ATree.node L i (insA t less x zi R)

/-- The pointer-machine well-formedness kernel threaded through the
fixup loops: the tree below `root`, coherent parents, distinct indices,
clean sentinel pointers, and an allocated sentinel. -/
structure Core (t : Rbtree α) (T : ATree) : Prop where
  tree : IsTree t t.root T
  parents : parentsOKb t (some t.nill) T = true
  nodup : T.inorder.Nodup
  sleft : (t.getN (some t.nill)).left = none
  sright : (t.getN (some t.nill)).right = none
  nill_lt : t.nill < t.arena.length

theorem insA_mem (t : Rbtree α) (less : α → α → Bool) (x : α) (zi : Nat) :
    ∀ T : ATree, ∀ j, j ∈ (insA t less x zi T).inorder ↔ j = zi ∨ j ∈ T.inorder := by
  intro T
  induction T with
  | nil => intro j; simp [insA, ATree.inorder]
  | node L i R ihL ihR =>
    intro j
    rw [insA.eq_def]
    dsimp only []
    split
    · simp only [ATree.inorder, List.mem_append, List.mem_cons, ihL j]
      tauto
    · simp only [ATree.inorder, List.mem_append, List.mem_cons, ihR j]
      tauto

theorem insA_length (t : Rbtree α) (less : α → α → Bool) (x : α) (zi : Nat) :
    ∀ T : ATree, (insA t less x zi T).inorder.length = T.inorder.length + 1 := by
  intro T
  induction T with
  | nil => simp [insA, ATree.inorder]
  | node L i R ihL ihR =>
    rw [insA.eq_def]
    dsimp only []
    split
    · simp only [ATree.inorder, List.length_append, List.length_cons, ihL]
      omega
    · simp only [ATree.inorder, List.length_append, List.length_cons, ihR]
      omega

theorem insA_nodup (t : Rbtree α) (less : α → α → Bool) (x : α) (zi : Nat) :
    ∀ T : ATree, T.inorder.Nodup → zi ∉ T.inorder →
    (insA t less x zi T).inorder.Nodup := by
  intro T
  induction T with
  | nil => intro _ _; simp [insA, ATree.inorder]
  | node L i R ihL ihR =>
    intro hnd hz
    simp only [ATree.inorder] at hnd
    obtain ⟨hndL, hndCR, hdisj⟩ := List.nodup_append.mp hnd
    simp only [ATree.inorder, List.mem_append, List.mem_cons, not_or] at hz
    rw [insA.eq_def]
    dsimp only []
    split
    · simp only [ATree.inorder]
      rw [List.nodup_append]
      refine ⟨ihL hndL hz.1, hndCR, ?_⟩
      intro a ha
      rw [insA_mem] at ha
      rcases ha with rfl | ha
      · intro hmem
        simp only [List.mem_cons] at hmem
        rcases hmem with h | h
        · exact hz.2.1 h
        · exact hz.2.2 h
      · exact hdisj ha
    · simp only [ATree.inorder]
      rw [List.nodup_append]
      obtain ⟨hiR, hndR⟩ := List.nodup_cons.mp hndCR
      refine ⟨hndL, ?_, ?_⟩
      · rw [List.nodup_cons]
        refine ⟨?_, ihR hndR hz.2.2⟩
        intro hmem
        rw [insA_mem] at hmem
        rcases hmem with h | h
        · exact hz.2.1 h.symm
        · exact hiR h
      · intro a ha hmem
        simp only [List.mem_cons] at hmem
        rcases hmem with rfl | hmem
        · exact (List.nodup_cons.mp hndCR).1 (by
            have := hdisj ha
            exact absurd (List.mem_cons_self _ _) this)
        · rw [insA_mem] at hmem
          rcases hmem with rfl | hmem
          · exact hz.1 ha
          · exact hdisj ha (List.mem_cons_of_mem _ hmem)

/-- `bstb` reads only items of members. -/
theorem bstb_frame {t tc : Rbtree α} {less : α → α → Bool} :
    ∀ {T : ATree}, (∀ j ∈ T.inorder, (tc.getN (some j)).item = (t.getN (some j)).item) →
    bstb t less T = true → bstb tc less T = true := by
  intro T
  induction T with
  | nil => intro _ _; rfl
  | node L i R ihL ihR =>
    intro hf hb
    have hmemL : ∀ k ∈ L.inorder, k ∈ (ATree.node L i R).inorder := by
      intro k hk
      simp only [ATree.inorder, List.mem_append, List.mem_cons]
      exact Or.inl hk
    have hmemR : ∀ k ∈ R.inorder, k ∈ (ATree.node L i R).inorder := by
      intro k hk
      simp only [ATree.inorder, List.mem_append, List.mem_cons]
      exact Or.inr (Or.inr hk)
    have hmi : i ∈ (ATree.node L i R).inorder := by simp [ATree.inorder]
    simp only [bstb, Bool.and_eq_true, List.all_eq_true] at hb ⊢
    obtain ⟨⟨⟨hbL, hbR⟩, hbLi⟩, hbiR⟩ := hb
    refine ⟨⟨⟨ihL (fun k hk => hf k (hmemL k hk)) hbL,
      ihR (fun k hk => hf k (hmemR k hk)) hbR⟩, ?_⟩, ?_⟩
    · intro j hj
      rw [hf j (hmemL j hj), hf i hmi]
      exact hbLi j hj
    · intro j hj
      rw [hf j (hmemR j hj), hf i hmi]
      exact hbiR j hj

/-- Converse of `bstb_pairwise`: a pairwise-increasing in-order sequence
makes the checker accept. -/
theorem pairwise_bstb {t : Rbtree α} {less : α → α → Bool} :
    ∀ {T : ATree}, T.inorder.Pairwise
      (fun i j => iless less ((t.getN (some i)).item) ((t.getN (some j)).item) = true) →
    bstb t less T = true := by
  intro T
  induction T with
  | nil => intro _; rfl
  | node L i R ihL ihR =>
    intro hp
    simp only [ATree.inorder] at hp
    rw [List.pairwise_append] at hp
    obtain ⟨hpL, hpCR, hcross⟩ := hp
    rw [List.pairwise_cons] at hpCR
    obtain ⟨hiR, hpR⟩ := hpCR
    simp only [bstb, Bool.and_eq_true, List.all_eq_true]
    refine ⟨⟨⟨ihL hpL, ihR hpR⟩, ?_⟩, ?_⟩
    · intro j hj
      exact hcross j hj i (List.mem_cons_self _ _)
    · intro j hj
      exact hiR j hj

/-- Inserting a fresh item at the descent position keeps the BST
checker satisfied (items of old members unchanged in `tc`, `zi` fresh
and carrying `x`). -/
theorem insA_bst {t tc : Rbtree α} {less : α → α → Bool} {x : α} {zi : Nat}
    (hzi : (tc.getN (some zi)).item = some x) :
    ∀ {T : ATree}, bstb t less T = true →
    (∀ j ∈ T.inorder, ¬ eqv less (some x) ((t.getN (some j)).item)) →
    (∀ j ∈ T.inorder, (tc.getN (some j)).item = (t.getN (some j)).item) →
    bstb tc less (insA t less x zi T) = true := by
  intro T
  induction T with
  | nil =>
    intro _ _ _
    simp [insA, bstb, ATree.inorder]
  | node L i R ihL ihR =>
    intro hb hfresh hf
    have hmemL : ∀ k ∈ L.inorder, k ∈ (ATree.node L i R).inorder := by
      intro k hk
      simp only [ATree.inorder, List.mem_append, List.mem_cons]
      exact Or.inl hk
    have hmemR : ∀ k ∈ R.inorder, k ∈ (ATree.node L i R).inorder := by
      intro k hk
      simp only [ATree.inorder, List.mem_append, List.mem_cons]
      exact Or.inr (Or.inr hk)
    have hmi : i ∈ (ATree.node L i R).inorder := by simp [ATree.inorder]
    simp only [bstb, Bool.and_eq_true, List.all_eq_true] at hb
    obtain ⟨⟨⟨hbL, hbR⟩, hbLi⟩, hbiR⟩ := hb
    rw [insA.eq_def]
    dsimp only []
    split
    · rename_i hlt
      simp only [bstb, Bool.and_eq_true, List.all_eq_true]
      refine ⟨⟨⟨ihL hbL (fun k hk => hfresh k (hmemL k hk))
        (fun k hk => hf k (hmemL k hk)),
        bstb_frame (fun k hk => hf k (hmemR k hk)) hbR⟩, ?_⟩, ?_⟩
      · intro j hj
        rw [insA_mem] at hj
        rcases hj with rfl | hj
        · rw [hzi, hf i hmi]
          exact hlt
        · rw [hf j (hmemL j hj), hf i hmi]
          exact hbLi j hj
      · intro j hj
        rw [hf j (hmemR j hj), hf i hmi]
        exact hbiR j hj
    · rename_i hlt
      have hgt : iless less ((t.getN (some i)).item) (some x) = true := by
        by_contra hq
        exact hfresh i hmi ⟨Bool.not_eq_true _ ▸ (by simpa using hlt), by simpa using hq⟩
      simp only [bstb, Bool.and_eq_true, List.all_eq_true]
      refine ⟨⟨⟨bstb_frame (fun k hk => hf k (hmemL k hk)) hbL,
        ihR hbR (fun k hk => hfresh k (hmemR k hk))
        (fun k hk => hf k (hmemR k hk))⟩, ?_⟩, ?_⟩
      · intro j hj
        rw [hf j (hmemL j hj), hf i hmi]
        exact hbLi j hj
      · intro j hj
        rw [insA_mem] at hj
        rcases hj with rfl | hj
        · rw [hzi, hf i hmi]
          exact hgt
        · rw [hf j (hmemR j hj), hf i hmi]
          exact hbiR j hj

theorem parentsOKb_node_intro {t : Rbtree α} {up : Ptr} {L R : ATree} {i : Nat}
    (h1 : (t.getN (some i)).parent = up) (h2 : parentsOKb t (some i) L = true)
    (h3 : parentsOKb t (some i) R = true) :
    parentsOKb t up (ATree.node L i R) = true := by
  simp only [parentsOKb, Bool.and_eq_true, decide_eq_true_eq]
  exact ⟨⟨h1, h2⟩, h3⟩

/-- The extra loop invariant of `insertFixup`: the cursor `z` is a live
member, the sentinel is black, and the root can be red only if `z`
stands at it (the classic CLRS invariant that keeps the loop away from
the sentinel's `parent` field). -/
def Zinv (t : Rbtree α) (T : ATree) (z : Ptr) : Prop :=
  (∃ j, z = some j ∧ j ∈ T.inorder) ∧
  (t.getN (some t.nill)).color = BLACK ∧
  (∀ L i R, T = ATree.node L i R → ((t.getN (some i)).color = BLACK ∨ z = some i))

theorem insA_top (t : Rbtree α) (less : α → α → Bool) (x : α) (zi : Nat)
    (L : ATree) (i : Nat) (R : ATree) :
    ∃ L2 R2, insA t less x zi (ATree.node L i R) = ATree.node L2 i R2 := by
  rw [insA.eq_def]
  dsimp only []
  split
  · exact ⟨_, _, rfl⟩
  · exact ⟨_, _, rfl⟩
theorem parentsOKb_top {t : Rbtree α} {up : Ptr} {L R : ATree} {i : Nat}
    (h : parentsOKb t up (ATree.node L i R) = true) : (t.getN (some i)).parent = up := by
  simp only [parentsOKb, Bool.and_eq_true, decide_eq_true_eq] at h
  exact h.1.1

/-- Every non-root member's parent pointer names a member of which it is
a child (left or right). -/
theorem parentsOKb_child {t : Rbtree α} :
    ∀ {T : ATree} {q up : Ptr}, IsTree t q T → parentsOKb t up T = true →
    ∀ i ∈ T.inorder, ((∃ L R, T = ATree.node L i R) ∧ (t.getN (some i)).parent = up) ∨
      ∃ s ∈ T.inorder, (t.getN (some i)).parent = some s ∧
        ((t.getN (some s)).left = some i ∨ (t.getN (some s)).right = some i) := by
  intro T
  induction T with
  | nil => intro q up _ _ i hi; simp [ATree.inorder] at hi
  | node L i R ihL ihR =>
    intro q up hT hP k hk
    have hT2 := hT
    cases hT2 with
    | node hni hlt hL hR =>
    simp only [parentsOKb, Bool.and_eq_true, decide_eq_true_eq] at hP
    obtain ⟨⟨hPi, hPL⟩, hPR⟩ := hP
    simp only [ATree.inorder, List.mem_append, List.mem_cons] at hk
    rcases hk with hk | hk | hk
    · rcases ihL hL hPL k hk with ⟨⟨L1, R1, hLeq⟩, hp⟩ | ⟨s, hs, hp, hchild⟩
      · refine Or.inr ⟨i, by simp [ATree.inorder], hp, Or.inl ?_⟩
        rw [hLeq] at hL
        exact isTree_node_ptr hL
      · refine Or.inr ⟨s, ?_, hp, hchild⟩
        simp only [ATree.inorder, List.mem_append, List.mem_cons]
        exact Or.inl hs
    · subst hk
      exact Or.inl ⟨⟨L, R, rfl⟩, hPi⟩
    · rcases ihR hR hPR k hk with ⟨⟨L1, R1, hReq⟩, hp⟩ | ⟨s, hs, hp, hchild⟩
      · refine Or.inr ⟨i, by simp [ATree.inorder], hp, Or.inr ?_⟩
        rw [hReq] at hR
        exact isTree_node_ptr hR
      · refine Or.inr ⟨s, ?_, hp, hchild⟩
        simp only [ATree.inorder, List.mem_append, List.mem_cons]
        exact Or.inr (Or.inr hs)

/-- The `root` field after a genuine right rotation: it becomes the
promoted child exactly when the pivot hung at the sentinel. -/
theorem rightRotate_root_of {t : Rbtree α} {x : Ptr} {yi : Nat}
    (hy : (t.getN x).left = some yi) (hyn : yi ≠ t.nill) (hxy : x ≠ some yi)
    (hbx : (t.getN (some yi)).right ≠ x) :
    ((t.getN x).parent = some t.nill → (rightRotate t x).root = some yi) ∧
    ((t.getN x).parent ≠ some t.nill → (rightRotate t x).root = t.root) := by
  unfold rightRotate
  rw [if_neg (by rw [hy]; exact fun hq => hyn (Option.some.inj hq)), hy]
  lift_lets
  extract_lets y a b c d e
  have hay : (a.getN y).right = (t.getN (some yi)).right := by
    unfold_let a y
    rw [right_setLeft]
  have han : a.nill = t.nill := by unfold_let a; rw [setLeft_nill]
  have hax : (a.getN x).parent = (t.getN x).parent := by
    unfold_let a; rw [parent_setLeft]
  have hbx2 : (b.getN x).parent = (t.getN x).parent := by
    unfold_let b
    split
    · rw [getN_setParent_ne (by rw [hay]; exact fun hq => hbx hq.symm) _, hax]
    · exact hax
  have hbn : b.nill = t.nill := by
    unfold_let b
    split
    · rw [setParent_nill, han]
    · exact han
  have hcx : (c.getN x).parent = (t.getN x).parent := by
    unfold_let c y
    rw [getN_setParent_ne hxy _, hbx2]
  have hcn : c.nill = t.nill := by unfold_let c; rw [setParent_nill, hbn]
  have haroot : a.root = t.root := by unfold_let a; rw [setLeft_root]
  have hbroot : b.root = t.root := by
    unfold_let b
    split
    · rw [setParent_root, haroot]
    · exact haroot
  have hcroot : c.root = t.root := by unfold_let c; rw [setParent_root, hbroot]
  constructor
  · intro hpar
    show (e.setParent x y).root = some yi
    rw [setParent_root]
    unfold_let e
    rw [setRight_root]
    unfold_let d
    rw [if_pos (by rw [hcx, hcn]; exact hpar)]
  · intro hpar
    show (e.setParent x y).root = t.root
    rw [setParent_root]
    unfold_let e
    rw [setRight_root]
    unfold_let d
    rw [if_neg (by rw [hcx, hcn]; exact hpar)]
    split
    · rw [setLeft_root, hcroot]
    · rw [setRight_root, hcroot]

/-- The `root` field after a genuine left rotation, mirror image. -/
theorem leftRotate_root_of {t : Rbtree α} {x : Ptr} {yi : Nat}
    (hy : (t.getN x).right = some yi) (hyn : yi ≠ t.nill) (hxy : x ≠ some yi)
    (hbx : (t.getN (some yi)).left ≠ x) :
    ((t.getN x).parent = some t.nill → (leftRotate t x).root = some yi) ∧
    ((t.getN x).parent ≠ some t.nill → (leftRotate t x).root = t.root) := by
  unfold leftRotate
  rw [if_neg (by rw [hy]; exact fun hq => hyn (Option.some.inj hq)), hy]
  lift_lets
  extract_lets y a b c d e
  have hay : (a.getN y).left = (t.getN (some yi)).left := by
    unfold_let a y
    rw [left_setRight]
  have han : a.nill = t.nill := by unfold_let a; rw [setRight_nill]
  have hax : (a.getN x).parent = (t.getN x).parent := by
    unfold_let a; rw [parent_setRight]
  have hbx2 : (b.getN x).parent = (t.getN x).parent := by
    unfold_let b
    split
    · rw [getN_setParent_ne (by rw [hay]; exact fun hq => hbx hq.symm) _, hax]
    · exact hax
  have hbn : b.nill = t.nill := by
    unfold_let b
    split
    · rw [setParent_nill, han]
    · exact han
  have hcx : (c.getN x).parent = (t.getN x).parent := by
    unfold_let c y
    rw [getN_setParent_ne hxy _, hbx2]
  have hcn : c.nill = t.nill := by unfold_let c; rw [setParent_nill, hbn]
  have haroot : a.root = t.root := by unfold_let a; rw [setRight_root]
  have hbroot : b.root = t.root := by
    unfold_let b
    split
    · rw [setParent_root, haroot]
    · exact haroot
  have hcroot : c.root = t.root := by unfold_let c; rw [setParent_root, hbroot]
  constructor
  · intro hpar
    show (e.setParent x y).root = some yi
    rw [setParent_root]
    unfold_let e
    rw [setLeft_root]
    unfold_let d
    rw [if_pos (by rw [hcx, hcn]; exact hpar)]
  · intro hpar
    show (e.setParent x y).root = t.root
    rw [setParent_root]
    unfold_let e
    rw [setLeft_root]
    unfold_let d
    rw [if_neg (by rw [hcx, hcn]; exact hpar)]
    split
    · rw [setLeft_root, hcroot]
    · rw [setRight_root, hcroot]
/-- Cell-level effect of a genuine left rotation at a member `p` whose
right child is the member `j`, with the rotation's aliasing side
conditions discharged from well-formedness. -/
theorem rotL_cells {t : Rbtree α} {T : ATree} (hT : IsTree t t.root T)
    (hnd : T.inorder.Nodup) (hP : parentsOKb t (some t.nill) T = true)
    {p j : Nat} (hp : p ∈ T.inorder) (hpr : (t.getN (some p)).right = some j)
    (hjn : j ≠ t.nill) :
    j ∈ T.inorder ∧ j ≠ p ∧
    (t.getN (some j)).left ≠ some p ∧
    (leftRotate t (some p)).getN (some p) =
      { t.getN (some p) with right := (t.getN (some j)).left, parent := some j } ∧
    (leftRotate t (some p)).getN (some j) =
      { t.getN (some j) with left := some p, parent := (t.getN (some p)).parent } ∧
    ∀ s, (t.getN (some p)).parent = some s → s ≠ t.nill →
      s ≠ p ∧ s ≠ j ∧ (t.getN (some j)).left ≠ some s ∧ (t.getN (some j)).right ≠ some s ∧
      ((t.getN (some s)).left = some p →
        (leftRotate t (some p)).getN (some s) = { t.getN (some s) with left := some j }) ∧
      ((t.getN (some s)).left ≠ some p →
        (leftRotate t (some p)).getN (some s) = { t.getN (some s) with right := some j }) := by
  have hplt : p < t.arena.length := (isTree_mem_lt hT p hp).1
  have hpn : p ≠ t.nill := (isTree_mem_lt hT p hp).2
  obtain ⟨Lp, Rp, hsub, hsnd, hsubm⟩ := isTree_mem_subtree hT hnd p hp
  have hsub2 := hsub
  cases hsub2 with
  | node hpn2 hplt2 hLp hRp =>
  cases Rp with
  | nil =>
    have hq := isTree_nil_ptr hRp
    rw [hpr] at hq
    exact absurd (Option.some.inj hq) hjn
  | node RB j' RC =>
    have hj' : (t.getN (some p)).right = some j' := isTree_node_ptr hRp
    rw [hpr] at hj'
    obtain rfl : j = j' := Option.some.inj hj'
    have hjRp : j ∈ (ATree.node RB j RC).inorder := by simp [ATree.inorder]
    have hpsub : p ∈ (ATree.node Lp p (ATree.node RB j RC)).inorder := by
      simp [ATree.inorder]
    have hjsub : j ∈ (ATree.node Lp p (ATree.node RB j RC)).inorder := by
      simp only [ATree.inorder, List.mem_append, List.mem_cons]
      exact Or.inr (Or.inr (by simpa [ATree.inorder] using hjRp))
    have hjT : j ∈ T.inorder := hsubm j hjsub
    have hjlt : j < t.arena.length := (isTree_mem_lt hT j hjT).1
    simp only [ATree.inorder] at hsnd
    obtain ⟨hndLp, hndCR, hdisj⟩ := List.nodup_append.mp hsnd
    obtain ⟨hpRp, hndRp⟩ := List.nodup_cons.mp hndCR
    have hjp : j ≠ p := fun hq => hpRp (hq ▸ hjRp)
    have hRp2 := hRp
    rw [hpr] at hRp2
    cases hRp2 with
    | node hjn2 hjlt2 hRB hRC =>
    obtain ⟨hndRB, hndjC, hdisj2⟩ := List.nodup_append.mp hndRp
    have hjRB : j ∉ RB.inorder := fun hq => hdisj2 hq (List.mem_cons_self _ _)
    have hmemRBs : ∀ b ∈ RB.inorder, b ∈ (ATree.node RB j RC).inorder := by
      intro b hb
      simp only [ATree.inorder, List.mem_append, List.mem_cons]
      exact Or.inl hb
    have hmemRCs : ∀ b ∈ RC.inorder, b ∈ (ATree.node RB j RC).inorder := by
      intro b hb
      simp only [ATree.inorder, List.mem_append, List.mem_cons]
      exact Or.inr (Or.inr hb)
    have hRtoS : ∀ b ∈ (ATree.node RB j RC).inorder,
        b ∈ (ATree.node Lp p (ATree.node RB j RC)).inorder := by
      intro b hb
      simp only [ATree.inorder, List.mem_append, List.mem_cons] at hb ⊢
      exact Or.inr (Or.inr (by simpa [ATree.inorder] using hb))
    have hjl_cases : (t.getN (some j)).left = some t.nill ∨
        ∃ b, (t.getN (some j)).left = some b ∧ b ∈ RB.inorder := by
      cases RB with
      | nil => exact Or.inl (isTree_nil_ptr hRB)
      | node B1 b B2 =>
        exact Or.inr ⟨b, isTree_node_ptr hRB, by simp [ATree.inorder]⟩
    have hjr_cases : (t.getN (some j)).right = some t.nill ∨
        ∃ b, (t.getN (some j)).right = some b ∧ b ∈ RC.inorder := by
      cases RC with
      | nil => exact Or.inl (isTree_nil_ptr hRC)
      | node B1 b B2 =>
        exact Or.inr ⟨b, isTree_node_ptr hRC, by simp [ATree.inorder]⟩
    have hjlp : (t.getN (some j)).left ≠ some p := by
      rcases hjl_cases with hq | ⟨b, hq, hb⟩
      · rw [hq]
        exact fun he => hpn (Option.some.inj he).symm
      · rw [hq]
        intro he
        exact hpRp (by rw [Option.some.inj he] at hb; exact hmemRBs _ hb)
    have hno : ∀ k ∈ T.inorder, (some t.nill : Ptr) ≠ some k :=
      fun k hk hq => (isTree_mem_lt hT k hk).2 (Option.some.inj hq).symm
    have hout := parent_outside hT hnd (some t.nill) hP hno p hp hsub
    have hb : ∀ bi, (t.getN (some j)).left = some bi → bi ≠ p ∧ bi ≠ j ∧
        (bi ≠ t.nill → bi < t.arena.length) := by
      intro bi hbi
      rcases hjl_cases with hq | ⟨b, hq, hb2⟩
      · rw [hq] at hbi
        obtain rfl : bi = t.nill := (Option.some.inj hbi).symm
        exact ⟨fun h => hpn h.symm, fun h => hjn h.symm, fun h => absurd rfl h⟩
      · rw [hq] at hbi
        obtain rfl : bi = b := (Option.some.inj hbi).symm
        refine ⟨?_, fun h => hjRB (h ▸ hb2), fun _ =>
          (isTree_mem_lt hT bi (hsubm bi (hRtoS bi (hmemRBs bi hb2)))).1⟩
        intro h
        exact hpRp (by rw [h] at hb2; exact hmemRBs _ hb2)
    have hs : ∀ s, (t.getN (some p)).parent = some s → s ≠ t.nill →
        s ≠ p ∧ s ≠ j ∧ s < t.arena.length ∧ (t.getN (some j)).left ≠ some s := by
      intro s hps hsn
      have hsp : s ≠ p := fun hq => hout p hpsub (hq ▸ hps)
      have hsj : s ≠ j := fun hq => hout j hjsub (hq ▸ hps)
      have hslt : s < t.arena.length := by
        rcases parentsOKb_parent_mem hP p hp with ⟨_, hq⟩ | ⟨s2, hs2, hq⟩
        · rw [hps] at hq
          exact absurd (Option.some.inj hq) hsn
        · rw [hps] at hq
          rw [Option.some.inj hq]
          exact (isTree_mem_lt hT s2 hs2).1
      refine ⟨hsp, hsj, hslt, ?_⟩
      rcases hjl_cases with hq | ⟨b, hq, hb2⟩
      · rw [hq]
        exact fun he => hsn (Option.some.inj he).symm
      · rw [hq]
        intro he
        exact hout s (hRtoS b (hmemRBs b hb2) |> fun hm =>
          (Option.some.inj he) ▸ hm) hps
    obtain ⟨e1, e2, _, _, _, e6, _⟩ :=
      leftRotate_effect hpr hjn hpn hjp hplt hjlt hb hs
    refine ⟨hjT, hjp, hjlp, e1, e2, ?_⟩
    intro s hps hsn
    have hsp : s ≠ p := fun hq => hout p hpsub (hq ▸ hps)
    have hsj : s ≠ j := fun hq => hout j hjsub (hq ▸ hps)
    have hjls : (t.getN (some j)).left ≠ some s := (hs s hps hsn).2.2.2
    have hjrs : (t.getN (some j)).right ≠ some s := by
      rcases hjr_cases with hq | ⟨b, hq, hb2⟩
      · rw [hq]
        exact fun he => hsn (Option.some.inj he).symm
      · rw [hq]
        intro he
        exact hout s (hRtoS b (hmemRCs b hb2) |> fun hm =>
          (Option.some.inj he) ▸ hm) hps
    exact ⟨hsp, hsj, hjls, hjrs, (e6 s hps hsn).1, (e6 s hps hsn).2⟩
/-- Cell-level effect of a genuine right rotation at a member `p` whose
left child is the member `j`, mirror of `rotL_cells`. -/
theorem rotR_cells {t : Rbtree α} {T : ATree} (hT : IsTree t t.root T)
    (hnd : T.inorder.Nodup) (hP : parentsOKb t (some t.nill) T = true)
    {p j : Nat} (hp : p ∈ T.inorder) (hpl : (t.getN (some p)).left = some j)
    (hjn : j ≠ t.nill) :
    j ∈ T.inorder ∧ j ≠ p ∧
    (t.getN (some j)).right ≠ some p ∧
    (rightRotate t (some p)).getN (some p) =
      { t.getN (some p) with left := (t.getN (some j)).right, parent := some j } ∧
    (rightRotate t (some p)).getN (some j) =
      { t.getN (some j) with right := some p, parent := (t.getN (some p)).parent } ∧
    ∀ s, (t.getN (some p)).parent = some s → s ≠ t.nill →
      s ≠ p ∧ s ≠ j ∧ (t.getN (some j)).left ≠ some s ∧ (t.getN (some j)).right ≠ some s ∧
      ((t.getN (some s)).left = some p →
        (rightRotate t (some p)).getN (some s) = { t.getN (some s) with left := some j }) ∧
      ((t.getN (some s)).left ≠ some p →
        (rightRotate t (some p)).getN (some s) = { t.getN (some s) with right := some j }) := by
  have hplt : p < t.arena.length := (isTree_mem_lt hT p hp).1
  have hpn : p ≠ t.nill := (isTree_mem_lt hT p hp).2
  obtain ⟨Lp, Rp, hsub, hsnd, hsubm⟩ := isTree_mem_subtree hT hnd p hp
  have hsub2 := hsub
  cases hsub2 with
  | node hpn2 hplt2 hLp hRp =>
  cases Lp with
  | nil =>
    have hq := isTree_nil_ptr hLp
    rw [hpl] at hq
    exact absurd (Option.some.inj hq) hjn
  | node LB j' LC =>
    have hj' : (t.getN (some p)).left = some j' := isTree_node_ptr hLp
    rw [hpl] at hj'
    obtain rfl : j = j' := Option.some.inj hj'
    have hjLp : j ∈ (ATree.node LB j LC).inorder := by simp [ATree.inorder]
    have hpsub : p ∈ (ATree.node (ATree.node LB j LC) p Rp).inorder := by
      simp [ATree.inorder]
    have hjsub : j ∈ (ATree.node (ATree.node LB j LC) p Rp).inorder := by
      simp only [ATree.inorder, List.mem_append, List.mem_cons]
      exact Or.inl (by simpa [ATree.inorder] using hjLp)
    have hjT : j ∈ T.inorder := hsubm j hjsub
    have hjlt : j < t.arena.length := (isTree_mem_lt hT j hjT).1
    simp only [ATree.inorder] at hsnd
    obtain ⟨hndLp, hndCR, hdisj⟩ := List.nodup_append.mp hsnd
    have hjp : j ≠ p := fun hq =>
      hdisj hjLp (hq ▸ List.mem_cons_self _ _)
    have hLp2 := hLp
    rw [hpl] at hLp2
    cases hLp2 with
    | node hjn2 hjlt2 hLB hLC =>
    obtain ⟨hndLB, hndjC, hdisj2⟩ := List.nodup_append.mp hndLp
    obtain ⟨hjLC, hndLC⟩ := List.nodup_cons.mp hndjC
    have hmemLBs : ∀ b ∈ LB.inorder, b ∈ (ATree.node LB j LC).inorder := by
      intro b hb
      simp only [ATree.inorder, List.mem_append, List.mem_cons]
      exact Or.inl hb
    have hmemLCs : ∀ b ∈ LC.inorder, b ∈ (ATree.node LB j LC).inorder := by
      intro b hb
      simp only [ATree.inorder, List.mem_append, List.mem_cons]
      exact Or.inr (Or.inr hb)
    have hLtoS : ∀ b ∈ (ATree.node LB j LC).inorder,
        b ∈ (ATree.node (ATree.node LB j LC) p Rp).inorder := by
      intro b hb
      simp only [ATree.inorder, List.mem_append, List.mem_cons] at hb ⊢
      exact Or.inl (by simpa [ATree.inorder] using hb)
    have hjl_cases : (t.getN (some j)).left = some t.nill ∨
        ∃ b, (t.getN (some j)).left = some b ∧ b ∈ LB.inorder := by
      cases LB with
      | nil => exact Or.inl (isTree_nil_ptr hLB)
      | node B1 b B2 =>
        exact Or.inr ⟨b, isTree_node_ptr hLB, by simp [ATree.inorder]⟩
    have hjr_cases : (t.getN (some j)).right = some t.nill ∨
        ∃ b, (t.getN (some j)).right = some b ∧ b ∈ LC.inorder := by
      cases LC with
      | nil => exact Or.inl (isTree_nil_ptr hLC)
      | node B1 b B2 =>
        exact Or.inr ⟨b, isTree_node_ptr hLC, by simp [ATree.inorder]⟩
    have hjrp : (t.getN (some j)).right ≠ some p := by
      rcases hjr_cases with hq | ⟨b, hq, hb⟩
      · rw [hq]
        exact fun he => hpn (Option.some.inj he).symm
      · rw [hq]
        intro he
        rw [Option.some.inj he] at hb
        exact hdisj (hmemLCs _ hb) (List.mem_cons_self _ _)
    have hno : ∀ k ∈ T.inorder, (some t.nill : Ptr) ≠ some k :=
      fun k hk hq => (isTree_mem_lt hT k hk).2 (Option.some.inj hq).symm
    have hout := parent_outside hT hnd (some t.nill) hP hno p hp hsub
    have hb : ∀ bi, (t.getN (some j)).right = some bi → bi ≠ p ∧ bi ≠ j ∧
        (bi ≠ t.nill → bi < t.arena.length) := by
      intro bi hbi
      rcases hjr_cases with hq | ⟨b, hq, hb2⟩
      · rw [hq] at hbi
        obtain rfl : bi = t.nill := (Option.some.inj hbi).symm
        exact ⟨fun h => hpn h.symm, fun h => hjn h.symm, fun h => absurd rfl h⟩
      · rw [hq] at hbi
        obtain rfl : bi = b := (Option.some.inj hbi).symm
        refine ⟨?_, fun h => hjLC (h ▸ hb2), fun _ =>
          (isTree_mem_lt hT bi (hsubm bi (hLtoS bi (hmemLCs bi hb2)))).1⟩
        intro h
        rw [h] at hb2
        exact hdisj (hmemLCs _ hb2) (List.mem_cons_self _ _)
    have hs : ∀ s, (t.getN (some p)).parent = some s → s ≠ t.nill →
        s ≠ p ∧ s ≠ j ∧ s < t.arena.length ∧ (t.getN (some j)).right ≠ some s := by
      intro s hps hsn
      have hsp : s ≠ p := fun hq => hout p hpsub (hq ▸ hps)
      have hsj : s ≠ j := fun hq => hout j hjsub (hq ▸ hps)
      have hslt : s < t.arena.length := by
        rcases parentsOKb_parent_mem hP p hp with ⟨_, hq⟩ | ⟨s2, hs2, hq⟩
        · rw [hps] at hq
          exact absurd (Option.some.inj hq) hsn
        · rw [hps] at hq
          rw [Option.some.inj hq]
          exact (isTree_mem_lt hT s2 hs2).1
      refine ⟨hsp, hsj, hslt, ?_⟩
      rcases hjr_cases with hq | ⟨b, hq, hb2⟩
      · rw [hq]
        exact fun he => hsn (Option.some.inj he).symm
      · rw [hq]
        intro he
        exact hout s (hLtoS b (hmemLCs b hb2) |> fun hm =>
          (Option.some.inj he) ▸ hm) hps
    obtain ⟨e1, e2, _, _, _, e6, _⟩ :=
      rightRotate_effect hpl hjn hpn hjp hplt hjlt hb hs
    refine ⟨hjT, hjp, hjrp, e1, e2, ?_⟩
    intro s hps hsn
    have hsp : s ≠ p := fun hq => hout p hpsub (hq ▸ hps)
    have hsj : s ≠ j := fun hq => hout j hjsub (hq ▸ hps)
    have hjrs : (t.getN (some j)).right ≠ some s := (hs s hps hsn).2.2.2
    have hjls : (t.getN (some j)).left ≠ some s := by
      rcases hjl_cases with hq | ⟨b, hq, hb2⟩
      · rw [hq]
        exact fun he => hsn (Option.some.inj he).symm
      · rw [hq]
        intro he
        exact hout s (hLtoS b (hmemLBs b hb2) |> fun hm =>
          (Option.some.inj he) ▸ hm) hps
    exact ⟨hsp, hsj, hjls, hjrs, (e6 s hps hsn).1, (e6 s hps hsn).2⟩
theorem setColor_core {t : Rbtree α} {T : ATree} (hc : Core t T) (p : Ptr) (c : Bool) :
    Core (t.setColor p c) T := by
  refine ⟨?_, ?_, hc.nodup, ?_, ?_, ?_⟩
  · have h0 : (t.setColor p c).root = t.root := setColor_root ..
    rw [h0]
    refine isTree_frame (setColor_nill ..) (le_of_eq (setColor_arena_length ..).symm) hc.tree ?_
    intro j _
    exact ⟨left_setColor .., right_setColor ..⟩
  · have h0 : (t.setColor p c).nill = t.nill := setColor_nill ..
    rw [h0]
    refine parentsOKb_frame ?_ hc.parents
    intro j _
    exact parent_setColor ..
  · rw [setColor_nill, left_setColor]
    exact hc.sleft
  · rw [setColor_nill, right_setColor]
    exact hc.sright
  · rw [setColor_nill, setColor_arena_length]
    exact hc.nill_lt

/-- `leftRotate` at a member preserves the well-formedness kernel, with
the represented tree rotated or unchanged (the member list is unchanged
either way). -/
theorem rot_preserve_L {t : Rbtree α} {T : ATree} (hc : Core t T) {m : Nat}
    (hm : m ∈ T.inorder) :
    ∃ T2, Core (leftRotate t (some m)) T2 ∧ T2.inorder = T.inorder := by
  have hnn : (leftRotate t (some m)).nill = t.nill := (sameAux_leftRotate t (some m)).1
  have hlenn : (leftRotate t (some m)).arena.length = t.arena.length :=
    (sameAux_leftRotate t (some m)).2.2.2.2.1
  by_cases hg : (t.getN (some m)).right = some t.nill
  · refine ⟨T, ?_, rfl⟩
    unfold leftRotate
    rw [if_pos hg]
    exact hc
  · obtain ⟨htree, hpok⟩ := rotL_claim hc.tree hc.nodup hc.parents hm hg
    obtain ⟨Lx, Rx, hsub, hsnd, _⟩ := isTree_mem_subtree hc.tree hc.nodup m hm
    have hsub2 := hsub
    cases hsub2 with
    | node hxn2 hxlt2 hLx hRx =>
    cases Rx with
    | nil => exact absurd (isTree_nil_ptr hRx) hg
    | node RB yi RC =>
      have hyr : (t.getN (some m)).right = some yi := isTree_node_ptr hRx
      have hyn : yi ≠ t.nill := (isTree_mem_lt hRx yi (by simp [ATree.inorder])).2
      have hxn : m ≠ t.nill := (isTree_mem_lt hc.tree m hm).2
      have hscell := leftRotate_nill_cell hyr hyn hxn
      refine ⟨rotLAt m T, ⟨?_, ?_, ?_, ?_, ?_, ?_⟩, rotLAt_inorder m T⟩
      · exact htree
      · rw [hnn]
        exact hpok
      · rw [rotLAt_inorder]
        exact hc.nodup
      · rw [hnn, hscell]
        exact hc.sleft
      · rw [hnn, hscell]
        exact hc.sright
      · rw [hnn, hlenn]
        exact hc.nill_lt

theorem rot_preserve_R {t : Rbtree α} {T : ATree} (hc : Core t T) {m : Nat}
    (hm : m ∈ T.inorder) :
    ∃ T2, Core (rightRotate t (some m)) T2 ∧ T2.inorder = T.inorder := by
  have hnn : (rightRotate t (some m)).nill = t.nill := (sameAux_rightRotate t (some m)).1
  have hlenn : (rightRotate t (some m)).arena.length = t.arena.length :=
    (sameAux_rightRotate t (some m)).2.2.2.2.1
  by_cases hg : (t.getN (some m)).left = some t.nill
  · refine ⟨T, ?_, rfl⟩
    unfold rightRotate
    rw [if_pos hg]
    exact hc
  · obtain ⟨htree, hpok⟩ := rotR_claim hc.tree hc.nodup hc.parents hm hg
    obtain ⟨Lx, Rx, hsub, hsnd, _⟩ := isTree_mem_subtree hc.tree hc.nodup m hm
    have hsub2 := hsub
    cases hsub2 with
    | node hxn2 hxlt2 hLx hRx =>
    cases Lx with
    | nil => exact absurd (isTree_nil_ptr hLx) hg
    | node LB yi LC =>
      have hyr : (t.getN (some m)).left = some yi := isTree_node_ptr hLx
      have hyn : yi ≠ t.nill := (isTree_mem_lt hLx yi (by simp [ATree.inorder])).2
      have hxn : m ≠ t.nill := (isTree_mem_lt hc.tree m hm).2
      have hscell := rightRotate_nill_cell hyr hyn hxn
      refine ⟨rotRAt m T, ⟨?_, ?_, ?_, ?_, ?_, ?_⟩, rotRAt_inorder m T⟩
      · exact htree
      · rw [hnn]
        exact hpok
      · rw [rotRAt_inorder]
        exact hc.nodup
      · rw [hnn, hscell]
        exact hc.sleft
      · rw [hnn, hscell]
        exact hc.sright
      · rw [hnn, hlenn]
        exact hc.nill_lt
set_option maxHeartbeats 1600000 in
/-- The `insertFixup` loop keeps the well-formedness kernel and the
member sequence (it recolors and rotates only): the CLRS invariant that
the cursor is live and the root can be red only at the cursor keeps the
loop away from the sentinel's `parent` field. -/
theorem insertFixupLoop_core {fuel : Nat} :
    ∀ {t : Rbtree α} {z : Ptr} {t' : Rbtree α} {T : ATree},
    insertFixupLoop fuel t z = some t' → Core t T → Zinv t T z →
    ∃ T', Core t' T' ∧ T'.inorder = T.inorder := by
  induction fuel with
  | zero => intro t z t' T h _ _; simp [insertFixupLoop] at h
  | succ fuel ih =>
    intro t z t' T h hc hz
    obtain ⟨⟨j, hzj, hjmem⟩, hsb, hri⟩ := hz
    subst hzj
    rw [insertFixupLoop] at h
    split at h
    · rename_i hcond
      obtain ⟨L0, i0, R0, rfl⟩ : ∃ L0 i0 R0, T = ATree.node L0 i0 R0 := by
        cases T with
        | nil => simp [ATree.inorder] at hjmem
        | node L i R => exact ⟨L, i, R, rfl⟩
      have hi0mem : i0 ∈ (ATree.node L0 i0 R0).inorder := by simp [ATree.inorder]
      have hi0lt : i0 < t.arena.length := (isTree_mem_lt hc.tree i0 hi0mem).1
      have hi0p : (t.getN (some i0)).parent = some t.nill := parentsOKb_top hc.parents
      have hsbf : (t.getN (some t.nill)).color = RED → False := by
        intro hq
        rw [hsb] at hq
        exact absurd hq (by decide)
      have hjne : j ≠ i0 := by
        intro hji
        rw [hji, hi0p] at hcond
        exact hsbf hcond
      have hib : (t.getN (some i0)).color = BLACK := by
        rcases hri L0 i0 R0 rfl with hb | hq
        · exact hb
        · exact absurd (Option.some.inj hq) hjne
      obtain ⟨pi, hpmem, hp⟩ :
          ∃ pi, pi ∈ (ATree.node L0 i0 R0).inorder ∧
            (t.getN (some j)).parent = some pi := by
        rcases parentsOKb_parent_mem hc.parents j hjmem with
          ⟨⟨L1, R1, hTeq⟩, hq⟩ | ⟨s, hs, hq⟩
        · injection hTeq with h1 h2 h3
          exact absurd h2.symm hjne
        · exact ⟨s, hs, hq⟩
      have hpred : (t.getN (some pi)).color = RED := by rw [hp] at hcond; exact hcond
      have hpn : pi ≠ t.nill := by
        intro hq
        rw [hq] at hpred
        exact hsbf hpred
      have hplt : pi < t.arena.length := (isTree_mem_lt hc.tree pi hpmem).1
      have hpi0 : pi ≠ i0 := by
        intro hq
        rw [hq, hib] at hpred
        exact absurd hpred (by decide)
      obtain ⟨si, hsmem, hpp⟩ :
          ∃ si, si ∈ (ATree.node L0 i0 R0).inorder ∧
            (t.getN (some pi)).parent = some si := by
        rcases parentsOKb_parent_mem hc.parents pi hpmem with
          ⟨⟨L1, R1, hTeq⟩, hq⟩ | ⟨s, hs, hq⟩
        · injection hTeq with h1 h2 h3
          exact absurd h2.symm hpi0
        · exact ⟨s, hs, hq⟩
      have hsn : si ≠ t.nill := (isTree_mem_lt hc.tree si hsmem).2
      have hslt : si < t.arena.length := (isTree_mem_lt hc.tree si hsmem).1
      have hjn : j ≠ t.nill := (isTree_mem_lt hc.tree j hjmem).2
      have hjlt : j < t.arena.length := (isTree_mem_lt hc.tree j hjmem).1
      have hsi_top : si = i0 → (t.getN (some si)).parent = some t.nill := by
        intro hq
        rw [hq]
        exact hi0p
      have htroot : t.root = some i0 := isTree_node_ptr hc.tree
      split at h
      · rename_i harm
        rw [hp, hpp] at harm
        have hgl : (t.getN (some si)).left = some pi := harm.symm
        lift_lets at h
        extract_lets y a1 a2 a3 z1 zp pr b1 zb b2 b3 b4 at h
        split at h
        · rename_i hy
          have hyn_nill : y ≠ some t.nill := by
            intro hq
            rw [hq] at hy
            exact hsbf hy
          have hpar_a2 : ∀ q : Ptr, (a2.getN q).parent = (t.getN q).parent := by
            intro q
            unfold_let a2 a1
            rw [parent_setColor, parent_setColor]
          have ha1 : a1 = t.setColor (some pi) BLACK := by
            unfold_let a1
            rw [hp]
          have ha3 : a3 = a2.setColor (some si) RED := by
            unfold_let a3
            rw [hpar_a2, hpar_a2, hp, hpp]
          have hpar_a3 : ∀ q : Ptr, (a3.getN q).parent = (t.getN q).parent := by
            intro q
            rw [ha3, parent_setColor, hpar_a2]
          have hz1 : z1 = some si := by
            unfold_let z1
            rw [hpar_a3, hpar_a3, hp, hpp]
          have hc3 : Core a3 (ATree.node L0 i0 R0) := by
            unfold_let a3 a2 a1
            exact setColor_core (setColor_core (setColor_core hc _ _) _ _) _ _
          have hn3 : a3.nill = t.nill := by
            rw [ha3, setColor_nill]
            unfold_let a2
            rw [setColor_nill, ha1, setColor_nill]
          have hsb3 : (a3.getN (some a3.nill)).color = BLACK := by
            rw [hn3, ha3,
              getN_setColor_ne (fun hq => hsn (Option.some.inj hq).symm) _]
            unfold_let a2
            rw [getN_setColor_ne (fun hq => hyn_nill hq.symm) _, ha1,
              getN_setColor_ne (fun hq => hpn (Option.some.inj hq).symm) _]
            exact hsb
          have hri3 : ∀ L i R, (ATree.node L0 i0 R0 : ATree) = ATree.node L i R →
              ((a3.getN (some i)).color = BLACK ∨ z1 = some i) := by
            intro L i R hTeq
            injection hTeq with h1 h2 h3
            by_cases hsi : si = i0
            · right
              rw [hz1, hsi, h2]
            · left
              rw [← h2, ha3,
                getN_setColor_ne (fun hq => hsi (Option.some.inj hq).symm) _]
              unfold_let a2
              by_cases hyi : y = some i0
              · rw [hyi, getN_setColor_same ⟨i0, rfl, by
                  rw [ha1, setColor_arena_length]; exact hi0lt⟩ _]
              · rw [getN_setColor_ne (fun hq => hyi hq.symm) _, ha1,
                  getN_setColor_ne (fun hq => hpi0 (Option.some.inj hq).symm) _]
                exact hib
          exact ih h hc3 ⟨⟨si, hz1, hsmem⟩, hsb3, hri3⟩
        · rename_i hyc
          have hzp : zp = some pi := by unfold_let zp; rw [hp]
          by_cases hzr : (some j : Ptr) = (t.getN ((t.getN (some j)).parent)).right
          · -- case 2 then 3: first rotate at the parent
            have hzr' : (t.getN (some pi)).right = some j := by
              rw [hp] at hzr
              exact hzr.symm
            have hprA : pr = (leftRotate t zp, zp) := by
              unfold_let pr
              rw [if_pos hzr]
            have hb1 : b1 = leftRotate t (some pi) := by
              unfold_let b1
              rw [hprA, hzp]
            have hzb : zb = some pi := by
              unfold_let zb
              rw [hprA, hzp]
            obtain ⟨hjT', hjp, hjlp, cellp, cellj, hSbundle⟩ :=
              rotL_cells hc.tree hc.nodup hc.parents hpmem hzr' hjn
            obtain ⟨hsp_ne, hsj_ne, hjls, hjrs, hcsl, hcsr⟩ := hSbundle si hpp hsn
            have hcellS : (leftRotate t (some pi)).getN (some si) =
                { t.getN (some si) with left := some j } := hcsl hgl
            obtain ⟨T1, hc1x, hi1⟩ := rot_preserve_L hc hpmem
            have hc1 : Core b1 T1 := by rw [hb1]; exact hc1x
            have hn1 : b1.nill = t.nill := by
              rw [hb1]
              exact (sameAux_leftRotate ..).1
            have hlen1 : b1.arena.length = t.arena.length := by
              rw [hb1]
              exact (sameAux_leftRotate ..).2.2.2.2.1
            have hP1 : (b1.getN zb).parent = some j := by
              rw [hzb, hb1, cellp]
            have hP2 : (b1.getN (some j)).parent = some si := by
              rw [hb1, cellj]
              exact hpp
            have hpar_b2 : ∀ q : Ptr, (b2.getN q).parent = (b1.getN q).parent := by
              intro q
              unfold_let b2
              rw [parent_setColor]
            have hb2v : b2 = b1.setColor (some j) BLACK := by
              unfold_let b2
              rw [hP1]
            have hpar_b3 : ∀ q : Ptr, (b3.getN q).parent = (b1.getN q).parent := by
              intro q
              unfold_let b3
              rw [parent_setColor, hpar_b2]
            have hb3v : b3 = b2.setColor (some si) RED := by
              unfold_let b3
              rw [hpar_b2, hpar_b2, hP1, hP2]
            have hb4v : b4 = rightRotate b3 (some si) := by
              unfold_let b4
              rw [hpar_b3, hpar_b3, hP1, hP2]
            have hn3 : b3.nill = t.nill := by
              rw [hb3v, setColor_nill, hb2v, setColor_nill, hn1]
            have hc3 : Core b3 T1 := by
              rw [hb3v, hb2v]
              exact setColor_core (setColor_core hc1 _ _) _ _
            have hsiT1 : si ∈ T1.inorder := by
              rw [hi1]
              exact hsmem
            obtain ⟨T2, hc4x, hi2⟩ := rot_preserve_R hc3 hsiT1
            have hc4 : Core b4 T2 := by rw [hb4v]; exact hc4x
            have hcol_b3 : ∀ q : Ptr, q ≠ some j → q ≠ some si →
                (b3.getN q).color = (t.getN q).color := by
              intro q hqj hqs
              rw [hb3v, getN_setColor_ne hqs _, hb2v, getN_setColor_ne hqj _, hb1,
                color_leftRotate]
            have hcol_j : (b3.getN (some j)).color = BLACK := by
              rw [hb3v, getN_setColor_ne (fun hq => hsj_ne (Option.some.inj hq).symm) _,
                hb2v, getN_setColor_same ⟨j, rfl, by rw [hlen1]; exact hjlt⟩ _]
            have hcolb4 : ∀ q : Ptr, (b4.getN q).color = (b3.getN q).color := by
              intro q
              rw [hb4v, color_rightRotate]
            have hn4 : b4.nill = t.nill := by
              rw [hb4v, (sameAux_rightRotate b3 (some si)).1, hn3]
            have hsb4 : (b4.getN (some b4.nill)).color = BLACK := by
              rw [hn4, hcolb4, hcol_b3 _ (fun hq => hjn (Option.some.inj hq).symm)
                (fun hq => hsn (Option.some.inj hq).symm)]
              exact hsb
            have hsil : (b3.getN (some si)).left = some j := by
              rw [hb3v, left_setColor, hb2v, left_setColor, hb1, hcellS]
            have hsip_b3 : (b3.getN (some si)).parent = (t.getN (some si)).parent := by
              rw [hpar_b3, hb1, hcellS]
            have hjr_b3 : (b3.getN (some j)).right ≠ some si := by
              rw [hb3v, right_setColor, hb2v, right_setColor, hb1, cellj]
              exact hjrs
            have hriB : ∀ L i R, T2 = ATree.node L i R →
                ((b4.getN (some i)).color = BLACK ∨ zb = some i) := by
              intro L i R hTeq
              left
              have hroot4 : b4.root = some i := by
                have hq := isTree_root_eq hc4.tree
                rw [hTeq] at hq
                exact hq
              by_cases hsip : (t.getN (some si)).parent = some t.nill
              · have hr : b4.root = some j := by
                  rw [hb4v]
                  exact (rightRotate_root_of hsil (by rw [hn3]; exact hjn)
                    (fun hq => hsj_ne (Option.some.inj hq)) hjr_b3).1
                    (by rw [hsip_b3, hn3]; exact hsip)
                rw [hroot4] at hr
                rw [Option.some.inj hr, hcolb4]
                exact hcol_j
              · have hr : b4.root = t.root := by
                  rw [hb4v]
                  have hq := (rightRotate_root_of hsil (by rw [hn3]; exact hjn)
                    (fun hq => hsj_ne (Option.some.inj hq)) hjr_b3).2
                    (by rw [hsip_b3, hn3]; exact fun hx => hsip hx)
                  rw [hq, hb3v, setColor_root, hb2v, setColor_root, hb1]
                  exact (leftRotate_root_of hzr' hjn
                    (fun hq => hjp (Option.some.inj hq).symm) hjlp).2
                    (by rw [hpp]; exact fun hq => hsn (Option.some.inj hq))
                rw [htroot] at hr
                rw [hroot4] at hr
                have hsi0 : si ≠ i0 := fun hq => hsip (hsi_top hq)
                rw [Option.some.inj hr, hcolb4,
                  hcol_b3 _ (fun hq => hjne (Option.some.inj hq).symm)
                  (fun hq => hsi0 (Option.some.inj hq).symm)]
                exact hib
            obtain ⟨T', hcF, hiF⟩ := ih h hc4
              ⟨⟨pi, hzb, by rw [hi2, hi1]; exact hpmem⟩, hsb4, hriB⟩
            exact ⟨T', hcF, by rw [hiF, hi2, hi1]⟩
          · -- case 3 alone
            have hprB : pr = (t, some j) := by
              unfold_let pr
              rw [if_neg hzr]
            have hb1 : b1 = t := by unfold_let b1; rw [hprB]
            have hzb : zb = some j := by unfold_let zb; rw [hprB]
            have hP1 : (b1.getN zb).parent = some pi := by
              rw [hzb, hb1]
              exact hp
            have hpar_b2 : ∀ q : Ptr, (b2.getN q).parent = (t.getN q).parent := by
              intro q
              unfold_let b2
              rw [parent_setColor, hb1]
            have hb2v : b2 = b1.setColor (some pi) BLACK := by
              unfold_let b2
              rw [hP1]
            have hpar_b3 : ∀ q : Ptr, (b3.getN q).parent = (t.getN q).parent := by
              intro q
              unfold_let b3
              rw [parent_setColor, hpar_b2]
            have hb3v : b3 = b2.setColor (some si) RED := by
              unfold_let b3
              rw [hzb, hpar_b2, hpar_b2, hp, hpp]
            have hb4v : b4 = rightRotate b3 (some si) := by
              unfold_let b4
              rw [hzb, hpar_b3, hpar_b3, hp, hpp]
            have hn3 : b3.nill = t.nill := by
              rw [hb3v, setColor_nill, hb2v, setColor_nill, hb1]
            have hc3 : Core b3 (ATree.node L0 i0 R0) := by
              rw [hb3v, hb2v, hb1]
              exact setColor_core (setColor_core hc _ _) _ _
            obtain ⟨T2, hc4x, hi2⟩ := rot_preserve_R hc3 hsmem
            have hc4 : Core b4 T2 := by rw [hb4v]; exact hc4x
            obtain ⟨Lp, Rp, hsubP, hsndP, hsubmP⟩ :=
              isTree_mem_subtree hc.tree hc.nodup pi hpmem
            have hnoP : ∀ k ∈ (ATree.node L0 i0 R0).inorder,
                (some t.nill : Ptr) ≠ some k :=
              fun k hk hq => (isTree_mem_lt hc.tree k hk).2 (Option.some.inj hq).symm
            have houtP := parent_outside hc.tree hc.nodup (some t.nill) hc.parents
              hnoP pi hpmem hsubP
            have hpisub : pi ∈ (ATree.node Lp pi Rp).inorder := by simp [ATree.inorder]
            have hsi_pi : si ≠ pi := fun hq => houtP pi hpisub (hq ▸ hpp)
            have hpir_si : (t.getN (some pi)).right ≠ some si := by
              have hsubP2 := hsubP
              cases hsubP2 with
              | node h1 h2 hLsub hRsub =>
              cases Rp with
              | nil =>
                rw [isTree_nil_ptr hRsub]
                exact fun hq => hsn (Option.some.inj hq).symm
              | node B1 b B2 =>
                rw [isTree_node_ptr hRsub]
                intro hq
                have hbmem : b ∈ (ATree.node Lp pi (ATree.node B1 b B2)).inorder := by
                  simp only [ATree.inorder, List.mem_append, List.mem_cons]
                  exact Or.inr (Or.inr (by simp [ATree.inorder]))
                exact houtP b hbmem (by rw [hpp, Option.some.inj hq])
            have hcol_b3 : ∀ q : Ptr, q ≠ some pi → q ≠ some si →
                (b3.getN q).color = (t.getN q).color := by
              intro q hqp hqs
              rw [hb3v, getN_setColor_ne hqs _, hb2v, getN_setColor_ne hqp _, hb1]
            have hcol_pi : (b3.getN (some pi)).color = BLACK := by
              rw [hb3v, getN_setColor_ne (fun hq => hsi_pi (Option.some.inj hq).symm) _,
                hb2v, getN_setColor_same ⟨pi, rfl, by rw [hb1]; exact hplt⟩ _]
            have hsil : (b3.getN (some si)).left = some pi := by
              rw [hb3v, left_setColor, hb2v, left_setColor, hb1]
              exact hgl
            have hsip_b3 : (b3.getN (some si)).parent = (t.getN (some si)).parent :=
              hpar_b3 _
            have hpir_b3 : (b3.getN (some pi)).right ≠ some si := by
              rw [hb3v, right_setColor, hb2v, right_setColor, hb1]
              exact hpir_si
            have hcolb4 : ∀ q : Ptr, (b4.getN q).color = (b3.getN q).color := by
              intro q
              rw [hb4v, color_rightRotate]
            have hn4 : b4.nill = t.nill := by
              rw [hb4v, (sameAux_rightRotate b3 (some si)).1, hn3]
            have hsb4 : (b4.getN (some b4.nill)).color = BLACK := by
              rw [hn4, hcolb4, hcol_b3 _ (fun hq => hpn (Option.some.inj hq).symm)
                (fun hq => hsn (Option.some.inj hq).symm)]
              exact hsb
            have hriB : ∀ L i R, T2 = ATree.node L i R →
                ((b4.getN (some i)).color = BLACK ∨ zb = some i) := by
              intro L i R hTeq
              left
              have hroot4 : b4.root = some i := by
                have hq := isTree_root_eq hc4.tree
                rw [hTeq] at hq
                exact hq
              by_cases hsip : (t.getN (some si)).parent = some t.nill
              · have hr : b4.root = some pi := by
                  rw [hb4v]
                  exact (rightRotate_root_of hsil (by rw [hn3]; exact hpn)
                    (fun hq => hsi_pi (Option.some.inj hq)) hpir_b3).1
                    (by rw [hsip_b3, hn3]; exact hsip)
                rw [hroot4] at hr
                rw [Option.some.inj hr, hcolb4]
                exact hcol_pi
              · have hr : b4.root = t.root := by
                  rw [hb4v]
                  have hq := (rightRotate_root_of hsil (by rw [hn3]; exact hpn)
                    (fun hq => hsi_pi (Option.some.inj hq)) hpir_b3).2
                    (by rw [hsip_b3, hn3]; exact fun hx => hsip hx)
                  rw [hq, hb3v, setColor_root, hb2v, setColor_root, hb1]
                rw [htroot, hroot4] at hr
                have hsi0 : si ≠ i0 := fun hq => hsip (hsi_top hq)
                rw [Option.some.inj hr, hcolb4,
                  hcol_b3 _ (fun hq => hpi0 (Option.some.inj hq).symm)
                  (fun hq => hsi0 (Option.some.inj hq).symm)]
                exact hib
            obtain ⟨Tf, hcF, hiF⟩ := ih h hc4
              ⟨⟨j, hzb, by rw [hi2]; exact hjmem⟩, hsb4, hriB⟩
            exact ⟨Tf, hcF, by rw [hiF, hi2]⟩
      · rename_i harm
        rw [hp, hpp] at harm
        have hgr : (t.getN (some si)).right = some pi := by
          rcases parentsOKb_child hc.tree hc.parents pi hpmem with
            ⟨⟨L1, R1, hTeq⟩, hq⟩ | ⟨s, hs, hq, hchild⟩
          · injection hTeq with h1 h2 h3
            exact absurd h2.symm hpi0
          · rw [hpp] at hq
            obtain rfl : s = si := (Option.some.inj hq).symm
            rcases hchild with hl | hr
            · exact absurd hl.symm harm
            · exact hr
        lift_lets at h
        extract_lets y a1 a2 a3 z1 zp pr b1 zb b2 b3 b4 at h
        split at h
        · rename_i hy
          have hyn_nill : y ≠ some t.nill := by
            intro hq
            rw [hq] at hy
            exact hsbf hy
          have hpar_a2 : ∀ q : Ptr, (a2.getN q).parent = (t.getN q).parent := by
            intro q
            unfold_let a2 a1
            rw [parent_setColor, parent_setColor]
          have ha1 : a1 = t.setColor (some pi) BLACK := by
            unfold_let a1
            rw [hp]
          have ha3 : a3 = a2.setColor (some si) RED := by
            unfold_let a3
            rw [hpar_a2, hpar_a2, hp, hpp]
          have hpar_a3 : ∀ q : Ptr, (a3.getN q).parent = (t.getN q).parent := by
            intro q
            rw [ha3, parent_setColor, hpar_a2]
          have hz1 : z1 = some si := by
            unfold_let z1
            rw [hpar_a3, hpar_a3, hp, hpp]
          have hc3 : Core a3 (ATree.node L0 i0 R0) := by
            unfold_let a3 a2 a1
            exact setColor_core (setColor_core (setColor_core hc _ _) _ _) _ _
          have hn3 : a3.nill = t.nill := by
            rw [ha3, setColor_nill]
            unfold_let a2
            rw [setColor_nill, ha1, setColor_nill]
          have hsb3 : (a3.getN (some a3.nill)).color = BLACK := by
            rw [hn3, ha3,
              getN_setColor_ne (fun hq => hsn (Option.some.inj hq).symm) _]
            unfold_let a2
            rw [getN_setColor_ne (fun hq => hyn_nill hq.symm) _, ha1,
              getN_setColor_ne (fun hq => hpn (Option.some.inj hq).symm) _]
            exact hsb
          have hri3 : ∀ L i R, (ATree.node L0 i0 R0 : ATree) = ATree.node L i R →
              ((a3.getN (some i)).color = BLACK ∨ z1 = some i) := by
            intro L i R hTeq
            injection hTeq with h1 h2 h3
            by_cases hsi : si = i0
            · right
              rw [hz1, hsi, h2]
            · left
              rw [← h2, ha3,
                getN_setColor_ne (fun hq => hsi (Option.some.inj hq).symm) _]
              unfold_let a2
              by_cases hyi : y = some i0
              · rw [hyi, getN_setColor_same ⟨i0, rfl, by
                  rw [ha1, setColor_arena_length]; exact hi0lt⟩ _]
              · rw [getN_setColor_ne (fun hq => hyi hq.symm) _, ha1,
                  getN_setColor_ne (fun hq => hpi0 (Option.some.inj hq).symm) _]
                exact hib
          exact ih h hc3 ⟨⟨si, hz1, hsmem⟩, hsb3, hri3⟩
        · rename_i hyc
          have hzp : zp = some pi := by unfold_let zp; rw [hp]
          by_cases hzr : (some j : Ptr) = (t.getN ((t.getN (some j)).parent)).left
          · -- mirror case 2 then 3: first rotate at the parent
            have hzl' : (t.getN (some pi)).left = some j := by
              rw [hp] at hzr
              exact hzr.symm
            have hprA : pr = (rightRotate t zp, zp) := by
              unfold_let pr
              rw [if_pos hzr]
            have hb1 : b1 = rightRotate t (some pi) := by
              unfold_let b1
              rw [hprA, hzp]
            have hzb : zb = some pi := by
              unfold_let zb
              rw [hprA, hzp]
            obtain ⟨hjT', hjp, hjrp, cellp, cellj, hSbundle⟩ :=
              rotR_cells hc.tree hc.nodup hc.parents hpmem hzl' hjn
            obtain ⟨hsp_ne, hsj_ne, hjls, hjrs, hcsl, hcsr⟩ := hSbundle si hpp hsn
            have hcellS : (rightRotate t (some pi)).getN (some si) =
                { t.getN (some si) with right := some j } :=
              hcsr (fun hq => harm hq.symm)
            obtain ⟨T1, hc1x, hi1⟩ := rot_preserve_R hc hpmem
            have hc1 : Core b1 T1 := by rw [hb1]; exact hc1x
            have hn1 : b1.nill = t.nill := by
              rw [hb1]
              exact (sameAux_rightRotate ..).1
            have hlen1 : b1.arena.length = t.arena.length := by
              rw [hb1]
              exact (sameAux_rightRotate ..).2.2.2.2.1
            have hP1 : (b1.getN zb).parent = some j := by
              rw [hzb, hb1, cellp]
            have hP2 : (b1.getN (some j)).parent = some si := by
              rw [hb1, cellj]
              exact hpp
            have hpar_b2 : ∀ q : Ptr, (b2.getN q).parent = (b1.getN q).parent := by
              intro q
              unfold_let b2
              rw [parent_setColor]
            have hb2v : b2 = b1.setColor (some j) BLACK := by
              unfold_let b2
              rw [hP1]
            have hpar_b3 : ∀ q : Ptr, (b3.getN q).parent = (b1.getN q).parent := by
              intro q
              unfold_let b3
              rw [parent_setColor, hpar_b2]
            have hb3v : b3 = b2.setColor (some si) RED := by
              unfold_let b3
              rw [hpar_b2, hpar_b2, hP1, hP2]
            have hb4v : b4 = leftRotate b3 (some si) := by
              unfold_let b4
              rw [hpar_b3, hpar_b3, hP1, hP2]
            have hn3 : b3.nill = t.nill := by
              rw [hb3v, setColor_nill, hb2v, setColor_nill, hn1]
            have hc3 : Core b3 T1 := by
              rw [hb3v, hb2v]
              exact setColor_core (setColor_core hc1 _ _) _ _
            have hsiT1 : si ∈ T1.inorder := by
              rw [hi1]
              exact hsmem
            obtain ⟨T2, hc4x, hi2⟩ := rot_preserve_L hc3 hsiT1
            have hc4 : Core b4 T2 := by rw [hb4v]; exact hc4x
            have hcol_b3 : ∀ q : Ptr, q ≠ some j → q ≠ some si →
                (b3.getN q).color = (t.getN q).color := by
              intro q hqj hqs
              rw [hb3v, getN_setColor_ne hqs _, hb2v, getN_setColor_ne hqj _, hb1,
                color_rightRotate]
            have hcol_j : (b3.getN (some j)).color = BLACK := by
              rw [hb3v, getN_setColor_ne (fun hq => hsj_ne (Option.some.inj hq).symm) _,
                hb2v, getN_setColor_same ⟨j, rfl, by rw [hlen1]; exact hjlt⟩ _]
            have hcolb4 : ∀ q : Ptr, (b4.getN q).color = (b3.getN q).color := by
              intro q
              rw [hb4v, color_leftRotate]
            have hn4 : b4.nill = t.nill := by
              rw [hb4v, (sameAux_leftRotate b3 (some si)).1, hn3]
            have hsb4 : (b4.getN (some b4.nill)).color = BLACK := by
              rw [hn4, hcolb4, hcol_b3 _ (fun hq => hjn (Option.some.inj hq).symm)
                (fun hq => hsn (Option.some.inj hq).symm)]
              exact hsb
            have hsir : (b3.getN (some si)).right = some j := by
              rw [hb3v, right_setColor, hb2v, right_setColor, hb1, hcellS]
            have hsip_b3 : (b3.getN (some si)).parent = (t.getN (some si)).parent := by
              rw [hpar_b3, hb1, hcellS]
            have hjl_b3 : (b3.getN (some j)).left ≠ some si := by
              rw [hb3v, left_setColor, hb2v, left_setColor, hb1, cellj]
              exact hjls
            have hriB : ∀ L i R, T2 = ATree.node L i R →
                ((b4.getN (some i)).color = BLACK ∨ zb = some i) := by
              intro L i R hTeq
              left
              have hroot4 : b4.root = some i := by
                have hq := isTree_root_eq hc4.tree
                rw [hTeq] at hq
                exact hq
              by_cases hsip : (t.getN (some si)).parent = some t.nill
              · have hr : b4.root = some j := by
                  rw [hb4v]
                  exact (leftRotate_root_of hsir (by rw [hn3]; exact hjn)
                    (fun hq => hsj_ne (Option.some.inj hq)) hjl_b3).1
                    (by rw [hsip_b3, hn3]; exact hsip)
                rw [hroot4] at hr
                rw [Option.some.inj hr, hcolb4]
                exact hcol_j
              · have hr : b4.root = t.root := by
                  rw [hb4v]
                  have hq := (leftRotate_root_of hsir (by rw [hn3]; exact hjn)
                    (fun hq => hsj_ne (Option.some.inj hq)) hjl_b3).2
                    (by rw [hsip_b3, hn3]; exact fun hx => hsip hx)
                  rw [hq, hb3v, setColor_root, hb2v, setColor_root, hb1]
                  exact (rightRotate_root_of hzl' hjn
                    (fun hq => hjp (Option.some.inj hq).symm) hjrp).2
                    (by rw [hpp]; exact fun hq => hsn (Option.some.inj hq))
                rw [htroot] at hr
                rw [hroot4] at hr
                have hsi0 : si ≠ i0 := fun hq => hsip (hsi_top hq)
                rw [Option.some.inj hr, hcolb4,
                  hcol_b3 _ (fun hq => hjne (Option.some.inj hq).symm)
                  (fun hq => hsi0 (Option.some.inj hq).symm)]
                exact hib
            obtain ⟨Tf, hcF, hiF⟩ := ih h hc4
              ⟨⟨pi, hzb, by rw [hi2, hi1]; exact hpmem⟩, hsb4, hriB⟩
            exact ⟨Tf, hcF, by rw [hiF, hi2, hi1]⟩
          · -- mirror case 3 alone
            have hprB : pr = (t, some j) := by
              unfold_let pr
              rw [if_neg hzr]
            have hb1 : b1 = t := by unfold_let b1; rw [hprB]
            have hzb : zb = some j := by unfold_let zb; rw [hprB]
            have hP1 : (b1.getN zb).parent = some pi := by
              rw [hzb, hb1]
              exact hp
            have hpar_b2 : ∀ q : Ptr, (b2.getN q).parent = (t.getN q).parent := by
              intro q
              unfold_let b2
              rw [parent_setColor, hb1]
            have hb2v : b2 = b1.setColor (some pi) BLACK := by
              unfold_let b2
              rw [hP1]
            have hpar_b3 : ∀ q : Ptr, (b3.getN q).parent = (t.getN q).parent := by
              intro q
              unfold_let b3
              rw [parent_setColor, hpar_b2]
            have hb3v : b3 = b2.setColor (some si) RED := by
              unfold_let b3
              rw [hzb, hpar_b2, hpar_b2, hp, hpp]
            have hb4v : b4 = leftRotate b3 (some si) := by
              unfold_let b4
              rw [hzb, hpar_b3, hpar_b3, hp, hpp]
            have hn3 : b3.nill = t.nill := by
              rw [hb3v, setColor_nill, hb2v, setColor_nill, hb1]
            have hc3 : Core b3 (ATree.node L0 i0 R0) := by
              rw [hb3v, hb2v, hb1]
              exact setColor_core (setColor_core hc _ _) _ _
            obtain ⟨T2, hc4x, hi2⟩ := rot_preserve_L hc3 hsmem
            have hc4 : Core b4 T2 := by rw [hb4v]; exact hc4x
            obtain ⟨Lp, Rp, hsubP, hsndP, hsubmP⟩ :=
              isTree_mem_subtree hc.tree hc.nodup pi hpmem
            have hnoP : ∀ k ∈ (ATree.node L0 i0 R0).inorder,
                (some t.nill : Ptr) ≠ some k :=
              fun k hk hq => (isTree_mem_lt hc.tree k hk).2 (Option.some.inj hq).symm
            have houtP := parent_outside hc.tree hc.nodup (some t.nill) hc.parents
              hnoP pi hpmem hsubP
            have hpisub : pi ∈ (ATree.node Lp pi Rp).inorder := by simp [ATree.inorder]
            have hsi_pi : si ≠ pi := fun hq => houtP pi hpisub (hq ▸ hpp)
            have hpil_si : (t.getN (some pi)).left ≠ some si := by
              have hsubP2 := hsubP
              cases hsubP2 with
              | node h1 h2 hLsub hRsub =>
              cases Lp with
              | nil =>
                rw [isTree_nil_ptr hLsub]
                exact fun hq => hsn (Option.some.inj hq).symm
              | node B1 b B2 =>
                rw [isTree_node_ptr hLsub]
                intro hq
                have hbmem : b ∈ (ATree.node (ATree.node B1 b B2) pi Rp).inorder := by
                  simp only [ATree.inorder, List.mem_append, List.mem_cons]
                  exact Or.inl (by simp [ATree.inorder])
                exact houtP b hbmem (by rw [hpp, Option.some.inj hq])
            have hcol_b3 : ∀ q : Ptr, q ≠ some pi → q ≠ some si →
                (b3.getN q).color = (t.getN q).color := by
              intro q hqp hqs
              rw [hb3v, getN_setColor_ne hqs _, hb2v, getN_setColor_ne hqp _, hb1]
            have hcol_pi : (b3.getN (some pi)).color = BLACK := by
              rw [hb3v, getN_setColor_ne (fun hq => hsi_pi (Option.some.inj hq).symm) _,
                hb2v, getN_setColor_same ⟨pi, rfl, by rw [hb1]; exact hplt⟩ _]
            have hsir : (b3.getN (some si)).right = some pi := by
              rw [hb3v, right_setColor, hb2v, right_setColor, hb1]
              exact hgr
            have hsip_b3 : (b3.getN (some si)).parent = (t.getN (some si)).parent :=
              hpar_b3 _
            have hpil_b3 : (b3.getN (some pi)).left ≠ some si := by
              rw [hb3v, left_setColor, hb2v, left_setColor, hb1]
              exact hpil_si
            have hcolb4 : ∀ q : Ptr, (b4.getN q).color = (b3.getN q).color := by
              intro q
              rw [hb4v, color_leftRotate]
            have hn4 : b4.nill = t.nill := by
              rw [hb4v, (sameAux_leftRotate b3 (some si)).1, hn3]
            have hsb4 : (b4.getN (some b4.nill)).color = BLACK := by
              rw [hn4, hcolb4, hcol_b3 _ (fun hq => hpn (Option.some.inj hq).symm)
                (fun hq => hsn (Option.some.inj hq).symm)]
              exact hsb
            have hriB : ∀ L i R, T2 = ATree.node L i R →
                ((b4.getN (some i)).color = BLACK ∨ zb = some i) := by
              intro L i R hTeq
              left
              have hroot4 : b4.root = some i := by
                have hq := isTree_root_eq hc4.tree
                rw [hTeq] at hq
                exact hq
              by_cases hsip : (t.getN (some si)).parent = some t.nill
              · have hr : b4.root = some pi := by
                  rw [hb4v]
                  exact (leftRotate_root_of hsir (by rw [hn3]; exact hpn)
                    (fun hq => hsi_pi (Option.some.inj hq)) hpil_b3).1
                    (by rw [hsip_b3, hn3]; exact hsip)
                rw [hroot4] at hr
                rw [Option.some.inj hr, hcolb4]
                exact hcol_pi
              · have hr : b4.root = t.root := by
                  rw [hb4v]
                  have hq := (leftRotate_root_of hsir (by rw [hn3]; exact hpn)
                    (fun hq => hsi_pi (Option.some.inj hq)) hpil_b3).2
                    (by rw [hsip_b3, hn3]; exact fun hx => hsip hx)
                  rw [hq, hb3v, setColor_root, hb2v, setColor_root, hb1]
                rw [htroot, hroot4] at hr
                have hsi0 : si ≠ i0 := fun hq => hsip (hsi_top hq)
                rw [Option.some.inj hr, hcolb4,
                  hcol_b3 _ (fun hq => hpi0 (Option.some.inj hq).symm)
                  (fun hq => hsi0 (Option.some.inj hq).symm)]
                exact hib
            obtain ⟨Tf, hcF, hiF⟩ := ih h hc4
              ⟨⟨j, hzb, by rw [hi2]; exact hjmem⟩, hsb4, hriB⟩
            exact ⟨Tf, hcF, by rw [hiF, hi2]⟩
    · cases h
      exact ⟨T, hc, rfl⟩

/-- `insertFixup` (loop plus final root blackening) keeps the kernel and
member sequence. -/
theorem insertFixup_core {t : Rbtree α} {z : Ptr} {t' : Rbtree α} {T : ATree}
    (h : insertFixup t z = some t') (hc : Core t T) (hz : Zinv t T z) :
    ∃ T', Core t' T' ∧ T'.inorder = T.inorder := by
  unfold insertFixup at h
  cases hloop : insertFixupLoop (t.arena.length + 1) t z with
  | none => rw [hloop] at h; exact absurd h (by simp)
  | some t1 =>
    rw [hloop, Option.bind_eq_bind, Option.some_bind] at h
    obtain ⟨Tf, hcf, hif⟩ := insertFixupLoop_core hloop hc hz
    injection h with h1
    rw [← h1]
    exact ⟨Tf, setColor_core hcf _ _, hif⟩
/-- The BST descent of `insert` on a fresh item: it reports not-found,
identifies the attachment slot, and — for any post-attachment state
`tc` whose cells differ from `t` exactly by that slot and a fresh node
`zi` — realizes the abstract insertion `insA`. -/
theorem insertLoop_attach {t : Rbtree α} {less : α → α → Bool} {x : α} :
    ∀ {fuel : Nat} {T : ATree} {p y0 x0 yres : Ptr} {found : Bool},
    IsTree t p T → T.inorder.Nodup → parentsOKb t y0 T = true →
    (∀ j ∈ T.inorder, ¬ eqv less (some x) ((t.getN (some j)).item)) →
    insertLoop t less x fuel p y0 = some (x0, yres, found) →
    found = false ∧ x0 = some t.nill ∧
    ((T = ATree.nil ∧ yres = y0) ∨
      (∃ yj, yres = some yj ∧ yj ∈ T.inorder ∧
        ((iless less (some x) ((t.getN (some yj)).item) = true ∧
            (t.getN (some yj)).left = some t.nill) ∨
         (iless less (some x) ((t.getN (some yj)).item) = false ∧
            (t.getN (some yj)).right = some t.nill)))) ∧
    (∀ (tc : Rbtree α) (zi : Nat),
      tc.nill = t.nill → t.arena.length ≤ zi → zi < tc.arena.length →
      zi ≠ t.nill →
      (tc.getN (some zi)).left = some t.nill →
      (tc.getN (some zi)).right = some t.nill →
      (tc.getN (some zi)).parent = yres →
      (∀ j ∈ T.inorder, some j ≠ yres → tc.getN (some j) = t.getN (some j)) →
      (∀ j ∈ T.inorder, some j = yres →
        (iless less (some x) ((t.getN (some j)).item) = true →
          tc.getN (some j) = { t.getN (some j) with left := some zi }) ∧
        (iless less (some x) ((t.getN (some j)).item) = false →
          tc.getN (some j) = { t.getN (some j) with right := some zi })) →
      (T = ATree.nil → IsTree tc (some zi) (insA t less x zi T)) ∧
      (T ≠ ATree.nil → IsTree tc p (insA t less x zi T)) ∧
      parentsOKb tc y0 (insA t less x zi T) = true) := by
  intro fuel
  induction fuel with
  | zero =>
    intro T p y0 x0 yres found _ _ _ _ h
    exact absurd h (by simp [insertLoop])
  | succ fuel ih =>
    intro T p y0 x0 yres found hT hnd hP hfresh h
    cases hT with
    | nil =>
      rw [insertLoop] at h
      rw [if_neg (by simp)] at h
      injection h with h2
      injection h2 with hx0 h3
      injection h3 with hyres hfound
      subst hx0
      subst hyres
      subst hfound
      refine ⟨rfl, rfl, Or.inl ⟨rfl, rfl⟩, ?_⟩
      intro tc zi htcn hlez hzilt hzin hzl hzr hzp hcf hcy
      refine ⟨fun _ => ?_, fun hne => absurd rfl hne, ?_⟩
      · show IsTree tc (some zi) (ATree.node ATree.nil zi ATree.nil)
        refine IsTree.node (by rw [htcn]; exact hzin) hzilt ?_ ?_
        · rw [hzl, ← htcn]
          exact IsTree.nil
        · rw [hzr, ← htcn]
          exact IsTree.nil
      · show parentsOKb tc y0 (ATree.node ATree.nil zi ATree.nil) = true
        exact parentsOKb_node_intro hzp rfl rfl
    | @node i L R hni hlt hL hR =>
      have hmi : i ∈ (ATree.node L i R).inorder := by simp [ATree.inorder]
      have hmemL : ∀ k ∈ L.inorder, k ∈ (ATree.node L i R).inorder := by
        intro k hk
        simp only [ATree.inorder, List.mem_append, List.mem_cons]
        exact Or.inl hk
      have hmemR : ∀ k ∈ R.inorder, k ∈ (ATree.node L i R).inorder := by
        intro k hk
        simp only [ATree.inorder, List.mem_append, List.mem_cons]
        exact Or.inr (Or.inr hk)
      simp only [ATree.inorder] at hnd
      obtain ⟨hndL, hndCR, hdisj⟩ := List.nodup_append.mp hnd
      obtain ⟨hiR, hndR⟩ := List.nodup_cons.mp hndCR
      have hiL : i ∉ L.inorder := fun hq => hdisj hq (List.mem_cons_self _ _)
      have hLR : ∀ a ∈ L.inorder, a ∉ R.inorder := fun a ha hb =>
        hdisj ha (List.mem_cons_of_mem _ hb)
      simp only [parentsOKb, Bool.and_eq_true, decide_eq_true_eq] at hP
      obtain ⟨⟨hPi, hPL⟩, hPR⟩ := hP
      rw [insertLoop] at h
      rw [if_pos (by simpa using hni)] at h
      cases hcmp : iless less (some x) ((t.getN (some i)).item) with
      | true =>
        rw [hcmp] at h
        simp only [if_true] at h
        obtain ⟨hfound, hx0, hyloc, hpay⟩ :=
          ih hL hndL hPL (fun j hj => hfresh j (hmemL j hj)) h
        have hins : ∀ zi : Nat,
            insA t less x zi (ATree.node L i R) = ATree.node (insA t less x zi L) i R := by
          intro zi
          rw [insA.eq_def]
          dsimp only []
          rw [if_pos hcmp]
        rcases hyloc with ⟨hLnil, hyeq⟩ | ⟨yj, hyeq, hyjL, hside⟩
        · -- the slot is directly below this node (empty left subtree)
          subst hLnil
          subst hyeq
          have hlptr : (t.getN (some i)).left = some t.nill := isTree_nil_ptr hL
          refine ⟨hfound, hx0, Or.inr ⟨i, rfl, hmi, Or.inl ⟨hcmp, hlptr⟩⟩, ?_⟩
          intro tc zi htcn hlez hzilt hzin hzl hzr hzp hcf hcy
          obtain ⟨hnilc, _, hpokL⟩ := hpay tc zi htcn hlez hzilt hzin hzl hzr hzp
            (fun j hj => hcf j (hmemL j hj)) (fun j hj => hcy j (hmemL j hj))
          have hicell : tc.getN (some i) = { t.getN (some i) with left := some zi } :=
            (hcy i hmi rfl).1 hcmp
          have hcellR : ∀ j ∈ R.inorder, tc.getN (some j) = t.getN (some j) := by
            intro j hj
            refine hcf j (hmemR j hj) ?_
            exact fun hq => hiR (by rw [← Option.some.inj hq]; exact hj)
          have htlen : t.arena.length ≤ tc.arena.length :=
            le_of_lt (Nat.lt_of_le_of_lt hlez hzilt)
          have hmain : IsTree tc (some i) (insA t less x zi (ATree.node ATree.nil i R)) := by
            rw [hins]
            refine IsTree.node (by rw [htcn]; exact hni)
              (Nat.lt_of_lt_of_le hlt htlen) ?_ ?_
            · have h1 : (tc.getN (some i)).left = some zi := by rw [hicell]
              rw [h1]
              exact hnilc rfl
            · have h2 : (tc.getN (some i)).right = (t.getN (some i)).right := by rw [hicell]
              rw [h2]
              refine isTree_frame htcn htlen hR ?_
              intro j hj
              exact ⟨by rw [hcellR j hj], by rw [hcellR j hj]⟩
          refine ⟨fun hq => ATree.noConfusion hq, fun _ => hmain, ?_⟩
          rw [hins]
          refine parentsOKb_node_intro ?_ hpokL ?_
          · have : (tc.getN (some i)).parent = (t.getN (some i)).parent := by rw [hicell]
            rw [this]
            exact hPi
          · refine parentsOKb_frame ?_ hPR
            intro j hj
            rw [hcellR j hj]
        · -- the slot is deeper in the left subtree
          subst hyeq
          refine ⟨hfound, hx0, Or.inr ⟨yj, rfl, hmemL yj hyjL, hside⟩, ?_⟩
          intro tc zi htcn hlez hzilt hzin hzl hzr hzp hcf hcy
          obtain ⟨_, hnodec, hpokL⟩ := hpay tc zi htcn hlez hzilt hzin hzl hzr hzp
            (fun j hj => hcf j (hmemL j hj)) (fun j hj => hcy j (hmemL j hj))
          have hiy : (some i : Ptr) ≠ some yj :=
            fun hq => hiL (by rw [Option.some.inj hq]; exact hyjL)
          have hicell : tc.getN (some i) = t.getN (some i) := hcf i hmi hiy
          have hLne : L ≠ ATree.nil := by
            intro hq
            rw [hq] at hyjL
            simp [ATree.inorder] at hyjL
          have hcellR : ∀ j ∈ R.inorder, tc.getN (some j) = t.getN (some j) := by
            intro j hj
            refine hcf j (hmemR j hj) ?_
            exact fun hq => hLR yj hyjL (by rw [← Option.some.inj hq]; exact hj)
          have htlen : t.arena.length ≤ tc.arena.length :=
            le_of_lt (Nat.lt_of_le_of_lt hlez hzilt)
          have hmain : IsTree tc (some i) (insA t less x zi (ATree.node L i R)) := by
            rw [hins]
            refine IsTree.node (by rw [htcn]; exact hni)
              (Nat.lt_of_lt_of_le hlt htlen) ?_ ?_
            · have h1 : (tc.getN (some i)).left = (t.getN (some i)).left := by rw [hicell]
              rw [h1]
              exact hnodec hLne
            · have h2 : (tc.getN (some i)).right = (t.getN (some i)).right := by rw [hicell]
              rw [h2]
              refine isTree_frame htcn htlen hR ?_
              intro j hj
              exact ⟨by rw [hcellR j hj], by rw [hcellR j hj]⟩
          refine ⟨fun hq => ATree.noConfusion hq, fun _ => hmain, ?_⟩
          rw [hins]
          refine parentsOKb_node_intro ?_ hpokL ?_
          · rw [hicell]
            exact hPi
          · refine parentsOKb_frame ?_ hPR
            intro j hj
            rw [hcellR j hj]
      | false =>
        have hgt : iless less ((t.getN (some i)).item) (some x) = true := by
          by_contra hq
          exact hfresh i hmi ⟨hcmp, by simpa using hq⟩
        rw [hcmp] at h
        simp only [Bool.false_eq_true, if_false] at h
        rw [hgt] at h
        simp only [if_true] at h
        obtain ⟨hfound, hx0, hyloc, hpay⟩ :=
          ih hR hndR hPR (fun j hj => hfresh j (hmemR j hj)) h
        have hins : ∀ zi : Nat,
            insA t less x zi (ATree.node L i R) = ATree.node L i (insA t less x zi R) := by
          intro zi
          rw [insA.eq_def]
          dsimp only []
          rw [if_neg (by rw [hcmp]; exact Bool.false_ne_true)]
        rcases hyloc with ⟨hRnil, hyeq⟩ | ⟨yj, hyeq, hyjR, hside⟩
        · subst hRnil
          subst hyeq
          have hrptr : (t.getN (some i)).right = some t.nill := isTree_nil_ptr hR
          refine ⟨hfound, hx0, Or.inr ⟨i, rfl, hmi, Or.inr ⟨hcmp, hrptr⟩⟩, ?_⟩
          intro tc zi htcn hlez hzilt hzin hzl hzr hzp hcf hcy
          obtain ⟨hnilc, _, hpokR⟩ := hpay tc zi htcn hlez hzilt hzin hzl hzr hzp
            (fun j hj => hcf j (hmemR j hj)) (fun j hj => hcy j (hmemR j hj))
          have hicell : tc.getN (some i) = { t.getN (some i) with right := some zi } :=
            (hcy i hmi rfl).2 hcmp
          have hcellL : ∀ j ∈ L.inorder, tc.getN (some j) = t.getN (some j) := by
            intro j hj
            refine hcf j (hmemL j hj) ?_
            exact fun hq => hiL (by rw [← Option.some.inj hq]; exact hj)
          have htlen : t.arena.length ≤ tc.arena.length :=
            le_of_lt (Nat.lt_of_le_of_lt hlez hzilt)
          have hmain : IsTree tc (some i) (insA t less x zi (ATree.node L i ATree.nil)) := by
            rw [hins]
            refine IsTree.node (by rw [htcn]; exact hni)
              (Nat.lt_of_lt_of_le hlt htlen) ?_ ?_
            · have h1 : (tc.getN (some i)).left = (t.getN (some i)).left := by rw [hicell]
              rw [h1]
              refine isTree_frame htcn htlen hL ?_
              intro j hj
              exact ⟨by rw [hcellL j hj], by rw [hcellL j hj]⟩
            · have h2 : (tc.getN (some i)).right = some zi := by rw [hicell]
              rw [h2]
              exact hnilc rfl
          refine ⟨fun hq => ATree.noConfusion hq, fun _ => hmain, ?_⟩
          rw [hins]
          refine parentsOKb_node_intro ?_ ?_ hpokR
          · have : (tc.getN (some i)).parent = (t.getN (some i)).parent := by rw [hicell]
            rw [this]
            exact hPi
          · refine parentsOKb_frame ?_ hPL
            intro j hj
            rw [hcellL j hj]
        · subst hyeq
          refine ⟨hfound, hx0, Or.inr ⟨yj, rfl, hmemR yj hyjR, hside⟩, ?_⟩
          intro tc zi htcn hlez hzilt hzin hzl hzr hzp hcf hcy
          obtain ⟨_, hnodec, hpokR⟩ := hpay tc zi htcn hlez hzilt hzin hzl hzr hzp
            (fun j hj => hcf j (hmemR j hj)) (fun j hj => hcy j (hmemR j hj))
          have hiy : (some i : Ptr) ≠ some yj :=
            fun hq => hiR (by rw [Option.some.inj hq]; exact hyjR)
          have hicell : tc.getN (some i) = t.getN (some i) := hcf i hmi hiy
          have hRne : R ≠ ATree.nil := by
            intro hq
            rw [hq] at hyjR
            simp [ATree.inorder] at hyjR
          have hcellL : ∀ j ∈ L.inorder, tc.getN (some j) = t.getN (some j) := by
            intro j hj
            refine hcf j (hmemL j hj) ?_
            exact fun hq => hLR j hj (by rw [Option.some.inj hq]; exact hyjR)
          have htlen : t.arena.length ≤ tc.arena.length :=
            le_of_lt (Nat.lt_of_le_of_lt hlez hzilt)
          have hmain : IsTree tc (some i) (insA t less x zi (ATree.node L i R)) := by
            rw [hins]
            refine IsTree.node (by rw [htcn]; exact hni)
              (Nat.lt_of_lt_of_le hlt htlen) ?_ ?_
            · have h1 : (tc.getN (some i)).left = (t.getN (some i)).left := by rw [hicell]
              rw [h1]
              refine isTree_frame htcn htlen hL ?_
              intro j hj
              exact ⟨by rw [hcellL j hj], by rw [hcellL j hj]⟩
            · have h2 : (tc.getN (some i)).right = (t.getN (some i)).right := by rw [hicell]
              rw [h2]
              exact hnodec hRne
          refine ⟨fun hq => ATree.noConfusion hq, fun _ => hmain, ?_⟩
          rw [hins]
          refine parentsOKb_node_intro ?_ ?_ hpokR
          · rw [hicell]
            exact hPi
          · refine parentsOKb_frame ?_ hPL
            intro j hj
            rw [hcellL j hj]
theorem getN_append_lt {t : Rbtree α} {n : Node α} {j : Nat} (hj : j < t.arena.length) :
    Rbtree.getN { t with arena := t.arena ++ [n] } (some j) = t.getN (some j) := by
  show (t.arena ++ [n]).getD j default = t.arena.getD j default
  rw [List.getD_eq_getElem?_getD, List.getD_eq_getElem?_getD,
    List.getElem?_append_left hj]

theorem getN_append_self {t : Rbtree α} {n : Node α} :
    Rbtree.getN { t with arena := t.arena ++ [n] } (some t.arena.length) = n := by
  show (t.arena ++ [n]).getD t.arena.length default = n
  rw [List.getD_eq_getElem?_getD, List.getElem?_append_right (le_refl _)]
  simp

theorem setPrev_core {t : Rbtree α} {T : ATree} (hc : Core t T) (p v : Ptr) :
    Core (t.setPrev p v) T := by
  refine ⟨?_, ?_, hc.nodup, ?_, ?_, ?_⟩
  · have h0 : (t.setPrev p v).root = t.root := setPrev_root ..
    rw [h0]
    refine isTree_frame (setPrev_nill ..) (le_of_eq (setPrev_arena_length ..).symm) hc.tree ?_
    intro j _
    exact ⟨left_setPrev .., right_setPrev ..⟩
  · have h0 : (t.setPrev p v).nill = t.nill := setPrev_nill ..
    rw [h0]
    refine parentsOKb_frame ?_ hc.parents
    intro j _
    exact parent_setPrev ..
  · rw [setPrev_nill, left_setPrev]
    exact hc.sleft
  · rw [setPrev_nill, right_setPrev]
    exact hc.sright
  · rw [setPrev_nill, setPrev_arena_length]
    exact hc.nill_lt

theorem setNext_core {t : Rbtree α} {T : ATree} (hc : Core t T) (p v : Ptr) :
    Core (t.setNext p v) T := by
  refine ⟨?_, ?_, hc.nodup, ?_, ?_, ?_⟩
  · have h0 : (t.setNext p v).root = t.root := setNext_root ..
    rw [h0]
    refine isTree_frame (setNext_nill ..) (le_of_eq (setNext_arena_length ..).symm) hc.tree ?_
    intro j _
    exact ⟨left_setNext .., right_setNext ..⟩
  · have h0 : (t.setNext p v).nill = t.nill := setNext_nill ..
    rw [h0]
    refine parentsOKb_frame ?_ hc.parents
    intro j _
    exact parent_setNext ..
  · rw [setNext_nill, left_setNext]
    exact hc.sleft
  · rw [setNext_nill, right_setNext]
    exact hc.sright
  · rw [setNext_nill, setNext_arena_length]
    exact hc.nill_lt

theorem withLast_core {t : Rbtree α} {T : ATree} (hc : Core t T) (v : Ptr) :
    Core { t with last := v } T := by
  refine ⟨?_, ?_, hc.nodup, hc.sleft, hc.sright, hc.nill_lt⟩
  · show IsTree { t with last := v } t.root T
    refine isTree_frame (show ({ t with last := v }).nill = t.nill from rfl)
      (show t.arena.length ≤ ({ t with last := v }).arena.length from le_refl _) hc.tree ?_
    intro j _
    exact ⟨rfl, rfl⟩
  · show parentsOKb { t with last := v } (some t.nill) T = true
    refine parentsOKb_frame ?_ hc.parents
    intro j _
    rfl

theorem withFirst_core {t : Rbtree α} {T : ATree} (hc : Core t T) (v : Ptr) :
    Core { t with first := v } T := by
  refine ⟨?_, ?_, hc.nodup, hc.sleft, hc.sright, hc.nill_lt⟩
  · show IsTree { t with first := v } t.root T
    refine isTree_frame (show ({ t with first := v }).nill = t.nill from rfl)
      (show t.arena.length ≤ ({ t with first := v }).arena.length from le_refl _) hc.tree ?_
    intro j _
    exact ⟨rfl, rfl⟩
  · show parentsOKb { t with first := v } (some t.nill) T = true
    refine parentsOKb_frame ?_ hc.parents
    intro j _
    rfl
set_option maxHeartbeats 1000000 in
/-- The private `insert` on a fresh item, when it returns: it reports
success, allocates the next arena slot, and produces a well-formed BST
whose members are the old ones plus the fresh node carrying the item. -/
theorem insert_builds {t : Rbtree α} {less : α → α → Bool} {x : α} {T : ATree}
    (hw : WeakOrder less) (hI : Inv t less T)
    (hfresh : ∀ j ∈ T.inorder, ¬ eqv less (some x) ((t.getN (some j)).item))
    {t1 : Rbtree α} {z : Ptr} {ok : Bool}
    (h : insert t less x = some (t1, z, ok)) :
    ok = true ∧ z = some t.arena.length ∧
    ∃ T1 : ATree,
      IsTree t1 t1.root T1 ∧ bstb t1 less T1 = true ∧ T1.inorder.Nodup ∧
      (∀ j ∈ T1.inorder, ((t1.getN (some j)).item).isSome) ∧
      t.arena.length ∈ T1.inorder ∧
      (t1.getN (some t.arena.length)).item = some x ∧
      (∀ j ∈ T1.inorder, j ≠ t.arena.length →
        j ∈ T.inorder ∧ (t1.getN (some j)).item = (t.getN (some j)).item) ∧
      T1.inorder.length = T.inorder.length + 1 ∧
      t1.count = t.count + 1 ∧ t1.arena.length = t.arena.length + 1 ∧ t1.nill = t.nill := by
  have hT0 : IsTree t t.root T := ext_isTree hI.tree
  have hnill_lt := hI.nill_lt
  have hmemlt := isTree_mem_lt hT0
  have hzn : t.arena.length ≠ t.nill := fun hq => absurd hnill_lt (by rw [hq]; exact lt_irrefl _)
  have hzmem : ∀ j ∈ T.inorder, j ≠ t.arena.length :=
    fun j hj hq => absurd (hmemlt j hj).1 (by rw [hq]; exact lt_irrefl _)
  unfold insert at h
  cases hloop : insertLoop t less x (t.arena.length + 1) t.root (some t.nill) with
  | none => rw [hloop] at h; exact absurd h (by simp)
  | some trip =>
    obtain ⟨x0, yres, found⟩ := trip
    obtain ⟨hfound, hx0, hyloc, hpay⟩ :=
      insertLoop_attach hT0 hI.nodup hI.parents hfresh hloop
    subst hfound
    rw [hloop, Option.bind_eq_bind, Option.some_bind] at h
    dsimp -zeta only [] at h
    rw [if_neg Bool.false_ne_true] at h
    lift_lets at h
    extract_lets z0 tA tB tC tD at h
    -- header facts down the chain
    have hAget_lt : ∀ j : Nat, j < t.arena.length → tA.getN (some j) = t.getN (some j) := by
      intro j hj
      unfold_let tA
      exact getN_append_lt hj
    have hAget_zi : tA.getN (some t.arena.length) =
        ⟨some t.nill, some t.nill, some t.nill, some t.nill, some t.nill, some x, RED⟩ := by
      unfold_let tA
      exact getN_append_self
    have hAn : tA.nill = t.nill := by unfold_let tA; rfl
    have hAlen : tA.arena.length = t.arena.length + 1 := by
      unfold_let tA
      show (t.arena ++ [_]).length = t.arena.length + 1
      simp
    have hAroot : tA.root = t.root := by unfold_let tA; rfl
    have hAcount : tA.count = t.count := by unfold_let tA; rfl
    have hBget_ne : ∀ q : Ptr, q ≠ some t.arena.length → tB.getN q = tA.getN q := by
      intro q hq
      unfold_let tB z0
      exact getN_setParent_ne hq _
    have hBget_zi : tB.getN (some t.arena.length) =
        ⟨some t.nill, some t.nill, yres, some t.nill, some t.nill, some x, RED⟩ := by
      unfold_let tB z0
      rw [Rbtree.setParent, getN_writeN_same ⟨t.arena.length, rfl, by rw [hAlen]; omega⟩]
      rw [hAget_zi]
    have hBn : tB.nill = t.nill := by unfold_let tB; rw [setParent_nill, hAn]
    have hBlen : tB.arena.length = t.arena.length + 1 := by
      unfold_let tB; rw [setParent_arena_length, hAlen]
    have hBroot : tB.root = t.root := by unfold_let tB; rw [setParent_root, hAroot]
    have hBcount : tB.count = t.count := by unfold_let tB; rw [setParent_count, hAcount]
    have hBitem : ∀ j ∈ T.inorder, (tB.getN (some j)).item = (t.getN (some j)).item := by
      intro j hj
      rw [hBget_ne (some j) (fun hq => hzmem j hj (Option.some.inj hq)),
        hAget_lt j (hmemlt j hj).1]
    have hBmem : ∀ j ∈ T.inorder, tB.getN (some j) = t.getN (some j) := by
      intro j hj
      rw [hBget_ne (some j) (fun hq => hzmem j hj (Option.some.inj hq)),
        hAget_lt j (hmemlt j hj).1]
    have hBnill_cell : tB.getN (some t.nill) = t.getN (some t.nill) := by
      rw [hBget_ne (some t.nill) (fun hq => hzn (Option.some.inj hq).symm),
        hAget_lt t.nill hnill_lt]
    have hCfacts : tC.nill = t.nill ∧ tC.arena.length = t.arena.length + 1 ∧
        tC.count = t.count ∧
        tC.getN (some t.arena.length) =
          ⟨some t.nill, some t.nill, yres, some t.nill, some t.nill, some x, RED⟩ ∧
        (∀ j ∈ T.inorder, (some j ≠ yres → tC.getN (some j) = t.getN (some j)) ∧
          (some j = yres →
            (iless less (some x) ((t.getN (some j)).item) = true →
              tC.getN (some j) = { t.getN (some j) with left := some t.arena.length }) ∧
            (iless less (some x) ((t.getN (some j)).item) = false →
              tC.getN (some j) = { t.getN (some j) with right := some t.arena.length }))) ∧
        tC.getN (some t.nill) = t.getN (some t.nill) ∧
        (T = ATree.nil → tC.root = some t.arena.length) ∧
        (T ≠ ATree.nil → tC.root = t.root) := by
      rcases hyloc with ⟨hTnil, hyeq⟩ | ⟨yj, hyeq, hyjT, hside⟩
      · subst hyeq
        have hcond : (some t.nill : Ptr) = some tB.nill := by rw [hBn]
        unfold_let tC
        rw [if_pos hcond]
        refine ⟨hBn, hBlen, hBcount, hBget_zi, ?_, hBnill_cell, ?_, ?_⟩
        · intro j hj
          rw [hTnil] at hj
          simp [ATree.inorder] at hj
        · intro _
          unfold_let z0
          rfl
        · intro hne
          exact absurd hTnil hne
      · subst hyeq
        have hyjn : yj ≠ t.nill := (hmemlt yj hyjT).2
        have hyjlt : yj < t.arena.length := (hmemlt yj hyjT).1
        have hcond : ¬ ((some yj : Ptr) = some tB.nill) := by
          rw [hBn]
          exact fun hq => hyjn (Option.some.inj hq)
        have hitem : (tB.getN (some yj)).item = (t.getN (some yj)).item := hBitem yj hyjT
        have hTne : T ≠ ATree.nil := by
          intro hq
          rw [hq] at hyjT
          simp [ATree.inorder] at hyjT
        unfold_let tC
        rw [if_neg hcond]
        rcases hside with ⟨hcmp, _⟩ | ⟨hcmp, _⟩
        · rw [if_pos (show iless less (some x) ((tB.getN (some yj)).item) = true by
            rw [hitem]; exact hcmp)]
          refine ⟨?_, ?_, ?_, ?_, ?_, ?_, fun hq => absurd hq hTne, fun _ => ?_⟩
          · rw [setLeft_nill, hBn]
          · rw [setLeft_arena_length, hBlen]
          · rw [setLeft_count, hBcount]
          · rw [getN_setLeft_ne (fun hq => absurd hyjlt
              (by rw [← Option.some.inj hq]; exact lt_irrefl _)) _, hBget_zi]
          · intro j hj
            constructor
            · intro hne
              rw [getN_setLeft_ne (fun hq => hne (by unfold_let z0 at hq ⊢; exact hq)) _,
                hBmem j hj]
            · intro heq
              have hjy : j = yj := Option.some.inj heq
              subst hjy
              constructor
              · intro _
                unfold_let z0
                rw [Rbtree.setLeft, getN_writeN_same ⟨j, rfl, by rw [hBlen]; omega⟩,
                  hBmem j hj]
              · intro hq
                rw [hcmp] at hq
                exact Bool.noConfusion hq
          · rw [getN_setLeft_ne (fun hq => hyjn (Option.some.inj hq).symm) _, hBnill_cell]
          · rw [setLeft_root, hBroot]
        · rw [if_neg (show ¬ iless less (some x) ((tB.getN (some yj)).item) = true by
            rw [hitem, hcmp]; exact Bool.false_ne_true)]
          refine ⟨?_, ?_, ?_, ?_, ?_, ?_, fun hq => absurd hq hTne, fun _ => ?_⟩
          · rw [setRight_nill, hBn]
          · rw [setRight_arena_length, hBlen]
          · rw [setRight_count, hBcount]
          · rw [getN_setRight_ne (fun hq => absurd hyjlt
              (by rw [← Option.some.inj hq]; exact lt_irrefl _)) _, hBget_zi]
          · intro j hj
            constructor
            · intro hne
              rw [getN_setRight_ne (fun hq => hne (by unfold_let z0 at hq ⊢; exact hq)) _,
                hBmem j hj]
            · intro heq
              have hjy : j = yj := Option.some.inj heq
              subst hjy
              constructor
              · intro hq
                rw [hcmp] at hq
                exact Bool.noConfusion hq
              · intro _
                unfold_let z0
                rw [Rbtree.setRight, getN_writeN_same ⟨j, rfl, by rw [hBlen]; omega⟩,
                  hBmem j hj]
          · rw [getN_setRight_ne (fun hq => hyjn (Option.some.inj hq).symm) _, hBnill_cell]
          · rw [setRight_root, hBroot]
    obtain ⟨hCn, hClen, hCcount, hCzi, hCmem, hCnill, hCrootNil, hCrootNe⟩ := hCfacts
    have hDget : ∀ q : Ptr, tD.getN q = tC.getN q := fun q => rfl
    have hDn : tD.nill = t.nill := hCn
    have hDlen : tD.arena.length = t.arena.length + 1 := hClen
    have hDcount : tD.count = t.count + 1 := by
      show tC.count + 1 = t.count + 1
      rw [hCcount]
    have hDroot : tD.root = tC.root := rfl
    obtain ⟨hpay1, hpay2, hpay3⟩ := hpay tD t.arena.length hDn (le_refl _)
      (by rw [hDlen]; omega) hzn
      (by rw [hDget, hCzi])
      (by rw [hDget, hCzi])
      (by rw [hDget, hCzi])
      (fun j hj hne => by rw [hDget]; exact (hCmem j hj).1 hne)
      (fun j hj heq => by
        refine ⟨fun hc => ?_, fun hc => ?_⟩
        · rw [hDget]; exact ((hCmem j hj).2 heq).1 hc
        · rw [hDget]; exact ((hCmem j hj).2 heq).2 hc)
    have hzinT : t.arena.length ∉ T.inorder := fun hq => hzmem _ hq rfl
    have hDtree : IsTree tD tD.root (insA t less x t.arena.length T) := by
      by_cases hTn : T = ATree.nil
      · rw [show tD.root = some t.arena.length from hCrootNil hTn]
        exact hpay1 hTn
      · rw [show tD.root = t.root from hCrootNe hTn]
        exact hpay2 hTn
    have hDitem : ∀ j ∈ T.inorder, (tD.getN (some j)).item = (t.getN (some j)).item := by
      intro j hj
      rw [hDget]
      by_cases hq : (some j : Ptr) = yres
      · cases hc : iless less (some x) ((t.getN (some j)).item) with
        | true => rw [((hCmem j hj).2 hq).1 hc]
        | false => rw [((hCmem j hj).2 hq).2 hc]
      · rw [(hCmem j hj).1 hq]
    have hDzi_item : (tD.getN (some t.arena.length)).item = some x := by
      rw [hDget, hCzi]
    have hcD : Core tD (insA t less x t.arena.length T) := by
      refine ⟨hDtree, ?_, ?_, ?_, ?_, ?_⟩
      · rw [hDn]
        exact hpay3
      · exact insA_nodup _ _ _ _ _ hI.nodup hzinT
      · rw [hDn, hDget, hCnill]
        exact hI.sentinel.2.2.2.2.1
      · rw [hDn, hDget, hCnill]
        exact hI.sentinel.2.2.2.2.2
      · rw [hDn, hDlen]
        omega
    have hDbst : bstb tD less (insA t less x t.arena.length T) = true :=
      insA_bst hDzi_item hI.bst hfresh hDitem
    cases hfix : insertFixup tD z0 with
    | none => rw [hfix] at h; exact absurd h (by simp)
    | some tE =>
      rw [hfix, Option.bind_eq_bind, Option.some_bind] at h
      have hzD : Zinv tD (insA t less x t.arena.length T) z0 := by
        refine ⟨⟨t.arena.length, by unfold_let z0; rfl,
          by rw [insA_mem]; exact Or.inl rfl⟩, ?_, ?_⟩
        · rw [hDn, hDget, hCnill]
          exact hI.sentinel.1
        · intro L i R hTeq
          cases hT0n : T with
          | nil =>
            right
            rw [hT0n] at hTeq
            rw [insA.eq_def] at hTeq
            dsimp only [] at hTeq
            injection hTeq with e1 e2 e3
            unfold_let z0
            rw [e2]
          | node L0 i0 R0 =>
            left
            rw [hT0n] at hTeq
            obtain ⟨L2, R2, hq⟩ := insA_top t less x t.arena.length L0 i0 R0
            rw [hq] at hTeq
            injection hTeq with e1 e2 e3
            rw [← e2]
            have hi0mem : i0 ∈ T.inorder := by rw [hT0n]; simp [ATree.inorder]
            have hi0lt : i0 < t.arena.length := (hmemlt i0 hi0mem).1
            rw [hDget]
            have hcc : (tC.getN (some i0)).color = (t.getN (some i0)).color := by
              by_cases hq2 : (some i0 : Ptr) = yres
              · cases hcmp : iless less (some x) ((t.getN (some i0)).item) with
                | true => rw [((hCmem i0 hi0mem).2 hq2).1 hcmp]
                | false => rw [((hCmem i0 hi0mem).2 hq2).2 hcmp]
              · rw [(hCmem i0 hi0mem).1 hq2]
            rw [hcc]
            have hrb := hI.rootBlack
            rw [hT0n] at hrb
            exact hrb
      obtain ⟨T1, hcE, hiE⟩ := insertFixup_core hfix hcD hzD
      obtain ⟨hEn, hEcount, _, _, hElen, hEaux⟩ := sameAux_insertFixup hfix
      cases hsucc : successor tE z0 with
      | none => rw [hsucc] at h; exact absurd h (by simp)
      | some s0 =>
        rw [hsucc, Option.bind_eq_bind, Option.some_bind] at h
        lift_lets at h
        extract_lets tF w1 w2 tG tH at h
        have hcF : Core tF T1 := by
          unfold_let tF
          exact setNext_core hcE _ _
        have hFitem : ∀ q : Ptr, (tF.getN q).item = (tE.getN q).item := by
          intro q
          unfold_let tF
          rw [item_setNext]
        have hFcount : tF.count = tE.count := by unfold_let tF; rw [setNext_count]
        have hFlen : tF.arena.length = tE.arena.length := by
          unfold_let tF; rw [setNext_arena_length]
        have hFn : tF.nill = tE.nill := by unfold_let tF; rw [setNext_nill]
        have hw1c : Core w1 T1 := by
          unfold_let w1
          exact setPrev_core hcF _ _
        have hw2c : Core w2 T1 := by
          unfold_let w2
          exact setPrev_core hcF _ _
        have hw1item : ∀ q : Ptr, (w1.getN q).item = (tF.getN q).item := by
          intro q; unfold_let w1; rw [item_setPrev]
        have hw2item : ∀ q : Ptr, (w2.getN q).item = (tF.getN q).item := by
          intro q; unfold_let w2; rw [item_setPrev]
        have hw1count : w1.count = tF.count := by unfold_let w1; rw [setPrev_count]
        have hw2count : w2.count = tF.count := by unfold_let w2; rw [setPrev_count]
        have hw1len : w1.arena.length = tF.arena.length := by
          unfold_let w1; rw [setPrev_arena_length]
        have hw2len : w2.arena.length = tF.arena.length := by
          unfold_let w2; rw [setPrev_arena_length]
        have hw1n : w1.nill = tF.nill := by unfold_let w1; rw [setPrev_nill]
        have hw2n : w2.nill = tF.nill := by unfold_let w2; rw [setPrev_nill]
        have hcG : Core tG T1 := by
          unfold_let tG
          split
          · exact setPrev_core hw1c _ _
          · exact withLast_core hw2c _
        have hGitem : ∀ q : Ptr, (tG.getN q).item = (tF.getN q).item := by
          intro q
          unfold_let tG
          split
          · rw [item_setPrev, hw1item]
          · show (w2.getN q).item = _
            rw [hw2item]
        have hGcount : tG.count = tF.count := by
          unfold_let tG
          split
          · rw [setPrev_count, hw1count]
          · show w2.count = _
            rw [hw2count]
        have hGlen : tG.arena.length = tF.arena.length := by
          unfold_let tG
          split
          · rw [setPrev_arena_length, hw1len]
          · show w2.arena.length = _
            rw [hw2len]
        have hGn : tG.nill = tF.nill := by
          unfold_let tG
          split
          · rw [setPrev_nill, hw1n]
          · show w2.nill = _
            rw [hw2n]
        have hcH : Core tH T1 := by
          unfold_let tH
          split
          · exact setNext_core hcG _ _
          · exact withFirst_core hcG _
        have hHitem : ∀ q : Ptr, (tH.getN q).item = (tD.getN q).item := by
          intro q
          have h1 : (tH.getN q).item = (tG.getN q).item := by
            unfold_let tH
            split
            · rw [item_setNext]
            · rfl
          rw [h1, hGitem, hFitem, (hEaux q).1]
        have hHcount : tH.count = t.count + 1 := by
          have h1 : tH.count = tG.count := by
            unfold_let tH
            split
            · rw [setNext_count]
            · rfl
          rw [h1, hGcount, hFcount, hEcount, hDcount]
        have hHlen : tH.arena.length = t.arena.length + 1 := by
          have h1 : tH.arena.length = tG.arena.length := by
            unfold_let tH
            split
            · rw [setNext_arena_length]
            · rfl
          rw [h1, hGlen, hFlen, hElen, hDlen]
        have hHn : tH.nill = t.nill := by
          have h1 : tH.nill = tG.nill := by
            unfold_let tH
            split
            · rw [setNext_nill]
            · rfl
          rw [h1, hGn, hFn, hEn, hDn]
        injection h with h2
        injection h2 with he1 h3
        injection h3 with he2 he3
        subst he1
        subst he2
        subst he3
        refine ⟨rfl, by unfold_let z0; rfl, T1, hcH.tree, ?_, hcE.nodup, ?_, ?_, ?_, ?_, ?_,
          hHcount, hHlen, hHn⟩
        · refine pairwise_bstb ?_
          rw [hiE]
          refine (bstb_pairwise hw hDbst).imp ?_
          intro i j hab
          rw [hHitem (some i), hHitem (some j)]
          exact hab
        · intro j hj
          rw [hiE, insA_mem] at hj
          rcases hj with rfl | hj
          · rw [hHitem, hDzi_item]
            rfl
          · rw [hHitem, hDitem j hj]
            exact hI.items j hj
        · rw [hiE, insA_mem]
          exact Or.inl rfl
        · rw [hHitem, hDzi_item]
        · intro j hj hne
          rw [hiE, insA_mem] at hj
          rcases hj with rfl | hj
          · exact absurd rfl hne
          · exact ⟨hj, by rw [hHitem, hDitem j hj]⟩
        · rw [hiE, insA_length]
/-- `remove_raw` never changes any stored item and decrements the count
by one. -/
theorem remove_raw_aux {t : Rbtree α} {z : Ptr} {tf : Rbtree α} {r : Ptr}
    (h : remove_raw t z = some (tf, r)) :
    (∀ q : Ptr, (tf.getN q).item = (t.getN q).item) ∧ tf.count = t.count - 1 := by
  unfold remove_raw at h
  cases hs : remove_struct t z with
  | none => rw [hs] at h; exact absurd h (by simp)
  | some a =>
    obtain ⟨t1, xx, yc⟩ := a
    rw [hs, Option.bind_eq_bind, Option.some_bind] at h
    dsimp -zeta only [] at h
    split at h
    · cases hd : deleteFixup t1 xx with
      | none => rw [hd] at h; exact absurd h (by simp)
      | some t2 =>
        rw [hd, Option.bind_eq_bind, Option.some_bind] at h
        have hsa : SameAux t t2 := (sameAux_remove_struct hs).trans (sameAux_deleteFixup hd)
        beta_reduce at h
        lift_lets at h
        extract_lets tK tL tM at h
        have hKitem : ∀ q : Ptr, (tK.getN q).item = (t.getN q).item := by
          intro q
          show (t2.getN q).item = _
          exact ((hsa.2.2.2.2.2) q).1
        have hKcount : tK.count = t.count - 1 := by
          show t2.count - 1 = t.count - 1
          rw [hsa.2.1]
        have hLitem : ∀ q : Ptr, (tL.getN q).item = (tK.getN q).item := by
          intro q
          unfold_let tL
          split
          · rw [item_setPrev]
          · rfl
        have hLcount : tL.count = tK.count := by
          unfold_let tL
          split
          · rw [setPrev_count]
          · rfl
        have hMitem : ∀ q : Ptr, (tM.getN q).item = (tL.getN q).item := by
          intro q
          unfold_let tM
          split
          · rw [item_setNext]
          · rfl
        have hMcount : tM.count = tL.count := by
          unfold_let tM
          split
          · rw [setNext_count]
          · rfl
        injection h with h2
        injection h2 with he1 he2
        subst he1
        exact ⟨fun q => by rw [hMitem, hLitem, hKitem], by rw [hMcount, hLcount, hKcount]⟩
    · rw [Option.bind_eq_bind, Option.some_bind] at h
      have hsa : SameAux t t1 := sameAux_remove_struct hs
      beta_reduce at h
      lift_lets at h
      extract_lets tK tL tM at h
      have hKitem : ∀ q : Ptr, (tK.getN q).item = (t.getN q).item := by
        intro q
        show (t1.getN q).item = _
        exact ((hsa.2.2.2.2.2) q).1
      have hKcount : tK.count = t.count - 1 := by
        show t1.count - 1 = t.count - 1
        rw [hsa.2.1]
      have hLitem : ∀ q : Ptr, (tL.getN q).item = (tK.getN q).item := by
        intro q
        unfold_let tL
        split
        · rw [item_setPrev]
        · rfl
      have hLcount : tL.count = tK.count := by
        unfold_let tL
        split
        · rw [setPrev_count]
        · rfl
      have hMitem : ∀ q : Ptr, (tM.getN q).item = (tL.getN q).item := by
        intro q
        unfold_let tM
        split
        · rw [item_setNext]
        · rfl
      have hMcount : tM.count = tL.count := by
        unfold_let tM
        split
        · rw [setNext_count]
        · rfl
      injection h with h2
      injection h2 with he1 he2
      subst he1
      exact ⟨fun q => by rw [hMitem, hLitem, hKitem], by rw [hMcount, hLcount, hKcount]⟩
/-- C5 (amended): from a well-formed state and a fresh item `x`, an
`Insert(x)` that completes reports success, and a subsequent `Remove(x)`
that completes returns `(x, true)` and restores `count`.  (The
structural half of the original claim fails: see the counterexample —
the post-remove tree may differ from the pre-insert tree beyond
colors.) -/
theorem claim_C5 {α : Type} (less : α → α → Bool) (hw : WeakOrder less)
    (t : Rbtree α) (T : ATree) (hI : Inv t less T)
    (x : α)
    (hfresh : ∀ j ∈ T.inorder, ¬ eqv less (some x) ((t.getN (some j)).item))
    (t1 : Rbtree α) (z : Ptr) (ok : Bool)
    (hIns : Insert t less (some x) = some (t1, z, ok))
    (t2 : Rbtree α) (r : Option (ItemBox α)) (ok2 : Bool)
    (hRem : Remove t1 less (some x) = some (t2, r, ok2)) :
    ok = true ∧ ok2 = true ∧ r = some (ItemBox.item x) ∧ t2.count = t.count := by
  have hIns' : insert t less x = some (t1, z, ok) := hIns
  obtain ⟨hok, hz, T1, hT1tree, hT1bst, hT1nd, hT1items, hT1mem, hT1zi, _, _,
    hT1count, hT1len, hT1nill⟩ := insert_builds hw hI hfresh hIns'
  subst hok
  have heqv : eqv less (some x) ((t1.getN (some t.arena.length)).item) := by
    rw [hT1zi]
    exact ⟨by rw [iless_some_some]; exact hw.1 x, by rw [iless_some_some]; exact hw.1 x⟩
  have hsearch : search t1 less x = some (some t.arena.length) := by
    unfold search
    exact searchLoop_found hw hT1tree hT1bst hT1items hT1mem heqv
      (Nat.lt_succ_of_le (inorder_length_le hT1tree hT1nd))
  have hzn1 : t.arena.length ≠ t1.nill := by
    rw [hT1nill]
    exact fun hq => absurd hI.nill_lt (by rw [hq]; exact lt_irrefl _)
  have hRem' : Remove t1 less (some x) = some (t2, r, ok2) := hRem
  unfold Remove remove at hRem'
  dsimp only [] at hRem'
  rw [hsearch] at hRem'
  simp only [Option.bind_eq_bind, Option.some_bind] at hRem'
  rw [if_neg (by simpa using hzn1)] at hRem'
  cases hrr : remove_raw t1 (some t.arena.length) with
  | none => rw [hrr] at hRem'; exact absurd hRem' (by simp)
  | some pr =>
    obtain ⟨tf, rr⟩ := pr
    rw [hrr] at hRem'
    simp only [Option.bind_eq_bind, Option.some_bind] at hRem'
    have hrz : rr = some t.arena.length := remove_raw_snd hrr
    obtain ⟨hfitems, hfcount⟩ := remove_raw_aux hrr
    subst hrz
    simp only [pure, Option.bind_eq_bind, Option.some_bind] at hRem'
    rw [if_pos trivial] at hRem'
    injection hRem' with h2
    injection h2 with he1 h3
    injection h3 with he2 he3
    refine ⟨rfl, he3.symm, ?_, ?_⟩
    · rw [← he2]
      rw [hfitems, hT1zi]
      rfl
    · rw [← he1, hfcount, hT1count]
      omega
/-- The abstract tree of `egT3rm` (whose sentinel's `parent` is dirty
after the preceding removal). -/
def egA3rm : ATree := ATree.node (ATree.node ATree.nil 1 ATree.nil) 2 ATree.nil

/-- Concrete example: `egT3rm` after `Insert 5` (literal snapshot checked
in `claim_C5_witness`). -/
def egT3rmi5 : Rbtree Int :=
  ⟨[⟨none, none, some 2, none, none, none, BLACK⟩,
    ⟨some 0, some 0, some 2, some 0, some 2, some 1, RED⟩,
    ⟨some 1, some 4, some 0, some 1, some 4, some 2, BLACK⟩,
    ⟨some 0, some 0, some 2, some 2, some 0, some 3, RED⟩,
    ⟨some 0, some 0, some 2, some 2, some 0, some 5, RED⟩],
   0, some 2, 3, some 1, some 4⟩

/-- Concrete example: `egT3rmi5` after `Remove 5` (literal snapshot
checked in `claim_C5_witness`). -/
def egT3rmi5r : Rbtree Int :=
  ⟨[⟨none, none, some 2, none, none, none, BLACK⟩,
    ⟨some 0, some 0, some 2, some 0, some 2, some 1, RED⟩,
    ⟨some 1, some 0, some 0, some 1, some 0, some 2, BLACK⟩,
    ⟨some 0, some 0, some 2, some 2, some 0, some 3, RED⟩,
    ⟨some 0, some 0, some 2, some 2, some 0, some 5, RED⟩],
   0, some 2, 2, some 1, some 2⟩

theorem claim_C5_witness :
    true = true ∧ true = true ∧
      (some (ItemBox.item (5 : Int)) : Option (ItemBox Int)) = some (ItemBox.item 5) ∧
      egT3rmi5r.count = egT3rm.count :=
  claim_C5 intLess intLess_weakOrder egT3rm egA3rm
    ⟨by decide, by decide, by decide, by decide, by decide, by decide, by decide,
     by decide, by decide, by decide, by decide, by decide, by decide, by decide⟩
    5 (by decide) egT3rmi5 (some 4) true (by decide)
    egT3rmi5r (some (ItemBox.item 5)) true (by decide)
